import Mathlib

/-!
Verification of the polars logical-plan template/bind core
(`crates/polars-plan/src/plans/ir/mod.rs`).

The development shallowly embeds the arena-allocated IR plan representation and
its two structural transforms, `IRPlan::to_template` (replace every
`DataFrameScan` leaf by a `PlaceholderScan`) and `IRPlan::bind_data` /
`IRPlan::bind_to_df` (replace every `PlaceholderScan` by a clone of a supplied
concrete-data node, validating column counts).

Rust's unbounded recursion is modelled with an explicit fuel parameter: a
`none` / `fault` outcome corresponds to stack exhaustion or dereferencing a
dangling `Node` handle, which in the Rust source is a panic/abort, not a
recoverable error.  All payload types that the transforms merely clone are
embedded as opaque values.
-/

namespace Polars

/-!
Arena handles (the source's `Node`, a newtyped `usize` index) are embedded
as plain `Nat` indices.
-/

/-- Column name component of a schema entry. -/
abbrev ColName := String

/-- Data type component of a schema entry, opaque to the plan core. -/
abbrev DType := String

/-- Ordered list of column name/type pairs; the core only uses `len`,
equality and cloning (`SchemaRef`). -/
abbrev Schema := List (ColName × DType)

/-- Concrete dataframe: opaque to the core beyond exposing `schema()`.
The `data` field stands for the actual column payload. -/
structure DataFrame where
  schema : Schema
  data : Nat
  deriving DecidableEq, Repr

/-- Expression-arena entries (`AExpr`), opaque payload. -/
abbrev AExpr := Nat

/-- Expression reference (`ExprIR`), opaque payload. -/
abbrev ExprIR := Nat

/-- Opaque payload of `Scan` (`ScanSources`). -/
abbrev ScanSources := Nat

/-- Opaque payload of `Scan` (`FileInfo`). -/
abbrev FileInfo := Nat

/-- Opaque payload of `Scan` (`HivePartitionsDf`). -/
abbrev HivePartitionsDf := Nat

/-- Opaque payload of `Scan` (`FileScanIR`). -/
abbrev FileScanIR := Nat

/-- Opaque payload of `Scan` (`UnifiedScanArgs`). -/
abbrev UnifiedScanArgs := Nat

/-- Opaque payload (`ProjectionOptions`). -/
abbrev ProjectionOptions := Nat

/-- Opaque payload (`SortMultipleOptions`). -/
abbrev SortMultipleOptions := Nat

/-- Cache identifier (`UniqueId`). -/
abbrev UniqueId := Nat

/-- Opaque payload (`GroupbyOptions`). -/
abbrev GroupbyOptions := Nat

/-- Opaque payload (`PlanCallback<DataFrame, DataFrame>`). -/
abbrev PlanCallback := Nat

/-- Opaque payload (`JoinOptionsIR`). -/
abbrev JoinOptionsIR := Nat

/-- Opaque payload (`DistinctOptionsIR`). -/
abbrev DistinctOptionsIR := Nat

/-- Opaque payload (`FunctionIR`). -/
abbrev FunctionIR := Nat

/-- Opaque payload (`UnionOptions`). -/
abbrev UnionOptions := Nat

/-- Opaque payload (`HConcatOptions`). -/
abbrev HConcatOptions := Nat

/-- Opaque payload (`SinkTypeIR`). -/
abbrev SinkTypeIR := Nat

/-- Opaque payload (`PythonOptions`). -/
abbrev PythonOptions := Nat

/-- Opaque payload (`IdxSize`). -/
abbrev IdxSize := Nat

/-- Opaque payload (`PlSmallStr`). -/
abbrev PlSmallStr := String

/-- The IR node set: a closed tagged union of plan operators, mirroring the
`enum IR` of the source file constructor by constructor and field by field
(fields whose types the transforms only clone are opaque). -/
inductive IR where
  | PythonScan (options : PythonOptions)
  | Slice (input : Nat) (offset : Int) (len : IdxSize)
  | Filter (input : Nat) (predicate : ExprIR)
  | Scan (sources : ScanSources) (file_info : FileInfo)
      (hive_parts : Option HivePartitionsDf) (predicate : Option ExprIR)
      (predicate_file_skip_applied : Option Bool)
      (output_schema : Option Schema) (scan_type : FileScanIR)
      (unified_scan_args : UnifiedScanArgs)
  | DataFrameScan (df : DataFrame) (schema : Schema)
      (output_schema : Option Schema)
  | PlaceholderScan (schema : Schema) (output_schema : Option Schema)
  | SimpleProjection (input : Nat) (columns : Schema)
  | Select (input : Nat) (expr : List ExprIR) (schema : Schema)
      (options : ProjectionOptions)
  | Sort (input : Nat) (by_column : List ExprIR)
      (slice : Option (Int × Nat)) (sort_options : SortMultipleOptions)
  | Cache (input : Nat) (id : UniqueId)
  | GroupBy (input : Nat) (keys : List ExprIR) (aggs : List ExprIR)
      (schema : Schema) (maintain_order : Bool) (options : GroupbyOptions)
      (apply : Option PlanCallback)
  | Join (input_left : Nat) (input_right : Nat) (schema : Schema)
      (left_on : List ExprIR) (right_on : List ExprIR)
      (options : JoinOptionsIR)
  | HStack (input : Nat) (exprs : List ExprIR) (schema : Schema)
      (options : ProjectionOptions)
  | Distinct (input : Nat) (options : DistinctOptionsIR)
  | MapFunction (input : Nat) (function : FunctionIR)
  | Union (inputs : List Nat) (options : UnionOptions)
  | HConcat (inputs : List Nat) (schema : Schema) (options : HConcatOptions)
  | ExtContext (input : Nat) (contexts : List Nat) (schema : Schema)
  | Sink (input : Nat) (payload : SinkTypeIR)
  | SinkMultiple (inputs : List Nat)
  | MergeSorted (input_left : Nat) (input_right : Nat) (key : PlSmallStr)
  | Invalid
  deriving DecidableEq, Repr

/-- Append-only, index-addressed store owning all nodes of a given kind. -/
structure Arena (T : Type) where
  items : List T
  deriving DecidableEq, Repr

/-- Fresh arena (`Arena::with_capacity` — capacity is a performance hint
only, so it has no observable counterpart here). -/
def Arena.empty {T : Type} : Arena T := ⟨[]⟩

/-- Append a value and return the new arena together with the handle of the
appended entry (`Arena::add`). -/
def Arena.add {T : Type} (a : Arena T) (v : T) : Arena T × Nat :=
  (⟨a.items ++ [v]⟩, a.items.length)

/-- Dereference a handle (`Arena::get`).  A `none` result corresponds to the
Rust panic on an out-of-bounds index. -/
def Arena.get? {T : Type} (a : Arena T) (n : Nat) : Option T :=
  a.items[n]?

/-- Number of entries currently in the arena. -/
def Arena.len {T : Type} (a : Arena T) : Nat := a.items.length

/-- A root handle plus the plan-node arena and the expression arena
(`IRPlan`). -/
structure IRPlan where
  lp_top : Nat
  lp_arena : Arena IR
  expr_arena : Arena AExpr
  deriving DecidableEq, Repr

/-- Recoverable and unrecoverable failure modes of the bind transform.
`schemaMismatch` and `invalidBindTarget` are the two `polars_bail!` paths of
`replace_placeholder` (the source raises the latter as a `ComputeError` with
message "bind_data requires data to be a DataFrameScan"); `fault` models the
Rust panic on a dangling handle and native-stack exhaustion. -/
inductive BindErr where
  | fault
  | invalidBindTarget
  | schemaMismatch (template_cols : Nat) (data_cols : Nat)
  deriving DecidableEq, Repr

/-- Left-to-right conversion of a list of input handles, threading the
destination arena (the `inputs.iter().map(...).collect()` of the source);
`rec` converts one input. -/
def convert_list (rec : Nat → Arena IR → Option (Arena IR × Nat)) :
    List Nat → Arena IR → Option (Arena IR × List Nat)
  | [], new_arena => some (new_arena, [])
  | n :: rest, new_arena =>
    match rec n new_arena with
    | none => none
    | some (a1, n') =>
      match convert_list rec rest a1 with
      | none => none
      | some (a2, rest') => some (a2, n' :: rest')

/-- Body of `IRPlan::convert_to_placeholder`, one recursion level: a
`DataFrameScan` becomes a `PlaceholderScan` with the same schema and output
schema; every node with inputs converts its inputs first (through `rec`)
and is then re-added with the same payload; any other node is cloned
verbatim into the destination arena. -/
def convertStep (old_arena : Arena IR)
    (rec : Nat → Arena IR → Option (Arena IR × Nat))
    (node : Nat) (new_arena : Arena IR) : Option (Arena IR × Nat) :=
  match old_arena.get? node with
  | none => none
  | some ir =>
    match ir with
    | .DataFrameScan _ schema output_schema =>
      some (new_arena.add (.PlaceholderScan schema output_schema))
    | .Select input expr schema options =>
      match rec input new_arena with
      | none => none
      | some (a1, ni) => some (a1.add (.Select ni expr schema options))
    | .Filter input predicate =>
      match rec input new_arena with
      | none => none
      | some (a1, ni) => some (a1.add (.Filter ni predicate))
    | .Slice input offset len =>
      match rec input new_arena with
      | none => none
      | some (a1, ni) => some (a1.add (.Slice ni offset len))
    | .GroupBy input keys aggs schema maintain_order options apply =>
      match rec input new_arena with
      | none => none
      | some (a1, ni) =>
        some (a1.add (.GroupBy ni keys aggs schema maintain_order options apply))
    | .Join input_left input_right schema left_on right_on options =>
      match rec input_left new_arena with
      | none => none
      | some (a1, nl) =>
        match rec input_right a1 with
        | none => none
        | some (a2, nr) =>
          some (a2.add (.Join nl nr schema left_on right_on options))
    | .HStack input exprs schema options =>
      match rec input new_arena with
      | none => none
      | some (a1, ni) => some (a1.add (.HStack ni exprs schema options))
    | .SimpleProjection input columns =>
      match rec input new_arena with
      | none => none
      | some (a1, ni) => some (a1.add (.SimpleProjection ni columns))
    | .Sort input by_column slice sort_options =>
      match rec input new_arena with
      | none => none
      | some (a1, ni) => some (a1.add (.Sort ni by_column slice sort_options))
    | .Distinct input options =>
      match rec input new_arena with
      | none => none
      | some (a1, ni) => some (a1.add (.Distinct ni options))
    | .MapFunction input function =>
      match rec input new_arena with
      | none => none
      | some (a1, ni) => some (a1.add (.MapFunction ni function))
    | .Cache input id =>
      match rec input new_arena with
      | none => none
      | some (a1, ni) => some (a1.add (.Cache ni id))
    | .Union inputs options =>
      match convert_list rec inputs new_arena with
      | none => none
      | some (a1, nis) => some (a1.add (.Union nis options))
    | .HConcat inputs schema options =>
      match convert_list rec inputs new_arena with
      | none => none
      | some (a1, nis) => some (a1.add (.HConcat nis schema options))
    | .ExtContext input contexts schema =>
      match rec input new_arena with
      | none => none
      | some (a1, ni) =>
        match convert_list rec contexts a1 with
        | none => none
        | some (a2, ncs) => some (a2.add (.ExtContext ni ncs schema))
    | .Sink input payload =>
      match rec input new_arena with
      | none => none
      | some (a1, ni) => some (a1.add (.Sink ni payload))
    | .SinkMultiple inputs =>
      match convert_list rec inputs new_arena with
      | none => none
      | some (a1, nis) => some (a1.add (.SinkMultiple nis))
    | .MergeSorted input_left input_right key =>
      match rec input_left new_arena with
      | none => none
      | some (a1, nl) =>
        match rec input_right a1 with
        | none => none
        | some (a2, nr) => some (a2.add (.MergeSorted nl nr key))
    | other => some (new_arena.add other)

/-- Depth-first rewrite behind `IRPlan::to_template`
(`IRPlan::convert_to_placeholder`).  `fuel` bounds the recursion depth
(Rust's native call stack); each level runs `convertStep` with the next
level as `rec`. -/
def convert_to_placeholder : Nat → Nat → Arena IR → Arena IR →
    Option (Arena IR × Nat)
  | 0, _, _, _ => none
  | fuel' + 1, node, old_arena, new_arena =>
    convertStep old_arena
      (fun n a => convert_to_placeholder fuel' n old_arena a) node new_arena

/-- Convert a plan to a template by replacing `DataFrameScan` nodes with
`PlaceholderScan` (`IRPlan::to_template`): rebuilds the plan into a fresh
arena and clones the expression arena. -/
def IRPlan.to_template (fuel : Nat) (p : IRPlan) : Option IRPlan :=
  match convert_to_placeholder fuel p.lp_top p.lp_arena Arena.empty with
  | none => none
  | some (new_arena, new_top) => some ⟨new_top, new_arena, p.expr_arena⟩

/-- Left-to-right binding of a list of input handles, threading the
destination arena and aborting on the first error
(`collect::<PolarsResult<_>>()`); `rec` binds one input. -/
def replace_list (rec : Nat → Arena IR → Except BindErr (Arena IR × Nat)) :
    List Nat → Arena IR → Except BindErr (Arena IR × List Nat)
  | [], new_arena => .ok (new_arena, [])
  | n :: rest, new_arena =>
    match rec n new_arena with
    | .error e => .error e
    | .ok (a1, n') =>
      match replace_list rec rest a1 with
      | .error e => .error e
      | .ok (a2, rest') => .ok (a2, n' :: rest')

/-- Body of `IRPlan::replace_placeholder`, one recursion level: a
`PlaceholderScan` dereferences the supplied data node, requires it to be a
`DataFrameScan`, requires equal schema column counts, and adds a clone of
the data node; every node with inputs recursively binds its inputs first
(through `rec`); any other node is cloned verbatim.  Errors abort the whole
rewrite. -/
def replaceStep (data_node : Nat) (data_arena template_arena : Arena IR)
    (rec : Nat → Arena IR → Except BindErr (Arena IR × Nat))
    (node : Nat) (new_arena : Arena IR) : Except BindErr (Arena IR × Nat) :=
  match template_arena.get? node with
  | none => .error .fault
  | some ir =>
    match ir with
    | .PlaceholderScan schema _ =>
      match data_arena.get? data_node with
      | none => .error .fault
      | some data_ir =>
        match data_ir with
        | .DataFrameScan df data_schema data_output_schema =>
          if schema.length ≠ data_schema.length then
            .error (.schemaMismatch schema.length data_schema.length)
          else
            .ok (new_arena.add (.DataFrameScan df data_schema data_output_schema))
        | _ => .error .invalidBindTarget
    | .Select input expr schema options =>
      match rec input new_arena with
      | .error e => .error e
      | .ok (a1, ni) => .ok (a1.add (.Select ni expr schema options))
    | .Filter input predicate =>
      match rec input new_arena with
      | .error e => .error e
      | .ok (a1, ni) => .ok (a1.add (.Filter ni predicate))
    | .Slice input offset len =>
      match rec input new_arena with
      | .error e => .error e
      | .ok (a1, ni) => .ok (a1.add (.Slice ni offset len))
    | .GroupBy input keys aggs schema maintain_order options apply =>
      match rec input new_arena with
      | .error e => .error e
      | .ok (a1, ni) =>
        .ok (a1.add (.GroupBy ni keys aggs schema maintain_order options apply))
    | .Join input_left input_right schema left_on right_on options =>
      match rec input_left new_arena with
      | .error e => .error e
      | .ok (a1, nl) =>
        match rec input_right a1 with
        | .error e => .error e
        | .ok (a2, nr) =>
          .ok (a2.add (.Join nl nr schema left_on right_on options))
    | .HStack input exprs schema options =>
      match rec input new_arena with
      | .error e => .error e
      | .ok (a1, ni) => .ok (a1.add (.HStack ni exprs schema options))
    | .SimpleProjection input columns =>
      match rec input new_arena with
      | .error e => .error e
      | .ok (a1, ni) => .ok (a1.add (.SimpleProjection ni columns))
    | .Sort input by_column slice sort_options =>
      match rec input new_arena with
      | .error e => .error e
      | .ok (a1, ni) => .ok (a1.add (.Sort ni by_column slice sort_options))
    | .Distinct input options =>
      match rec input new_arena with
      | .error e => .error e
      | .ok (a1, ni) => .ok (a1.add (.Distinct ni options))
    | .MapFunction input function =>
      match rec input new_arena with
      | .error e => .error e
      | .ok (a1, ni) => .ok (a1.add (.MapFunction ni function))
    | .Cache input id =>
      match rec input new_arena with
      | .error e => .error e
      | .ok (a1, ni) => .ok (a1.add (.Cache ni id))
    | .Union inputs options =>
      match replace_list rec inputs new_arena with
      | .error e => .error e
      | .ok (a1, nis) => .ok (a1.add (.Union nis options))
    | .HConcat inputs schema options =>
      match replace_list rec inputs new_arena with
      | .error e => .error e
      | .ok (a1, nis) => .ok (a1.add (.HConcat nis schema options))
    | .ExtContext input contexts schema =>
      match rec input new_arena with
      | .error e => .error e
      | .ok (a1, ni) =>
        match replace_list rec contexts a1 with
        | .error e => .error e
        | .ok (a2, ncs) => .ok (a2.add (.ExtContext ni ncs schema))
    | .Sink input payload =>
      match rec input new_arena with
      | .error e => .error e
      | .ok (a1, ni) => .ok (a1.add (.Sink ni payload))
    | .SinkMultiple inputs =>
      match replace_list rec inputs new_arena with
      | .error e => .error e
      | .ok (a1, nis) => .ok (a1.add (.SinkMultiple nis))
    | .MergeSorted input_left input_right key =>
      match rec input_left new_arena with
      | .error e => .error e
      | .ok (a1, nl) =>
        match rec input_right a1 with
        | .error e => .error e
        | .ok (a2, nr) => .ok (a2.add (.MergeSorted nl nr key))
    | other => .ok (new_arena.add other)

/-- Depth-first rewrite behind `IRPlan::bind_data`
(`IRPlan::replace_placeholder`).  `fuel` bounds the recursion depth; each
level runs `replaceStep` with the next level as `rec`. -/
def replace_placeholder : Nat → Nat → Nat → Arena IR → Arena IR →
    Arena IR → Except BindErr (Arena IR × Nat)
  | 0, _, _, _, _, _ => .error .fault
  | fuel' + 1, node, data_node, data_arena, template_arena, new_arena =>
    replaceStep data_node data_arena template_arena
      (fun n a =>
        replace_placeholder fuel' n data_node data_arena template_arena a)
      node new_arena

/-- Bind a template plan to actual data (`IRPlan::bind_data`): rebuilds the
plan into a fresh arena, replacing all `PlaceholderScan` nodes with the
provided data scan node, and clones the expression arena. -/
def IRPlan.bind_data (fuel : Nat) (p : IRPlan) (data_node : Nat)
    (data_arena : Arena IR) : Except BindErr IRPlan :=
  match replace_placeholder fuel p.lp_top data_node data_arena p.lp_arena Arena.empty with
  | .error e => .error e
  | .ok (new_arena, new_top) => .ok ⟨new_top, new_arena, p.expr_arena⟩

/-- Bind a template plan to a DataFrame (`IRPlan::bind_to_df`): wraps the
dataframe into a single-node arena as a `DataFrameScan` with the dataframe's
schema and no output schema, then calls `bind_data`. -/
def IRPlan.bind_to_df (fuel : Nat) (p : IRPlan) (df : DataFrame) :
    Except BindErr IRPlan :=
  let schema := df.schema
  let added := (Arena.empty : Arena IR).add (.DataFrameScan df schema none)
  p.bind_data fuel added.2 added.1

/-- Input handles carried by a node, in the order the transforms visit them
(mirrors the `inputs` module of the source: single-input ops, `Join` and
`MergeSorted` left-then-right, `ExtContext` primary input followed by its
contexts, and the leaf variants with no inputs). -/
def IR.inputsOf : IR → List Nat
  | .Slice input _ _ => [input]
  | .Filter input _ => [input]
  | .SimpleProjection input _ => [input]
  | .Select input _ _ _ => [input]
  | .Sort input _ _ _ => [input]
  | .Cache input _ => [input]
  | .GroupBy input _ _ _ _ _ _ => [input]
  | .Join input_left input_right _ _ _ _ => [input_left, input_right]
  | .HStack input _ _ _ => [input]
  | .Distinct input _ => [input]
  | .MapFunction input _ => [input]
  | .Union inputs _ => inputs
  | .HConcat inputs _ _ => inputs
  | .ExtContext input contexts _ => input :: contexts
  | .Sink input _ => [input]
  | .SinkMultiple inputs => inputs
  | .MergeSorted input_left input_right _ => [input_left, input_right]
  | _ => []

/-- Arena-free unfolding of a plan: the same operator set with inputs stored
inline as subtrees.  Used to state shape/isomorphism properties of the
transforms. -/
inductive IRTree where
  | PythonScan (options : PythonOptions)
  | Slice (input : IRTree) (offset : Int) (len : IdxSize)
  | Filter (input : IRTree) (predicate : ExprIR)
  | Scan (sources : ScanSources) (file_info : FileInfo)
      (hive_parts : Option HivePartitionsDf) (predicate : Option ExprIR)
      (predicate_file_skip_applied : Option Bool)
      (output_schema : Option Schema) (scan_type : FileScanIR)
      (unified_scan_args : UnifiedScanArgs)
  | DataFrameScan (df : DataFrame) (schema : Schema)
      (output_schema : Option Schema)
  | PlaceholderScan (schema : Schema) (output_schema : Option Schema)
  | SimpleProjection (input : IRTree) (columns : Schema)
  | Select (input : IRTree) (expr : List ExprIR) (schema : Schema)
      (options : ProjectionOptions)
  | Sort (input : IRTree) (by_column : List ExprIR)
      (slice : Option (Int × Nat)) (sort_options : SortMultipleOptions)
  | Cache (input : IRTree) (id : UniqueId)
  | GroupBy (input : IRTree) (keys : List ExprIR) (aggs : List ExprIR)
      (schema : Schema) (maintain_order : Bool) (options : GroupbyOptions)
      (apply : Option PlanCallback)
  | Join (input_left : IRTree) (input_right : IRTree) (schema : Schema)
      (left_on : List ExprIR) (right_on : List ExprIR)
      (options : JoinOptionsIR)
  | HStack (input : IRTree) (exprs : List ExprIR) (schema : Schema)
      (options : ProjectionOptions)
  | Distinct (input : IRTree) (options : DistinctOptionsIR)
  | MapFunction (input : IRTree) (function : FunctionIR)
  | Union (inputs : List IRTree) (options : UnionOptions)
  | HConcat (inputs : List IRTree) (schema : Schema)
      (options : HConcatOptions)
  | ExtContext (input : IRTree) (contexts : List IRTree) (schema : Schema)
  | Sink (input : IRTree) (payload : SinkTypeIR)
  | SinkMultiple (inputs : List IRTree)
  | MergeSorted (input_left : IRTree) (input_right : IRTree)
      (key : PlSmallStr)
  | Invalid

/-- Reassemble a node value and the unfoldings of its inputs into a tree
(the inverse direction of `IR.inputsOf`).  Arity mismatches, which cannot
arise for trees produced by `toTree`, fall through to `Invalid`. -/
def rebuildIR : IR → List IRTree → IRTree
  | .Slice _ offset len, [t] => .Slice t offset len
  | .Filter _ predicate, [t] => .Filter t predicate
  | .SimpleProjection _ columns, [t] => .SimpleProjection t columns
  | .Select _ expr schema options, [t] => .Select t expr schema options
  | .Sort _ by_column slice sort_options, [t] =>
    .Sort t by_column slice sort_options
  | .Cache _ id, [t] => .Cache t id
  | .GroupBy _ keys aggs schema maintain_order options apply, [t] =>
    .GroupBy t keys aggs schema maintain_order options apply
  | .Join _ _ schema left_on right_on options, [l, r] =>
    .Join l r schema left_on right_on options
  | .HStack _ exprs schema options, [t] => .HStack t exprs schema options
  | .Distinct _ options, [t] => .Distinct t options
  | .MapFunction _ function, [t] => .MapFunction t function
  | .Union _ options, ts => .Union ts options
  | .HConcat _ schema options, ts => .HConcat ts schema options
  | .ExtContext _ _ schema, t :: cs => .ExtContext t cs schema
  | .Sink _ payload, [t] => .Sink t payload
  | .SinkMultiple _, ts => .SinkMultiple ts
  | .MergeSorted _ _ key, [l, r] => .MergeSorted l r key
  | .PythonScan options, _ => .PythonScan options
  | .Scan sources file_info hive_parts predicate skip os st ua, _ =>
    .Scan sources file_info hive_parts predicate skip os st ua
  | .DataFrameScan df schema output_schema, _ =>
    .DataFrameScan df schema output_schema
  | .PlaceholderScan schema output_schema, _ =>
    .PlaceholderScan schema output_schema
  | _, _ => .Invalid

/-- Unfold a list of handles left to right; `rec` unfolds one handle. -/
def toTreeListWith (rec : Nat → Option IRTree) :
    List Nat → Option (List IRTree)
  | [] => some []
  | n :: rest =>
    match rec n with
    | none => none
    | some t =>
      match toTreeListWith rec rest with
      | none => none
      | some ts => some (t :: ts)

/-- Unfold the plan rooted at `n` into a tree, following input handles
through the arena; `none` on a dangling handle or exhausted fuel. -/
def toTree : Nat → Arena IR → Nat → Option IRTree
  | 0, _, _ => none
  | fuel' + 1, a, n =>
    match a.get? n with
    | none => none
    | some ir =>
      match toTreeListWith (toTree fuel' a) ir.inputsOf with
      | none => none
      | some ts => some (rebuildIR ir ts)

/-- Unfold a list of handles at a given fuel level. -/
def toTreeList (fuel : Nat) (a : Arena IR) (ns : List Nat) :
    Option (List IRTree) :=
  toTreeListWith (toTree fuel a) ns

mutual

/-- Template transform stated on trees, following the specification text:
every `DataFrameScan` leaf becomes a `PlaceholderScan` carrying the same
schema and output schema, every node with inputs is re-emitted as the same
variant with recursively transformed inputs and all other payload fields
unchanged, and every other node is kept verbatim. -/
def templateTree : IRTree → IRTree
  | .DataFrameScan _ schema output_schema =>
    .PlaceholderScan schema output_schema
  | .Select input expr schema options =>
    .Select (templateTree input) expr schema options
  | .Filter input predicate => .Filter (templateTree input) predicate
  | .Slice input offset len => .Slice (templateTree input) offset len
  | .GroupBy input keys aggs schema maintain_order options apply =>
    .GroupBy (templateTree input) keys aggs schema maintain_order options apply
  | .Join input_left input_right schema left_on right_on options =>
    .Join (templateTree input_left) (templateTree input_right) schema
      left_on right_on options
  | .HStack input exprs schema options =>
    .HStack (templateTree input) exprs schema options
  | .SimpleProjection input columns =>
    .SimpleProjection (templateTree input) columns
  | .Sort input by_column slice sort_options =>
    .Sort (templateTree input) by_column slice sort_options
  | .Distinct input options => .Distinct (templateTree input) options
  | .MapFunction input function => .MapFunction (templateTree input) function
  | .Cache input id => .Cache (templateTree input) id
  | .Union inputs options => .Union (templateTreeList inputs) options
  | .HConcat inputs schema options =>
    .HConcat (templateTreeList inputs) schema options
  | .ExtContext input contexts schema =>
    .ExtContext (templateTree input) (templateTreeList contexts) schema
  | .Sink input payload => .Sink (templateTree input) payload
  | .SinkMultiple inputs => .SinkMultiple (templateTreeList inputs)
  | .MergeSorted input_left input_right key =>
    .MergeSorted (templateTree input_left) (templateTree input_right) key
  | t => t

/-- Pointwise template transform of a list of subtrees. -/
def templateTreeList : List IRTree → List IRTree
  | [] => []
  | t :: ts => templateTree t :: templateTreeList ts

end

mutual

/-- Bind transform stated on trees: `o` is the dereferenced supplied data
node (`none` models a dangling data handle).  At each `PlaceholderScan` the
data must be a `DataFrameScan` with equal schema column count, and the
placeholder is replaced by a copy of the data node; other leaves are kept
and interior nodes recurse on their inputs left to right, aborting on the
first error. -/
def bindTree (o : Option IR) : IRTree → Except BindErr IRTree
  | .PlaceholderScan schema _ =>
    match o with
    | none => .error .fault
    | some data_ir =>
      match data_ir with
      | .DataFrameScan df data_schema data_output_schema =>
        if schema.length ≠ data_schema.length then
          .error (.schemaMismatch schema.length data_schema.length)
        else
          .ok (.DataFrameScan df data_schema data_output_schema)
      | _ => .error .invalidBindTarget
  | .Select input expr schema options =>
    match bindTree o input with
    | .error e => .error e
    | .ok t => .ok (.Select t expr schema options)
  | .Filter input predicate =>
    match bindTree o input with
    | .error e => .error e
    | .ok t => .ok (.Filter t predicate)
  | .Slice input offset len =>
    match bindTree o input with
    | .error e => .error e
    | .ok t => .ok (.Slice t offset len)
  | .GroupBy input keys aggs schema maintain_order options apply =>
    match bindTree o input with
    | .error e => .error e
    | .ok t => .ok (.GroupBy t keys aggs schema maintain_order options apply)
  | .Join input_left input_right schema left_on right_on options =>
    match bindTree o input_left with
    | .error e => .error e
    | .ok l =>
      match bindTree o input_right with
      | .error e => .error e
      | .ok r => .ok (.Join l r schema left_on right_on options)
  | .HStack input exprs schema options =>
    match bindTree o input with
    | .error e => .error e
    | .ok t => .ok (.HStack t exprs schema options)
  | .SimpleProjection input columns =>
    match bindTree o input with
    | .error e => .error e
    | .ok t => .ok (.SimpleProjection t columns)
  | .Sort input by_column slice sort_options =>
    match bindTree o input with
    | .error e => .error e
    | .ok t => .ok (.Sort t by_column slice sort_options)
  | .Distinct input options =>
    match bindTree o input with
    | .error e => .error e
    | .ok t => .ok (.Distinct t options)
  | .MapFunction input function =>
    match bindTree o input with
    | .error e => .error e
    | .ok t => .ok (.MapFunction t function)
  | .Cache input id =>
    match bindTree o input with
    | .error e => .error e
    | .ok t => .ok (.Cache t id)
  | .Union inputs options =>
    match bindTreeList o inputs with
    | .error e => .error e
    | .ok ts => .ok (.Union ts options)
  | .HConcat inputs schema options =>
    match bindTreeList o inputs with
    | .error e => .error e
    | .ok ts => .ok (.HConcat ts schema options)
  | .ExtContext input contexts schema =>
    match bindTree o input with
    | .error e => .error e
    | .ok t =>
      match bindTreeList o contexts with
      | .error e => .error e
      | .ok cs => .ok (.ExtContext t cs schema)
  | .Sink input payload =>
    match bindTree o input with
    | .error e => .error e
    | .ok t => .ok (.Sink t payload)
  | .SinkMultiple inputs =>
    match bindTreeList o inputs with
    | .error e => .error e
    | .ok ts => .ok (.SinkMultiple ts)
  | .MergeSorted input_left input_right key =>
    match bindTree o input_left with
    | .error e => .error e
    | .ok l =>
      match bindTree o input_right with
      | .error e => .error e
      | .ok r => .ok (.MergeSorted l r key)
  | t => .ok t

/-- Pointwise bind of a list of subtrees, aborting on the first error. -/
def bindTreeList (o : Option IR) : List IRTree → Except BindErr (List IRTree)
  | [] => .ok []
  | t :: ts =>
    match bindTree o t with
    | .error e => .error e
    | .ok t' =>
      match bindTreeList o ts with
      | .error e => .error e
      | .ok ts' => .ok (t' :: ts')

end

/-- Immediate subtrees of a tree node, in transform visiting order. -/
def IRTree.children : IRTree → List IRTree
  | .Slice input _ _ => [input]
  | .Filter input _ => [input]
  | .SimpleProjection input _ => [input]
  | .Select input _ _ _ => [input]
  | .Sort input _ _ _ => [input]
  | .Cache input _ => [input]
  | .GroupBy input _ _ _ _ _ _ => [input]
  | .Join input_left input_right _ _ _ _ => [input_left, input_right]
  | .HStack input _ _ _ => [input]
  | .Distinct input _ => [input]
  | .MapFunction input _ => [input]
  | .Union inputs _ => inputs
  | .HConcat inputs _ _ => inputs
  | .ExtContext input contexts _ => input :: contexts
  | .Sink input _ => [input]
  | .SinkMultiple inputs => inputs
  | .MergeSorted input_left input_right _ => [input_left, input_right]
  | _ => []

/-- Constructor tag of a tree node, used to state that the transforms
re-emit the same variant. -/
def IRTree.tag : IRTree → Nat
  | .PythonScan _ => 0
  | .Slice _ _ _ => 1
  | .Filter _ _ => 2
  | .Scan _ _ _ _ _ _ _ _ => 3
  | .DataFrameScan _ _ _ => 4
  | .PlaceholderScan _ _ => 5
  | .SimpleProjection _ _ => 6
  | .Select _ _ _ _ => 7
  | .Sort _ _ _ _ => 8
  | .Cache _ _ => 9
  | .GroupBy _ _ _ _ _ _ _ => 10
  | .Join _ _ _ _ _ _ => 11
  | .HStack _ _ _ _ => 12
  | .Distinct _ _ => 13
  | .MapFunction _ _ => 14
  | .Union _ _ => 15
  | .HConcat _ _ _ => 16
  | .ExtContext _ _ _ => 17
  | .Sink _ _ => 18
  | .SinkMultiple _ => 19
  | .MergeSorted _ _ _ => 20
  | .Invalid => 21

mutual

/-- Does some leaf of the tree (a node with no inputs) satisfy `p`?
Interior nodes recurse on their inputs; leaves are tested with `p`. -/
def anyLeaf (p : IRTree → Bool) : IRTree → Bool
  | .Select input _ _ _ => anyLeaf p input
  | .Filter input _ => anyLeaf p input
  | .Slice input _ _ => anyLeaf p input
  | .GroupBy input _ _ _ _ _ _ => anyLeaf p input
  | .Join input_left input_right _ _ _ _ =>
    anyLeaf p input_left || anyLeaf p input_right
  | .HStack input _ _ _ => anyLeaf p input
  | .SimpleProjection input _ => anyLeaf p input
  | .Sort input _ _ _ => anyLeaf p input
  | .Distinct input _ => anyLeaf p input
  | .MapFunction input _ => anyLeaf p input
  | .Cache input _ => anyLeaf p input
  | .Union inputs _ => anyLeafList p inputs
  | .HConcat inputs _ _ => anyLeafList p inputs
  | .ExtContext input contexts _ =>
    anyLeaf p input || anyLeafList p contexts
  | .Sink input _ => anyLeaf p input
  | .SinkMultiple inputs => anyLeafList p inputs
  | .MergeSorted input_left input_right _ =>
    anyLeaf p input_left || anyLeaf p input_right
  | t => p t

/-- List version of `anyLeaf`. -/
def anyLeafList (p : IRTree → Bool) : List IRTree → Bool
  | [] => false
  | t :: ts => anyLeaf p t || anyLeafList p ts

end

mutual

/-- Does every leaf of the tree satisfy `p`? -/
def allLeaf (p : IRTree → Bool) : IRTree → Bool
  | .Select input _ _ _ => allLeaf p input
  | .Filter input _ => allLeaf p input
  | .Slice input _ _ => allLeaf p input
  | .GroupBy input _ _ _ _ _ _ => allLeaf p input
  | .Join input_left input_right _ _ _ _ =>
    allLeaf p input_left && allLeaf p input_right
  | .HStack input _ _ _ => allLeaf p input
  | .SimpleProjection input _ => allLeaf p input
  | .Sort input _ _ _ => allLeaf p input
  | .Distinct input _ => allLeaf p input
  | .MapFunction input _ => allLeaf p input
  | .Cache input _ => allLeaf p input
  | .Union inputs _ => allLeafList p inputs
  | .HConcat inputs _ _ => allLeafList p inputs
  | .ExtContext input contexts _ =>
    allLeaf p input && allLeafList p contexts
  | .Sink input _ => allLeaf p input
  | .SinkMultiple inputs => allLeafList p inputs
  | .MergeSorted input_left input_right _ =>
    allLeaf p input_left && allLeaf p input_right
  | t => p t

/-- List version of `allLeaf`. -/
def allLeafList (p : IRTree → Bool) : List IRTree → Bool
  | [] => true
  | t :: ts => allLeaf p t && allLeafList p ts

end

mutual

/-- First leaf value produced by `p`, visiting leaves depth-first left to
right (the traversal order of both transforms). -/
def firstLeaf (p : IRTree → Option Nat) : IRTree → Option Nat
  | .Select input _ _ _ => firstLeaf p input
  | .Filter input _ => firstLeaf p input
  | .Slice input _ _ => firstLeaf p input
  | .GroupBy input _ _ _ _ _ _ => firstLeaf p input
  | .Join input_left input_right _ _ _ _ =>
    match firstLeaf p input_left with
    | some n => some n
    | none => firstLeaf p input_right
  | .HStack input _ _ _ => firstLeaf p input
  | .SimpleProjection input _ => firstLeaf p input
  | .Sort input _ _ _ => firstLeaf p input
  | .Distinct input _ => firstLeaf p input
  | .MapFunction input _ => firstLeaf p input
  | .Cache input _ => firstLeaf p input
  | .Union inputs _ => firstLeafList p inputs
  | .HConcat inputs _ _ => firstLeafList p inputs
  | .ExtContext input contexts _ =>
    match firstLeaf p input with
    | some n => some n
    | none => firstLeafList p contexts
  | .Sink input _ => firstLeaf p input
  | .SinkMultiple inputs => firstLeafList p inputs
  | .MergeSorted input_left input_right _ =>
    match firstLeaf p input_left with
    | some n => some n
    | none => firstLeaf p input_right
  | t => p t

/-- List version of `firstLeaf`. -/
def firstLeafList (p : IRTree → Option Nat) : List IRTree → Option Nat
  | [] => none
  | t :: ts =>
    match firstLeaf p t with
    | some n => some n
    | none => firstLeafList p ts

end

/-- Leaf test: is this a `PlaceholderScan`? -/
def isPHLeaf : IRTree → Bool
  | .PlaceholderScan _ _ => true
  | _ => false

/-- Does the tree contain a `PlaceholderScan` leaf? -/
def hasPH (t : IRTree) : Bool := anyLeaf isPHLeaf t

/-- Leaf test: a `PlaceholderScan` with exactly `c` columns. -/
def isPHCountLeaf (c : Nat) : IRTree → Bool
  | .PlaceholderScan schema _ => schema.length = c
  | _ => false

/-- Does the tree contain a `PlaceholderScan` leaf whose schema has exactly
`c` columns? -/
def hasPHCount (c : Nat) (t : IRTree) : Bool := anyLeaf (isPHCountLeaf c) t

/-- Leaf test: every `PlaceholderScan` must have exactly `c` columns; other
leaves pass. -/
def phCountOkLeaf (c : Nat) : IRTree → Bool
  | .PlaceholderScan schema _ => schema.length = c
  | _ => true

/-- Does every `PlaceholderScan` leaf of the tree have exactly `c`
columns? -/
def phCountsOk (c : Nat) (t : IRTree) : Bool := allLeaf (phCountOkLeaf c) t

/-- Leaf probe: the column count of a `PlaceholderScan` whose count differs
from `c`. -/
def mismatchLeaf (c : Nat) : IRTree → Option Nat
  | .PlaceholderScan schema _ =>
    if schema.length ≠ c then some schema.length else none
  | _ => none

/-- Column count of the first `PlaceholderScan` leaf, in depth-first
left-to-right visiting order, whose column count differs from `c`
(`none` if every placeholder has exactly `c` columns). -/
def firstMismatch (c : Nat) (t : IRTree) : Option Nat :=
  firstLeaf (mismatchLeaf c) t

/-- Leaf test: a `DataFrameScan` whose schema is `S`. -/
def isDFSchemaLeaf (S : Schema) : IRTree → Bool
  | .DataFrameScan _ schema _ => schema = S
  | _ => false

/-- Does the tree contain a `DataFrameScan` leaf whose schema is `S`? -/
def hasDFSchema (S : Schema) (t : IRTree) : Bool :=
  anyLeaf (isDFSchemaLeaf S) t

/-- Leaf test: a `PlaceholderScan` whose schema is `S`. -/
def isPHSchemaLeaf (S : Schema) : IRTree → Bool
  | .PlaceholderScan schema _ => schema = S
  | _ => false

/-- Does the tree contain a `PlaceholderScan` leaf whose schema is `S`? -/
def hasPHSchema (S : Schema) (t : IRTree) : Bool :=
  anyLeaf (isPHSchemaLeaf S) t

/-- Leaf test: every `DataFrameScan` or `PlaceholderScan` must have exactly
`c` columns; other leaves pass. -/
def leafCountOkLeaf (c : Nat) : IRTree → Bool
  | .DataFrameScan _ schema _ => schema.length = c
  | .PlaceholderScan schema _ => schema.length = c
  | _ => true

/-- Does every `DataFrameScan` and every `PlaceholderScan` leaf of the tree
have a schema with exactly `c` columns? -/
def leafCountsOk (c : Nat) (t : IRTree) : Bool :=
  allLeaf (leafCountOkLeaf c) t

mutual

/-- Replace every `PlaceholderScan` leaf of the tree by a `DataFrameScan`
of the given dataframe, schema and output schema, leaving everything else
unchanged: the expected result of a successful bind. -/
def substPH (df : DataFrame) (ds : Schema) (oos : Option Schema) :
    IRTree → IRTree
  | .PlaceholderScan _ _ => .DataFrameScan df ds oos
  | .Select input expr schema options =>
    .Select (substPH df ds oos input) expr schema options
  | .Filter input predicate => .Filter (substPH df ds oos input) predicate
  | .Slice input offset len => .Slice (substPH df ds oos input) offset len
  | .GroupBy input keys aggs schema maintain_order options apply =>
    .GroupBy (substPH df ds oos input) keys aggs schema maintain_order
      options apply
  | .Join input_left input_right schema left_on right_on options =>
    .Join (substPH df ds oos input_left) (substPH df ds oos input_right)
      schema left_on right_on options
  | .HStack input exprs schema options =>
    .HStack (substPH df ds oos input) exprs schema options
  | .SimpleProjection input columns =>
    .SimpleProjection (substPH df ds oos input) columns
  | .Sort input by_column slice sort_options =>
    .Sort (substPH df ds oos input) by_column slice sort_options
  | .Distinct input options => .Distinct (substPH df ds oos input) options
  | .MapFunction input function =>
    .MapFunction (substPH df ds oos input) function
  | .Cache input id => .Cache (substPH df ds oos input) id
  | .Union inputs options => .Union (substPHList df ds oos inputs) options
  | .HConcat inputs schema options =>
    .HConcat (substPHList df ds oos inputs) schema options
  | .ExtContext input contexts schema =>
    .ExtContext (substPH df ds oos input) (substPHList df ds oos contexts)
      schema
  | .Sink input payload => .Sink (substPH df ds oos input) payload
  | .SinkMultiple inputs => .SinkMultiple (substPHList df ds oos inputs)
  | .MergeSorted input_left input_right key =>
    .MergeSorted (substPH df ds oos input_left)
      (substPH df ds oos input_right) key
  | t => t

/-- List version of `substPH`. -/
def substPHList (df : DataFrame) (ds : Schema) (oos : Option Schema) :
    List IRTree → List IRTree
  | [] => []
  | t :: ts => substPH df ds oos t :: substPHList df ds oos ts

end

/-- Destination-arena well-formedness: every entry's recorded input handles
are strictly smaller than the entry's own index.  In an append-only arena
this says exactly that every child was allocated strictly before its parent,
so every recorded handle was valid the instant it was recorded, and every
node reachable from an in-bounds root stays in bounds. -/
def ClosedArena (a : Arena IR) : Prop :=
  ∀ (i : Nat) (ir : IR), a.get? i = some ir → ∀ m ∈ ir.inputsOf, m < i

/-- Induction statement for `convert_to_placeholder`: on a source node that
unfolds to tree `t`, the transform succeeds, extends the destination arena,
returns the index of the last entry, preserves closedness, and the result
unfolds to `templateTree t`. -/
abbrev CvtNodeStmt (fuel : Nat) : Prop :=
  ∀ (old : Arena IR) (n : Nat) (t : IRTree) (new : Arena IR),
    toTree fuel old n = some t →
    ∃ ext k,
      convert_to_placeholder fuel n old new = some (⟨new.items ++ ext⟩, k) ∧
      k + 1 = new.items.length + ext.length ∧
      (ClosedArena new → ClosedArena ⟨new.items ++ ext⟩) ∧
      toTree fuel ⟨new.items ++ ext⟩ k = some (templateTree t)

/-- Induction statement for `convert_list`, the list companion of
`CvtNodeStmt`. -/
abbrev CvtListStmt (fuel : Nat) : Prop :=
  ∀ (old : Arena IR) (ns : List Nat) (ts : List IRTree) (new : Arena IR),
    toTreeList fuel old ns = some ts →
    ∃ ext ks,
      convert_list (fun n a => convert_to_placeholder fuel n old a) ns new =
        some (⟨new.items ++ ext⟩, ks) ∧
      (∀ kk ∈ ks, kk < new.items.length + ext.length) ∧
      (ClosedArena new → ClosedArena ⟨new.items ++ ext⟩) ∧
      toTreeList fuel ⟨new.items ++ ext⟩ ks = some (templateTreeList ts)

/-- Induction statement for `replace_placeholder`: on a template node that
unfolds to tree `t`, the transform returns exactly the error that
`bindTree` produces, or on success extends the destination arena, returns
the index of the last entry, preserves closedness, and the result unfolds
to the `bindTree` result. -/
abbrev RepNodeStmt (fuel : Nat) : Prop :=
  ∀ (tmpl : Arena IR) (n : Nat) (t : IRTree),
    toTree fuel tmpl n = some t →
    ∀ (data_node : Nat) (data_arena : Arena IR) (new : Arena IR),
      (∀ e, bindTree (data_arena.get? data_node) t = .error e →
        replace_placeholder fuel n data_node data_arena tmpl new = .error e) ∧
      (∀ t', bindTree (data_arena.get? data_node) t = .ok t' →
        ∃ ext k,
          replace_placeholder fuel n data_node data_arena tmpl new =
            .ok (⟨new.items ++ ext⟩, k) ∧
          k + 1 = new.items.length + ext.length ∧
          (ClosedArena new → ClosedArena ⟨new.items ++ ext⟩) ∧
          toTree fuel ⟨new.items ++ ext⟩ k = some t')

/-- Induction statement for `replace_list`, the list companion of
`RepNodeStmt`. -/
abbrev RepListStmt (fuel : Nat) : Prop :=
  ∀ (tmpl : Arena IR) (ns : List Nat) (ts : List IRTree),
    toTreeList fuel tmpl ns = some ts →
    ∀ (data_node : Nat) (data_arena : Arena IR) (new : Arena IR),
      (∀ e, bindTreeList (data_arena.get? data_node) ts = .error e →
        replace_list
          (fun n a => replace_placeholder fuel n data_node data_arena tmpl a)
          ns new = .error e) ∧
      (∀ ts', bindTreeList (data_arena.get? data_node) ts = .ok ts' →
        ∃ ext ks,
          replace_list
            (fun n a => replace_placeholder fuel n data_node data_arena tmpl a)
            ns new = .ok (⟨new.items ++ ext⟩, ks) ∧
          (∀ kk ∈ ks, kk < new.items.length + ext.length) ∧
          (ClosedArena new → ClosedArena ⟨new.items ++ ext⟩) ∧
          toTreeList fuel ⟨new.items ++ ext⟩ ks = some ts')

/-- Example schema with two columns, the concrete scenario of the spec. -/
def schemaAB : Schema := [("a", "Int"), ("b", "Str")]

/-- Example dataframe with schema `schemaAB`. -/
def dfAB : DataFrame := ⟨schemaAB, 0⟩

/-- A second dataframe with schema `schemaAB` but different data, used to
bind templates. -/
def dfAB2 : DataFrame := ⟨schemaAB, 7⟩

/-- Example single-column schema. -/
def schemaA : Schema := [("a", "Int")]

/-- Example dataframe with the single-column schema. -/
def dfA : DataFrame := ⟨schemaA, 1⟩

/-- A second single-column dataframe used to bind templates. -/
def dfA2 : DataFrame := ⟨schemaA, 9⟩

/-- Example three-column dataframe, used to provoke schema mismatches. -/
def dfC3 : DataFrame := ⟨[("x", "Int"), ("y", "Int"), ("z", "Int")], 4⟩

/-- Example plan: `Select` over `Filter` over
`DataFrameScan(schema = {a: Int, b: Str})` (the concrete scenario of the
spec), laid out bottom-up in the arena with root handle 2. -/
def exPlan : IRPlan :=
  ⟨2,
    ⟨[.DataFrameScan dfAB schemaAB none, .Filter 0 5,
      .Select 1 [3] schemaAB 0]⟩,
    ⟨[9]⟩⟩

/-- Tree unfolding of `exPlan`. -/
def exTree : IRTree :=
  .Select (.Filter (.DataFrameScan dfAB schemaAB none) 5) [3] schemaAB 0

/-- Example plan containing two `DataFrameScan` leaves with different
column counts under a `Union`. -/
def exPlanMixed : IRPlan :=
  ⟨2,
    ⟨[.DataFrameScan dfA schemaA none, .DataFrameScan dfAB schemaAB none,
      .Union [0, 1] 0]⟩,
    ⟨[]⟩⟩

/-- Tree unfolding of `exPlanMixed`. -/
def exTreeMixed : IRTree :=
  .Union [.DataFrameScan dfA schemaA none, .DataFrameScan dfAB schemaAB none] 0

/-- Example template containing no `PlaceholderScan` at all: a single
`DataFrameScan` leaf. -/
def exPlanNoPH : IRPlan := ⟨0, ⟨[.DataFrameScan dfAB schemaAB none]⟩, ⟨[]⟩⟩

/-- A data arena whose only node is a `PlaceholderScan`, i.e. not a valid
bind target. -/
def exBadDataArena : Arena IR := ⟨[.PlaceholderScan schemaA none]⟩

/-- Example template referencing placeholders at two distinct sites of a
`Union`; the second placeholder also records an output schema. -/
def exPlanTwoPH : IRPlan :=
  ⟨2,
    ⟨[.PlaceholderScan schemaA none, .PlaceholderScan schemaA (some schemaA),
      .Union [0, 1] 0]⟩,
    ⟨[]⟩⟩

/-- Tree unfolding of `exPlanTwoPH`. -/
def exTreeTwoPH : IRTree :=
  .Union [.PlaceholderScan schemaA none, .PlaceholderScan schemaA (some schemaA)] 0

/-- A data arena holding a single `DataFrameScan` of `dfA2`. -/
def exDataArenaA : Arena IR := ⟨[.DataFrameScan dfA2 schemaA none]⟩

theorem Arena.get?_append_of_some {T : Type} (l e : List T) (i : Nat) (x : T)
    (h : (Arena.mk l).get? i = some x) :
    (Arena.mk (l ++ e)).get? i = some x := by
  have hi : i < l.length := by
    by_contra hc
    simp only [Arena.get?] at h
    rw [List.getElem?_eq_none (Nat.le_of_not_lt hc)] at h
    exact Option.noConfusion h
  simp only [Arena.get?] at h ⊢
  rw [List.getElem?_append, if_pos hi]
  exact h

theorem Arena.get?_push_len {T : Type} (l : List T) (v : T) :
    (Arena.mk (l ++ [v])).get? l.length = some v := by
  simp only [Arena.get?]
  exact List.getElem?_concat_length l v

theorem Arena.get?_push_cases {T : Type} (l : List T) (v : T) (i : Nat) (x : T)
    (h : (Arena.mk (l ++ [v])).get? i = some x) :
    (i < l.length ∧ (Arena.mk l).get? i = some x) ∨
      (i = l.length ∧ x = v) := by
  simp only [Arena.get?] at h ⊢
  rcases Nat.lt_trichotomy i l.length with hlt | heq | hgt
  · left
    refine ⟨hlt, ?_⟩
    rw [List.getElem?_append] at h
    simpa [hlt] using h
  · right
    refine ⟨heq, ?_⟩
    subst heq
    rw [List.getElem?_concat_length] at h
    exact (Option.some.injEq _ _ ▸ h).symm
  · exfalso
    rw [List.getElem?_eq_none (by simp; omega)] at h
    exact Option.noConfusion h

theorem ClosedArena.push (a : Arena IR) (ir : IR) (h : ClosedArena a)
    (hins : ∀ m ∈ ir.inputsOf, m < a.items.length) :
    ClosedArena ⟨a.items ++ [ir]⟩ := by
  intro i x hx m hm
  rcases Arena.get?_push_cases a.items ir i x hx with ⟨hlt, hx'⟩ | ⟨heq, hxv⟩
  · exact h i x hx' m hm
  · subst heq
    subst hxv
    exact hins m hm

theorem ClosedArena.empty : ClosedArena Arena.empty := by
  intro i x hx
  simp [Arena.get?, Arena.empty] at hx

theorem toTreeListWith_one (rec : Nat → Option IRTree) (x : Nat)
    (u : IRTree) (h : rec x = some u) :
    toTreeListWith rec [x] = some [u] := by
  simp [toTreeListWith, h]

theorem toTreeListWith_two (rec : Nat → Option IRTree) (x y : Nat)
    (u v : IRTree) (hx : rec x = some u) (hy : rec y = some v) :
    toTreeListWith rec [x, y] = some [u, v] := by
  simp [toTreeListWith, hx, hy]

theorem toTreeListWith_one_inv (rec : Nat → Option IRTree) (x : Nat)
    (ts : List IRTree) (h : toTreeListWith rec [x] = some ts) :
    ∃ u, rec x = some u ∧ ts = [u] := by
  simp only [toTreeListWith] at h
  cases hx : rec x with
  | none => rw [hx] at h; exact Option.noConfusion h
  | some u =>
    rw [hx] at h
    simp only [Option.some.injEq] at h
    exact ⟨u, rfl, h.symm⟩

theorem toTreeListWith_two_inv (rec : Nat → Option IRTree) (x y : Nat)
    (ts : List IRTree) (h : toTreeListWith rec [x, y] = some ts) :
    ∃ u v, rec x = some u ∧ rec y = some v ∧ ts = [u, v] := by
  simp only [toTreeListWith] at h
  cases hx : rec x with
  | none => rw [hx] at h; exact Option.noConfusion h
  | some u =>
    rw [hx] at h
    cases hy : rec y with
    | none => rw [hy] at h; exact Option.noConfusion h
    | some v =>
      rw [hy] at h
      simp only [Option.some.injEq] at h
      exact ⟨u, v, rfl, rfl, h.symm⟩

theorem toTreeListWith_cons_inv (rec : Nat → Option IRTree) (n : Nat)
    (rest : List Nat) (ts : List IRTree)
    (h : toTreeListWith rec (n :: rest) = some ts) :
    ∃ u us, rec n = some u ∧ toTreeListWith rec rest = some us ∧
      ts = u :: us := by
  simp only [toTreeListWith] at h
  cases hx : rec n with
  | none => rw [hx] at h; exact Option.noConfusion h
  | some u =>
    rw [hx] at h
    cases hr : toTreeListWith rec rest with
    | none => rw [hr] at h; exact Option.noConfusion h
    | some us =>
      rw [hr] at h
      simp only [Option.some.injEq] at h
      exact ⟨u, us, rfl, rfl, h.symm⟩

theorem toTreeListWith_mono (rec rec' : Nat → Option IRTree)
    (hmono : ∀ n t, rec n = some t → rec' n = some t) :
    ∀ (ns : List Nat) (ts : List IRTree),
      toTreeListWith rec ns = some ts → toTreeListWith rec' ns = some ts := by
  intro ns
  induction ns with
  | nil => intro ts h; exact h
  | cons n rest ih =>
    intro ts h
    obtain ⟨u, us, hu, hus, rfl⟩ := toTreeListWith_cons_inv rec n rest ts h
    simp [toTreeListWith, hmono n u hu, ih us hus]

theorem toTree_mono (fuel : Nat) :
    ∀ (items ext : List IR) (n : Nat) (t : IRTree),
      toTree fuel ⟨items⟩ n = some t → toTree fuel ⟨items ++ ext⟩ n = some t := by
  induction fuel with
  | zero => intro _ _ _ _ h; exact Option.noConfusion h
  | succ fuel' ih =>
    intro items ext n t h
    simp only [toTree] at h ⊢
    cases hg : (Arena.mk items).get? n with
    | none => simp only [hg] at h; exact Option.noConfusion h
    | some ir =>
      simp only [hg] at h
      simp only [Arena.get?_append_of_some items ext n ir hg]
      cases hl : toTreeListWith (toTree fuel' ⟨items⟩) ir.inputsOf with
      | none => simp only [hl] at h; exact Option.noConfusion h
      | some ts =>
        simp only [hl] at h
        simp only
          [toTreeListWith_mono _ _ (fun m u hu => ih items ext m u hu) _ _ hl]
        exact h

theorem toTreeListWith_cons (rec : Nat → Option IRTree) (n : Nat)
    (rest : List Nat) (u : IRTree) (us : List IRTree)
    (hu : rec n = some u) (hus : toTreeListWith rec rest = some us) :
    toTreeListWith rec (n :: rest) = some (u :: us) := by
  simp [toTreeListWith, hu, hus]

theorem convert_emit_leaf (fuel' : Nat) (new : Arena IR) (ir_add : IR)
    (t_out : IRTree) (h_inputs : ir_add.inputsOf = [])
    (hreb : rebuildIR ir_add [] = t_out) :
    ∃ ext k,
      some (new.add ir_add) = some ((⟨new.items ++ ext⟩ : Arena IR), k) ∧
      k + 1 = new.items.length + ext.length ∧
      (ClosedArena new → ClosedArena ⟨new.items ++ ext⟩) ∧
      toTree (fuel' + 1) ⟨new.items ++ ext⟩ k = some t_out := by
  refine ⟨[ir_add], new.items.length, ?_, ?_, ?_, ?_⟩
  · simp [Arena.add]
  · simp
  · intro hc
    exact ClosedArena.push new ir_add hc (by simp [h_inputs])
  · simp only [toTree, Arena.get?_push_len, h_inputs]
    simp [toTreeListWith, hreb]

theorem convert_emit (fuel' : Nat) (new : Arena IR) (eAll : List IR)
    (ir_add : IR) (ts_out : List IRTree) (t_out : IRTree)
    (hcl : ClosedArena new → ClosedArena ⟨new.items ++ eAll⟩)
    (hins : ∀ m ∈ ir_add.inputsOf, m < new.items.length + eAll.length)
    (htt : toTreeListWith (toTree fuel' ⟨new.items ++ (eAll ++ [ir_add])⟩)
        ir_add.inputsOf = some ts_out)
    (hreb : rebuildIR ir_add ts_out = t_out) :
    ∃ ext k,
      some ((Arena.mk (new.items ++ eAll)).add ir_add) =
        some ((⟨new.items ++ ext⟩ : Arena IR), k) ∧
      k + 1 = new.items.length + ext.length ∧
      (ClosedArena new → ClosedArena ⟨new.items ++ ext⟩) ∧
      toTree (fuel' + 1) ⟨new.items ++ ext⟩ k = some t_out := by
  refine ⟨eAll ++ [ir_add], (new.items ++ eAll).length, ?_, ?_, ?_, ?_⟩
  · simp [Arena.add, List.append_assoc]
  · simp only [List.length_append, List.length_cons, List.length_nil]
    omega
  · intro hc
    have h2 := ClosedArena.push ⟨new.items ++ eAll⟩ ir_add (hcl hc)
      (by simpa using hins)
    simpa [List.append_assoc] using h2
  · simp only [toTree]
    have hg : (Arena.mk (new.items ++ (eAll ++ [ir_add]))).get?
        (new.items ++ eAll).length = some ir_add := by
      have h3 := Arena.get?_push_len (new.items ++ eAll) ir_add
      simpa [List.append_assoc] using h3
    simp only [hg, htt, hreb]

theorem convert_sound : ∀ fuel, CvtNodeStmt fuel ∧ CvtListStmt fuel := by
  intro fuel
  induction fuel with
  | zero =>
    constructor
    · intro old n t new h
      exact Option.noConfusion h
    · intro old ns ts new h
      cases ns with
      | nil =>
        obtain rfl : ts = [] := by
          simpa [toTreeList, toTreeListWith] using h.symm
        refine ⟨[], [], ?_, ?_, ?_, ?_⟩
        · simp [convert_list]
        · intro kk hkk
          simp at hkk
        · intro hc
          simpa using hc
        · simp [toTreeList, toTreeListWith, templateTreeList]
      | cons head rest =>
        exact absurd h (by simp [toTreeList, toTreeListWith, toTree])
  | succ fuel' ih =>
    obtain ⟨ihN, ihL⟩ := ih
    have hnode : CvtNodeStmt (fuel' + 1) := by
      intro old n t new ht
      simp only [toTree] at ht
      cases hg : old.get? n with
      | none =>
        simp only [hg] at ht
        exact Option.noConfusion ht
      | some ir =>
        simp only [hg] at ht
        cases hl : toTreeListWith (toTree fuel' old) ir.inputsOf with
        | none =>
          simp only [hl] at ht
          exact Option.noConfusion ht
        | some ts =>
          simp only [hl] at ht
          have ht' : rebuildIR ir ts = t := by injection ht
          clear ht
          cases ir with
          | PythonScan options =>
            simp only [IR.inputsOf] at hl
            obtain rfl : ts = [] := by
              simpa [toTreeListWith] using hl.symm
            simp only [rebuildIR] at ht'
            subst ht'
            simp only [convert_to_placeholder, convertStep, hg, templateTree]
            exact convert_emit_leaf fuel' new (.PythonScan options) _ rfl rfl
          | Slice input offset len =>
            simp only [IR.inputsOf] at hl
            obtain ⟨t1, h1, rfl⟩ := toTreeListWith_one_inv _ _ _ hl
            simp only [rebuildIR] at ht'
            subst ht'
            obtain ⟨e1, k1, hc1, hk1, hcl1, htt1⟩ := ihN old input t1 new h1
            simp only [convert_to_placeholder, convertStep, hg, hc1,
              templateTree]
            refine convert_emit fuel' new e1 (.Slice k1 offset len)
              [templateTree t1] _ hcl1 ?_ ?_ rfl
            · simp only [IR.inputsOf, List.mem_singleton]
              rintro m rfl
              omega
            · simp only [IR.inputsOf]
              have h4 := toTree_mono fuel' (new.items ++ e1)
                [IR.Slice k1 offset len] k1 _ htt1
              rw [List.append_assoc] at h4
              exact toTreeListWith_one _ _ _ h4
          | Filter input predicate =>
            simp only [IR.inputsOf] at hl
            obtain ⟨t1, h1, rfl⟩ := toTreeListWith_one_inv _ _ _ hl
            simp only [rebuildIR] at ht'
            subst ht'
            obtain ⟨e1, k1, hc1, hk1, hcl1, htt1⟩ := ihN old input t1 new h1
            simp only [convert_to_placeholder, convertStep, hg, hc1,
              templateTree]
            refine convert_emit fuel' new e1 (.Filter k1 predicate)
              [templateTree t1] _ hcl1 ?_ ?_ rfl
            · simp only [IR.inputsOf, List.mem_singleton]
              rintro m rfl
              omega
            · simp only [IR.inputsOf]
              have h4 := toTree_mono fuel' (new.items ++ e1)
                [IR.Filter k1 predicate] k1 _ htt1
              rw [List.append_assoc] at h4
              exact toTreeListWith_one _ _ _ h4
          | Scan sources file_info hive_parts predicate predicate_file_skip_applied output_schema scan_type unified_scan_args =>
            simp only [IR.inputsOf] at hl
            obtain rfl : ts = [] := by
              simpa [toTreeListWith] using hl.symm
            simp only [rebuildIR] at ht'
            subst ht'
            simp only [convert_to_placeholder, convertStep, hg, templateTree]
            exact convert_emit_leaf fuel' new (.Scan sources file_info hive_parts predicate predicate_file_skip_applied output_schema scan_type unified_scan_args) _ rfl rfl
          | DataFrameScan df schema output_schema =>
            simp only [IR.inputsOf] at hl
            obtain rfl : ts = [] := by
              simpa [toTreeListWith] using hl.symm
            simp only [rebuildIR] at ht'
            subst ht'
            simp only [convert_to_placeholder, convertStep, hg, templateTree]
            exact convert_emit_leaf fuel' new
              (.PlaceholderScan schema output_schema) _ rfl rfl
          | PlaceholderScan schema output_schema =>
            simp only [IR.inputsOf] at hl
            obtain rfl : ts = [] := by
              simpa [toTreeListWith] using hl.symm
            simp only [rebuildIR] at ht'
            subst ht'
            simp only [convert_to_placeholder, convertStep, hg, templateTree]
            exact convert_emit_leaf fuel' new (.PlaceholderScan schema output_schema) _ rfl rfl
          | SimpleProjection input columns =>
            simp only [IR.inputsOf] at hl
            obtain ⟨t1, h1, rfl⟩ := toTreeListWith_one_inv _ _ _ hl
            simp only [rebuildIR] at ht'
            subst ht'
            obtain ⟨e1, k1, hc1, hk1, hcl1, htt1⟩ := ihN old input t1 new h1
            simp only [convert_to_placeholder, convertStep, hg, hc1,
              templateTree]
            refine convert_emit fuel' new e1 (.SimpleProjection k1 columns)
              [templateTree t1] _ hcl1 ?_ ?_ rfl
            · simp only [IR.inputsOf, List.mem_singleton]
              rintro m rfl
              omega
            · simp only [IR.inputsOf]
              have h4 := toTree_mono fuel' (new.items ++ e1)
                [IR.SimpleProjection k1 columns] k1 _ htt1
              rw [List.append_assoc] at h4
              exact toTreeListWith_one _ _ _ h4
          | Select input expr schema options =>
            simp only [IR.inputsOf] at hl
            obtain ⟨t1, h1, rfl⟩ := toTreeListWith_one_inv _ _ _ hl
            simp only [rebuildIR] at ht'
            subst ht'
            obtain ⟨e1, k1, hc1, hk1, hcl1, htt1⟩ := ihN old input t1 new h1
            simp only [convert_to_placeholder, convertStep, hg, hc1,
              templateTree]
            refine convert_emit fuel' new e1 (.Select k1 expr schema options)
              [templateTree t1] _ hcl1 ?_ ?_ rfl
            · simp only [IR.inputsOf, List.mem_singleton]
              rintro m rfl
              omega
            · simp only [IR.inputsOf]
              have h4 := toTree_mono fuel' (new.items ++ e1)
                [IR.Select k1 expr schema options] k1 _ htt1
              rw [List.append_assoc] at h4
              exact toTreeListWith_one _ _ _ h4
          | «Sort» input by_column slice sort_options =>
            simp only [IR.inputsOf] at hl
            obtain ⟨t1, h1, rfl⟩ := toTreeListWith_one_inv _ _ _ hl
            simp only [rebuildIR] at ht'
            subst ht'
            obtain ⟨e1, k1, hc1, hk1, hcl1, htt1⟩ := ihN old input t1 new h1
            simp only [convert_to_placeholder, convertStep, hg, hc1,
              templateTree]
            refine convert_emit fuel' new e1 (.Sort k1 by_column slice sort_options)
              [templateTree t1] _ hcl1 ?_ ?_ rfl
            · simp only [IR.inputsOf, List.mem_singleton]
              rintro m rfl
              omega
            · simp only [IR.inputsOf]
              have h4 := toTree_mono fuel' (new.items ++ e1)
                [IR.Sort k1 by_column slice sort_options] k1 _ htt1
              rw [List.append_assoc] at h4
              exact toTreeListWith_one _ _ _ h4
          | Cache input id =>
            simp only [IR.inputsOf] at hl
            obtain ⟨t1, h1, rfl⟩ := toTreeListWith_one_inv _ _ _ hl
            simp only [rebuildIR] at ht'
            subst ht'
            obtain ⟨e1, k1, hc1, hk1, hcl1, htt1⟩ := ihN old input t1 new h1
            simp only [convert_to_placeholder, convertStep, hg, hc1,
              templateTree]
            refine convert_emit fuel' new e1 (.Cache k1 id)
              [templateTree t1] _ hcl1 ?_ ?_ rfl
            · simp only [IR.inputsOf, List.mem_singleton]
              rintro m rfl
              omega
            · simp only [IR.inputsOf]
              have h4 := toTree_mono fuel' (new.items ++ e1)
                [IR.Cache k1 id] k1 _ htt1
              rw [List.append_assoc] at h4
              exact toTreeListWith_one _ _ _ h4
          | GroupBy input keys aggs schema maintain_order options apply =>
            simp only [IR.inputsOf] at hl
            obtain ⟨t1, h1, rfl⟩ := toTreeListWith_one_inv _ _ _ hl
            simp only [rebuildIR] at ht'
            subst ht'
            obtain ⟨e1, k1, hc1, hk1, hcl1, htt1⟩ := ihN old input t1 new h1
            simp only [convert_to_placeholder, convertStep, hg, hc1,
              templateTree]
            refine convert_emit fuel' new e1 (.GroupBy k1 keys aggs schema maintain_order options apply)
              [templateTree t1] _ hcl1 ?_ ?_ rfl
            · simp only [IR.inputsOf, List.mem_singleton]
              rintro m rfl
              omega
            · simp only [IR.inputsOf]
              have h4 := toTree_mono fuel' (new.items ++ e1)
                [IR.GroupBy k1 keys aggs schema maintain_order options apply] k1 _ htt1
              rw [List.append_assoc] at h4
              exact toTreeListWith_one _ _ _ h4
          | Join input_left input_right schema left_on right_on options =>
            simp only [IR.inputsOf] at hl
            obtain ⟨t1, t2, h1, h2, rfl⟩ := toTreeListWith_two_inv _ _ _ _ hl
            simp only [rebuildIR] at ht'
            subst ht'
            obtain ⟨e1, k1, hc1, hk1, hcl1, htt1⟩ := ihN old input_left t1 new h1
            obtain ⟨e2, k2, hc2, hk2, hcl2, htt2⟩ :=
              ihN old input_right t2 ⟨new.items ++ e1⟩ h2
            simp only [List.append_assoc, List.length_append]
              at hc2 hk2 hcl2 htt2
            simp only [convert_to_placeholder, convertStep, hg, hc1, hc2,
              templateTree]
            refine convert_emit fuel' new (e1 ++ e2)
              (.Join k1 k2 schema left_on right_on options) [templateTree t1, templateTree t2] _ ?_ ?_ ?_ rfl
            · intro hc
              have h3 := hcl2 (hcl1 hc)
              simpa [List.append_assoc] using h3
            · simp only [IR.inputsOf, List.mem_cons, List.mem_singleton,
                List.length_append]
              rintro m (rfl | rfl | hf)
              · omega
              · omega
              · simp at hf
            · simp only [IR.inputsOf]
              refine toTreeListWith_two _ _ _ _ _ ?_ ?_
              · have h4 := toTree_mono fuel' (new.items ++ e1)
                  (e2 ++ [IR.Join k1 k2 schema left_on right_on options]) k1 _ htt1
                simpa [List.append_assoc] using h4
              · have h4 := toTree_mono fuel' (new.items ++ (e1 ++ e2))
                  [IR.Join k1 k2 schema left_on right_on options] k2 _ htt2
                simpa [List.append_assoc] using h4
          | HStack input exprs schema options =>
            simp only [IR.inputsOf] at hl
            obtain ⟨t1, h1, rfl⟩ := toTreeListWith_one_inv _ _ _ hl
            simp only [rebuildIR] at ht'
            subst ht'
            obtain ⟨e1, k1, hc1, hk1, hcl1, htt1⟩ := ihN old input t1 new h1
            simp only [convert_to_placeholder, convertStep, hg, hc1,
              templateTree]
            refine convert_emit fuel' new e1 (.HStack k1 exprs schema options)
              [templateTree t1] _ hcl1 ?_ ?_ rfl
            · simp only [IR.inputsOf, List.mem_singleton]
              rintro m rfl
              omega
            · simp only [IR.inputsOf]
              have h4 := toTree_mono fuel' (new.items ++ e1)
                [IR.HStack k1 exprs schema options] k1 _ htt1
              rw [List.append_assoc] at h4
              exact toTreeListWith_one _ _ _ h4
          | Distinct input options =>
            simp only [IR.inputsOf] at hl
            obtain ⟨t1, h1, rfl⟩ := toTreeListWith_one_inv _ _ _ hl
            simp only [rebuildIR] at ht'
            subst ht'
            obtain ⟨e1, k1, hc1, hk1, hcl1, htt1⟩ := ihN old input t1 new h1
            simp only [convert_to_placeholder, convertStep, hg, hc1,
              templateTree]
            refine convert_emit fuel' new e1 (.Distinct k1 options)
              [templateTree t1] _ hcl1 ?_ ?_ rfl
            · simp only [IR.inputsOf, List.mem_singleton]
              rintro m rfl
              omega
            · simp only [IR.inputsOf]
              have h4 := toTree_mono fuel' (new.items ++ e1)
                [IR.Distinct k1 options] k1 _ htt1
              rw [List.append_assoc] at h4
              exact toTreeListWith_one _ _ _ h4
          | MapFunction input function =>
            simp only [IR.inputsOf] at hl
            obtain ⟨t1, h1, rfl⟩ := toTreeListWith_one_inv _ _ _ hl
            simp only [rebuildIR] at ht'
            subst ht'
            obtain ⟨e1, k1, hc1, hk1, hcl1, htt1⟩ := ihN old input t1 new h1
            simp only [convert_to_placeholder, convertStep, hg, hc1,
              templateTree]
            refine convert_emit fuel' new e1 (.MapFunction k1 function)
              [templateTree t1] _ hcl1 ?_ ?_ rfl
            · simp only [IR.inputsOf, List.mem_singleton]
              rintro m rfl
              omega
            · simp only [IR.inputsOf]
              have h4 := toTree_mono fuel' (new.items ++ e1)
                [IR.MapFunction k1 function] k1 _ htt1
              rw [List.append_assoc] at h4
              exact toTreeListWith_one _ _ _ h4
          | Union inputs options =>
            simp only [IR.inputsOf] at hl
            simp only [rebuildIR] at ht'
            subst ht'
            obtain ⟨e1, ks, hc1, hks, hcl1, htt1⟩ := ihL old inputs ts new hl
            simp only [convert_to_placeholder, convertStep, hg, hc1,
              templateTree]
            refine convert_emit fuel' new e1 (.Union ks options)
              (templateTreeList ts) _ hcl1 ?_ ?_ rfl
            · simpa only [IR.inputsOf] using hks
            · simp only [IR.inputsOf]
              simp only [toTreeList] at htt1
              refine toTreeListWith_mono _ _ ?_ _ _ htt1
              intro m u hu
              have h4 := toTree_mono fuel' (new.items ++ e1)
                [IR.Union ks options] m u hu
              simpa [List.append_assoc] using h4
          | HConcat inputs schema options =>
            simp only [IR.inputsOf] at hl
            simp only [rebuildIR] at ht'
            subst ht'
            obtain ⟨e1, ks, hc1, hks, hcl1, htt1⟩ := ihL old inputs ts new hl
            simp only [convert_to_placeholder, convertStep, hg, hc1,
              templateTree]
            refine convert_emit fuel' new e1 (.HConcat ks schema options)
              (templateTreeList ts) _ hcl1 ?_ ?_ rfl
            · simpa only [IR.inputsOf] using hks
            · simp only [IR.inputsOf]
              simp only [toTreeList] at htt1
              refine toTreeListWith_mono _ _ ?_ _ _ htt1
              intro m u hu
              have h4 := toTree_mono fuel' (new.items ++ e1)
                [IR.HConcat ks schema options] m u hu
              simpa [List.append_assoc] using h4
          | ExtContext input contexts schema =>
            simp only [IR.inputsOf] at hl
            obtain ⟨t1, us, h1, hus, rfl⟩ := toTreeListWith_cons_inv _ _ _ _ hl
            simp only [rebuildIR] at ht'
            subst ht'
            obtain ⟨e1, k1, hc1, hk1, hcl1, htt1⟩ := ihN old input t1 new h1
            obtain ⟨e2, ks, hc2, hks, hcl2, htt2⟩ :=
              ihL old contexts us ⟨new.items ++ e1⟩ hus
            simp only [List.append_assoc, List.length_append, toTreeList]
              at hc2 hks hcl2 htt2
            simp only [convert_to_placeholder, convertStep, hg, hc1, hc2,
              templateTree]
            refine convert_emit fuel' new (e1 ++ e2)
              (.ExtContext k1 ks schema)
              (templateTree t1 :: templateTreeList us) _ ?_ ?_ ?_ rfl
            · intro hc
              have h3 := hcl2 (hcl1 hc)
              simpa [List.append_assoc] using h3
            · simp only [IR.inputsOf, List.mem_cons, List.length_append]
              rintro m (rfl | hm)
              · omega
              · have h5 := hks m hm
                omega
            · simp only [IR.inputsOf]
              refine toTreeListWith_cons _ _ _ _ _ ?_ ?_
              · have h4 := toTree_mono fuel' (new.items ++ e1)
                  (e2 ++ [IR.ExtContext k1 ks schema]) k1 _ htt1
                simpa [List.append_assoc] using h4
              · refine toTreeListWith_mono _ _ ?_ _ _ htt2
                intro m u hu
                have h5 := toTree_mono fuel' (new.items ++ (e1 ++ e2))
                  [IR.ExtContext k1 ks schema] m u hu
                simpa [List.append_assoc] using h5
          | Sink input payload =>
            simp only [IR.inputsOf] at hl
            obtain ⟨t1, h1, rfl⟩ := toTreeListWith_one_inv _ _ _ hl
            simp only [rebuildIR] at ht'
            subst ht'
            obtain ⟨e1, k1, hc1, hk1, hcl1, htt1⟩ := ihN old input t1 new h1
            simp only [convert_to_placeholder, convertStep, hg, hc1,
              templateTree]
            refine convert_emit fuel' new e1 (.Sink k1 payload)
              [templateTree t1] _ hcl1 ?_ ?_ rfl
            · simp only [IR.inputsOf, List.mem_singleton]
              rintro m rfl
              omega
            · simp only [IR.inputsOf]
              have h4 := toTree_mono fuel' (new.items ++ e1)
                [IR.Sink k1 payload] k1 _ htt1
              rw [List.append_assoc] at h4
              exact toTreeListWith_one _ _ _ h4
          | SinkMultiple inputs =>
            simp only [IR.inputsOf] at hl
            simp only [rebuildIR] at ht'
            subst ht'
            obtain ⟨e1, ks, hc1, hks, hcl1, htt1⟩ := ihL old inputs ts new hl
            simp only [convert_to_placeholder, convertStep, hg, hc1,
              templateTree]
            refine convert_emit fuel' new e1 (.SinkMultiple ks)
              (templateTreeList ts) _ hcl1 ?_ ?_ rfl
            · simpa only [IR.inputsOf] using hks
            · simp only [IR.inputsOf]
              simp only [toTreeList] at htt1
              refine toTreeListWith_mono _ _ ?_ _ _ htt1
              intro m u hu
              have h4 := toTree_mono fuel' (new.items ++ e1)
                [IR.SinkMultiple ks] m u hu
              simpa [List.append_assoc] using h4
          | MergeSorted input_left input_right key =>
            simp only [IR.inputsOf] at hl
            obtain ⟨t1, t2, h1, h2, rfl⟩ := toTreeListWith_two_inv _ _ _ _ hl
            simp only [rebuildIR] at ht'
            subst ht'
            obtain ⟨e1, k1, hc1, hk1, hcl1, htt1⟩ := ihN old input_left t1 new h1
            obtain ⟨e2, k2, hc2, hk2, hcl2, htt2⟩ :=
              ihN old input_right t2 ⟨new.items ++ e1⟩ h2
            simp only [List.append_assoc, List.length_append]
              at hc2 hk2 hcl2 htt2
            simp only [convert_to_placeholder, convertStep, hg, hc1, hc2,
              templateTree]
            refine convert_emit fuel' new (e1 ++ e2)
              (.MergeSorted k1 k2 key) [templateTree t1, templateTree t2] _ ?_ ?_ ?_ rfl
            · intro hc
              have h3 := hcl2 (hcl1 hc)
              simpa [List.append_assoc] using h3
            · simp only [IR.inputsOf, List.mem_cons, List.mem_singleton,
                List.length_append]
              rintro m (rfl | rfl | hf)
              · omega
              · omega
              · simp at hf
            · simp only [IR.inputsOf]
              refine toTreeListWith_two _ _ _ _ _ ?_ ?_
              · have h4 := toTree_mono fuel' (new.items ++ e1)
                  (e2 ++ [IR.MergeSorted k1 k2 key]) k1 _ htt1
                simpa [List.append_assoc] using h4
              · have h4 := toTree_mono fuel' (new.items ++ (e1 ++ e2))
                  [IR.MergeSorted k1 k2 key] k2 _ htt2
                simpa [List.append_assoc] using h4
          | Invalid =>
            simp only [IR.inputsOf] at hl
            obtain rfl : ts = [] := by
              simpa [toTreeListWith] using hl.symm
            simp only [rebuildIR] at ht'
            subst ht'
            simp only [convert_to_placeholder, convertStep, hg, templateTree]
            exact convert_emit_leaf fuel' new (.Invalid) _ rfl rfl
    have hlist : CvtListStmt (fuel' + 1) := by
      intro old ns
      induction ns with
      | nil =>
        intro ts new h
        obtain rfl : ts = [] := by
          simpa [toTreeList, toTreeListWith] using h.symm
        refine ⟨[], [], ?_, ?_, ?_, ?_⟩
        · simp [convert_list]
        · intro kk hkk
          simp at hkk
        · intro hc
          simpa using hc
        · simp [toTreeList, toTreeListWith, templateTreeList]
      | cons head rest ihrest =>
        intro ts new h
        simp only [toTreeList] at h
        obtain ⟨u, us, hu, hus, rfl⟩ := toTreeListWith_cons_inv _ _ _ _ h
        obtain ⟨e1, k1, hc1, hk1, hcl1, htt1⟩ := hnode old head u new hu
        obtain ⟨e2, ks2, hc2, hks2, hcl2, htt2⟩ := ihrest us ⟨new.items ++ e1⟩ hus
        simp only [List.append_assoc, List.length_append, toTreeList]
          at hc2 hks2 hcl2 htt2
        refine ⟨e1 ++ e2, k1 :: ks2, ?_, ?_, ?_, ?_⟩
        · simp only [convert_list, hc1, hc2]
        · intro kk hkk
          simp only [List.mem_cons] at hkk
          simp only [List.length_append] at hks2 ⊢
          rcases hkk with rfl | hm
          · omega
          · have h5 := hks2 kk hm
            omega
        · intro hc
          have h3 := hcl2 (hcl1 hc)
          simpa [List.append_assoc] using h3
        · simp only [toTreeList, templateTreeList]
          have hA1 : toTree (fuel' + 1) ⟨new.items ++ (e1 ++ e2)⟩ k1 =
              some (templateTree u) := by
            have h4 := toTree_mono (fuel' + 1) (new.items ++ e1) e2 k1 _ htt1
            rwa [List.append_assoc] at h4
          exact toTreeListWith_cons _ _ _ _ _ hA1 htt2
    exact ⟨hnode, hlist⟩

theorem replace_emit_leaf (fuel' : Nat) (new : Arena IR) (ir_add : IR)
    (t_out : IRTree) (h_inputs : ir_add.inputsOf = [])
    (hreb : rebuildIR ir_add [] = t_out) :
    ∃ ext k,
      Except.ok (ε := BindErr) (new.add ir_add) =
        .ok ((⟨new.items ++ ext⟩ : Arena IR), k) ∧
      k + 1 = new.items.length + ext.length ∧
      (ClosedArena new → ClosedArena ⟨new.items ++ ext⟩) ∧
      toTree (fuel' + 1) ⟨new.items ++ ext⟩ k = some t_out := by
  refine ⟨[ir_add], new.items.length, ?_, ?_, ?_, ?_⟩
  · simp [Arena.add]
  · simp
  · intro hc
    exact ClosedArena.push new ir_add hc (by simp [h_inputs])
  · simp only [toTree, Arena.get?_push_len, h_inputs]
    simp [toTreeListWith, hreb]

theorem replace_emit (fuel' : Nat) (new : Arena IR) (eAll : List IR)
    (ir_add : IR) (ts_out : List IRTree) (t_out : IRTree)
    (hcl : ClosedArena new → ClosedArena ⟨new.items ++ eAll⟩)
    (hins : ∀ m ∈ ir_add.inputsOf, m < new.items.length + eAll.length)
    (htt : toTreeListWith (toTree fuel' ⟨new.items ++ (eAll ++ [ir_add])⟩)
        ir_add.inputsOf = some ts_out)
    (hreb : rebuildIR ir_add ts_out = t_out) :
    ∃ ext k,
      Except.ok (ε := BindErr) ((Arena.mk (new.items ++ eAll)).add ir_add) =
        .ok ((⟨new.items ++ ext⟩ : Arena IR), k) ∧
      k + 1 = new.items.length + ext.length ∧
      (ClosedArena new → ClosedArena ⟨new.items ++ ext⟩) ∧
      toTree (fuel' + 1) ⟨new.items ++ ext⟩ k = some t_out := by
  refine ⟨eAll ++ [ir_add], (new.items ++ eAll).length, ?_, ?_, ?_, ?_⟩
  · simp [Arena.add, List.append_assoc]
  · simp only [List.length_append, List.length_cons, List.length_nil]
    omega
  · intro hc
    have h2 := ClosedArena.push ⟨new.items ++ eAll⟩ ir_add (hcl hc)
      (by simpa using hins)
    simpa [List.append_assoc] using h2
  · simp only [toTree]
    have hg : (Arena.mk (new.items ++ (eAll ++ [ir_add]))).get?
        (new.items ++ eAll).length = some ir_add := by
      have h3 := Arena.get?_push_len (new.items ++ eAll) ir_add
      simpa [List.append_assoc] using h3
    simp only [hg, htt, hreb]

theorem replace_sound : ∀ fuel, RepNodeStmt fuel ∧ RepListStmt fuel := by
  intro fuel
  induction fuel with
  | zero =>
    constructor
    · intro tmpl n t ht
      exact Option.noConfusion ht
    · intro tmpl ns ts h data_node data_arena new
      cases ns with
      | nil =>
        obtain rfl : ts = [] := by
          simpa [toTreeList, toTreeListWith] using h.symm
        constructor
        · intro e he
          simp only [bindTreeList] at he
          exact Except.noConfusion he
        · intro ts' hok
          simp only [bindTreeList] at hok
          obtain rfl : ([] : List IRTree) = ts' := by injection hok
          refine ⟨[], [], ?_, ?_, ?_, ?_⟩
          · simp [replace_list]
          · intro kk hkk
            simp at hkk
          · intro hc
            simpa using hc
          · simp [toTreeList, toTreeListWith]
      | cons head rest =>
        exact absurd h (by simp [toTreeList, toTreeListWith, toTree])
  | succ fuel' ih =>
    obtain ⟨ihN, ihL⟩ := ih
    have hnode : RepNodeStmt (fuel' + 1) := by
      intro tmpl n t ht data_node data_arena new
      simp only [toTree] at ht
      cases hg : tmpl.get? n with
      | none =>
        simp only [hg] at ht
        exact Option.noConfusion ht
      | some ir =>
        simp only [hg] at ht
        cases hl : toTreeListWith (toTree fuel' tmpl) ir.inputsOf with
        | none =>
          simp only [hl] at ht
          exact Option.noConfusion ht
        | some ts =>
          simp only [hl] at ht
          have ht' : rebuildIR ir ts = t := by injection ht
          clear ht
          cases ir with
          | PythonScan options =>
            simp only [IR.inputsOf] at hl
            obtain rfl : ts = [] := by
              simpa [toTreeListWith] using hl.symm
            simp only [rebuildIR] at ht'
            subst ht'
            constructor
            · intro e he
              simp only [bindTree] at he
              exact Except.noConfusion he
            · intro t' hok
              simp only [bindTree] at hok
              obtain rfl : IRTree.PythonScan options = t' := by injection hok
              simp only [replace_placeholder, replaceStep, hg]
              exact replace_emit_leaf fuel' new (IR.PythonScan options) _ rfl rfl
          | Slice input offset len =>
            simp only [IR.inputsOf] at hl
            obtain ⟨t1, h1, rfl⟩ := toTreeListWith_one_inv _ _ _ hl
            simp only [rebuildIR] at ht'
            subst ht'
            obtain ⟨err1, ok1⟩ :=
              ihN tmpl input t1 h1 data_node data_arena new
            constructor
            · intro e he
              simp only [bindTree] at he
              cases hb1 : bindTree (data_arena.get? data_node) t1 with
              | error e1 =>
                simp only [hb1] at he
                obtain rfl : e1 = e := by injection he
                simp only [replace_placeholder, replaceStep, hg, err1 e1 hb1]
              | ok u1 =>
                simp only [hb1] at he
                exact Except.noConfusion he
            · intro t' hok
              simp only [bindTree] at hok
              cases hb1 : bindTree (data_arena.get? data_node) t1 with
              | error e1 =>
                simp only [hb1] at hok
                exact Except.noConfusion hok
              | ok u1 =>
                simp only [hb1] at hok
                obtain rfl : IRTree.Slice u1 offset len = t' := by injection hok
                obtain ⟨e1x, k1, hc1, hk1, hcl1, htt1⟩ := ok1 u1 hb1
                simp only [replace_placeholder, replaceStep, hg, hc1]
                refine replace_emit fuel' new e1x (.Slice k1 offset len) [u1] _ hcl1
                  ?_ ?_ rfl
                · simp only [IR.inputsOf, List.mem_singleton]
                  rintro m rfl
                  omega
                · simp only [IR.inputsOf]
                  have h4 := toTree_mono fuel' (new.items ++ e1x)
                    [IR.Slice k1 offset len] k1 _ htt1
                  rw [List.append_assoc] at h4
                  exact toTreeListWith_one _ _ _ h4
          | Filter input predicate =>
            simp only [IR.inputsOf] at hl
            obtain ⟨t1, h1, rfl⟩ := toTreeListWith_one_inv _ _ _ hl
            simp only [rebuildIR] at ht'
            subst ht'
            obtain ⟨err1, ok1⟩ :=
              ihN tmpl input t1 h1 data_node data_arena new
            constructor
            · intro e he
              simp only [bindTree] at he
              cases hb1 : bindTree (data_arena.get? data_node) t1 with
              | error e1 =>
                simp only [hb1] at he
                obtain rfl : e1 = e := by injection he
                simp only [replace_placeholder, replaceStep, hg, err1 e1 hb1]
              | ok u1 =>
                simp only [hb1] at he
                exact Except.noConfusion he
            · intro t' hok
              simp only [bindTree] at hok
              cases hb1 : bindTree (data_arena.get? data_node) t1 with
              | error e1 =>
                simp only [hb1] at hok
                exact Except.noConfusion hok
              | ok u1 =>
                simp only [hb1] at hok
                obtain rfl : IRTree.Filter u1 predicate = t' := by injection hok
                obtain ⟨e1x, k1, hc1, hk1, hcl1, htt1⟩ := ok1 u1 hb1
                simp only [replace_placeholder, replaceStep, hg, hc1]
                refine replace_emit fuel' new e1x (.Filter k1 predicate) [u1] _ hcl1
                  ?_ ?_ rfl
                · simp only [IR.inputsOf, List.mem_singleton]
                  rintro m rfl
                  omega
                · simp only [IR.inputsOf]
                  have h4 := toTree_mono fuel' (new.items ++ e1x)
                    [IR.Filter k1 predicate] k1 _ htt1
                  rw [List.append_assoc] at h4
                  exact toTreeListWith_one _ _ _ h4
          | Scan sources file_info hive_parts predicate predicate_file_skip_applied output_schema scan_type unified_scan_args =>
            simp only [IR.inputsOf] at hl
            obtain rfl : ts = [] := by
              simpa [toTreeListWith] using hl.symm
            simp only [rebuildIR] at ht'
            subst ht'
            constructor
            · intro e he
              simp only [bindTree] at he
              exact Except.noConfusion he
            · intro t' hok
              simp only [bindTree] at hok
              obtain rfl : IRTree.Scan sources file_info hive_parts predicate predicate_file_skip_applied output_schema scan_type unified_scan_args = t' := by injection hok
              simp only [replace_placeholder, replaceStep, hg]
              exact replace_emit_leaf fuel' new (IR.Scan sources file_info hive_parts predicate predicate_file_skip_applied output_schema scan_type unified_scan_args) _ rfl rfl
          | DataFrameScan df schema output_schema =>
            simp only [IR.inputsOf] at hl
            obtain rfl : ts = [] := by
              simpa [toTreeListWith] using hl.symm
            simp only [rebuildIR] at ht'
            subst ht'
            constructor
            · intro e he
              simp only [bindTree] at he
              exact Except.noConfusion he
            · intro t' hok
              simp only [bindTree] at hok
              obtain rfl : IRTree.DataFrameScan df schema output_schema = t' := by injection hok
              simp only [replace_placeholder, replaceStep, hg]
              exact replace_emit_leaf fuel' new (IR.DataFrameScan df schema output_schema) _ rfl rfl
          | PlaceholderScan schema output_schema =>
            simp only [IR.inputsOf] at hl
            obtain rfl : ts = [] := by
              simpa [toTreeListWith] using hl.symm
            simp only [rebuildIR] at ht'
            subst ht'
            cases hd : data_arena.get? data_node with
            | none =>
              constructor
              · intro e he
                simp only [bindTree, hd] at he
                obtain rfl : BindErr.fault = e := by injection he
                simp only [replace_placeholder, replaceStep, hg, hd]
              · intro t' hok
                simp only [bindTree, hd] at hok
                exact Except.noConfusion hok
            | some data_ir =>
              cases data_ir with
              | DataFrameScan df ds dos =>
                by_cases hne : schema.length = ds.length
                · constructor
                  · intro e he
                    simp only [bindTree, hd] at he
                    rw [if_neg (fun hx => hx hne)] at he
                    exact Except.noConfusion he
                  · intro t' hok
                    simp only [bindTree, hd] at hok
                    rw [if_neg (fun hx => hx hne)] at hok
                    obtain rfl : IRTree.DataFrameScan df ds dos = t' := by
                      injection hok
                    simp only [replace_placeholder, replaceStep, hg, hd]
                    rw [if_neg (fun hx => hx hne)]
                    exact replace_emit_leaf fuel' new
                      (.DataFrameScan df ds dos) _ rfl rfl
                · constructor
                  · intro e he
                    simp only [bindTree, hd] at he
                    rw [if_pos hne] at he
                    obtain rfl : BindErr.schemaMismatch schema.length ds.length
                        = e := by injection he
                    simp only [replace_placeholder, replaceStep, hg, hd]
                    rw [if_pos hne]
                  · intro t' hok
                    simp only [bindTree, hd] at hok
                    rw [if_pos hne] at hok
                    exact Except.noConfusion hok
              | PythonScan d_options =>
                constructor
                · intro e he
                  simp only [bindTree, hd] at he
                  obtain rfl : BindErr.invalidBindTarget = e := by injection he
                  simp only [replace_placeholder, replaceStep, hg, hd]
                · intro t' hok
                  simp only [bindTree, hd] at hok
                  exact Except.noConfusion hok
              | Slice d_input d_offset d_len =>
                constructor
                · intro e he
                  simp only [bindTree, hd] at he
                  obtain rfl : BindErr.invalidBindTarget = e := by injection he
                  simp only [replace_placeholder, replaceStep, hg, hd]
                · intro t' hok
                  simp only [bindTree, hd] at hok
                  exact Except.noConfusion hok
              | Filter d_input d_predicate =>
                constructor
                · intro e he
                  simp only [bindTree, hd] at he
                  obtain rfl : BindErr.invalidBindTarget = e := by injection he
                  simp only [replace_placeholder, replaceStep, hg, hd]
                · intro t' hok
                  simp only [bindTree, hd] at hok
                  exact Except.noConfusion hok
              | Scan d_sources d_file_info d_hive_parts d_predicate d_predicate_file_skip_applied d_output_schema d_scan_type d_unified_scan_args =>
                constructor
                · intro e he
                  simp only [bindTree, hd] at he
                  obtain rfl : BindErr.invalidBindTarget = e := by injection he
                  simp only [replace_placeholder, replaceStep, hg, hd]
                · intro t' hok
                  simp only [bindTree, hd] at hok
                  exact Except.noConfusion hok
              | PlaceholderScan d_schema d_output_schema =>
                constructor
                · intro e he
                  simp only [bindTree, hd] at he
                  obtain rfl : BindErr.invalidBindTarget = e := by injection he
                  simp only [replace_placeholder, replaceStep, hg, hd]
                · intro t' hok
                  simp only [bindTree, hd] at hok
                  exact Except.noConfusion hok
              | SimpleProjection d_input d_columns =>
                constructor
                · intro e he
                  simp only [bindTree, hd] at he
                  obtain rfl : BindErr.invalidBindTarget = e := by injection he
                  simp only [replace_placeholder, replaceStep, hg, hd]
                · intro t' hok
                  simp only [bindTree, hd] at hok
                  exact Except.noConfusion hok
              | Select d_input d_expr d_schema d_options =>
                constructor
                · intro e he
                  simp only [bindTree, hd] at he
                  obtain rfl : BindErr.invalidBindTarget = e := by injection he
                  simp only [replace_placeholder, replaceStep, hg, hd]
                · intro t' hok
                  simp only [bindTree, hd] at hok
                  exact Except.noConfusion hok
              | «Sort» d_input d_by_column d_slice d_sort_options =>
                constructor
                · intro e he
                  simp only [bindTree, hd] at he
                  obtain rfl : BindErr.invalidBindTarget = e := by injection he
                  simp only [replace_placeholder, replaceStep, hg, hd]
                · intro t' hok
                  simp only [bindTree, hd] at hok
                  exact Except.noConfusion hok
              | Cache d_input d_id =>
                constructor
                · intro e he
                  simp only [bindTree, hd] at he
                  obtain rfl : BindErr.invalidBindTarget = e := by injection he
                  simp only [replace_placeholder, replaceStep, hg, hd]
                · intro t' hok
                  simp only [bindTree, hd] at hok
                  exact Except.noConfusion hok
              | GroupBy d_input d_keys d_aggs d_schema d_maintain_order d_options d_apply =>
                constructor
                · intro e he
                  simp only [bindTree, hd] at he
                  obtain rfl : BindErr.invalidBindTarget = e := by injection he
                  simp only [replace_placeholder, replaceStep, hg, hd]
                · intro t' hok
                  simp only [bindTree, hd] at hok
                  exact Except.noConfusion hok
              | Join d_input_left d_input_right d_schema d_left_on d_right_on d_options =>
                constructor
                · intro e he
                  simp only [bindTree, hd] at he
                  obtain rfl : BindErr.invalidBindTarget = e := by injection he
                  simp only [replace_placeholder, replaceStep, hg, hd]
                · intro t' hok
                  simp only [bindTree, hd] at hok
                  exact Except.noConfusion hok
              | HStack d_input d_exprs d_schema d_options =>
                constructor
                · intro e he
                  simp only [bindTree, hd] at he
                  obtain rfl : BindErr.invalidBindTarget = e := by injection he
                  simp only [replace_placeholder, replaceStep, hg, hd]
                · intro t' hok
                  simp only [bindTree, hd] at hok
                  exact Except.noConfusion hok
              | Distinct d_input d_options =>
                constructor
                · intro e he
                  simp only [bindTree, hd] at he
                  obtain rfl : BindErr.invalidBindTarget = e := by injection he
                  simp only [replace_placeholder, replaceStep, hg, hd]
                · intro t' hok
                  simp only [bindTree, hd] at hok
                  exact Except.noConfusion hok
              | MapFunction d_input d_function =>
                constructor
                · intro e he
                  simp only [bindTree, hd] at he
                  obtain rfl : BindErr.invalidBindTarget = e := by injection he
                  simp only [replace_placeholder, replaceStep, hg, hd]
                · intro t' hok
                  simp only [bindTree, hd] at hok
                  exact Except.noConfusion hok
              | Union d_inputs d_options =>
                constructor
                · intro e he
                  simp only [bindTree, hd] at he
                  obtain rfl : BindErr.invalidBindTarget = e := by injection he
                  simp only [replace_placeholder, replaceStep, hg, hd]
                · intro t' hok
                  simp only [bindTree, hd] at hok
                  exact Except.noConfusion hok
              | HConcat d_inputs d_schema d_options =>
                constructor
                · intro e he
                  simp only [bindTree, hd] at he
                  obtain rfl : BindErr.invalidBindTarget = e := by injection he
                  simp only [replace_placeholder, replaceStep, hg, hd]
                · intro t' hok
                  simp only [bindTree, hd] at hok
                  exact Except.noConfusion hok
              | ExtContext d_input d_contexts d_schema =>
                constructor
                · intro e he
                  simp only [bindTree, hd] at he
                  obtain rfl : BindErr.invalidBindTarget = e := by injection he
                  simp only [replace_placeholder, replaceStep, hg, hd]
                · intro t' hok
                  simp only [bindTree, hd] at hok
                  exact Except.noConfusion hok
              | Sink d_input d_payload =>
                constructor
                · intro e he
                  simp only [bindTree, hd] at he
                  obtain rfl : BindErr.invalidBindTarget = e := by injection he
                  simp only [replace_placeholder, replaceStep, hg, hd]
                · intro t' hok
                  simp only [bindTree, hd] at hok
                  exact Except.noConfusion hok
              | SinkMultiple d_inputs =>
                constructor
                · intro e he
                  simp only [bindTree, hd] at he
                  obtain rfl : BindErr.invalidBindTarget = e := by injection he
                  simp only [replace_placeholder, replaceStep, hg, hd]
                · intro t' hok
                  simp only [bindTree, hd] at hok
                  exact Except.noConfusion hok
              | MergeSorted d_input_left d_input_right d_key =>
                constructor
                · intro e he
                  simp only [bindTree, hd] at he
                  obtain rfl : BindErr.invalidBindTarget = e := by injection he
                  simp only [replace_placeholder, replaceStep, hg, hd]
                · intro t' hok
                  simp only [bindTree, hd] at hok
                  exact Except.noConfusion hok
              | Invalid =>
                constructor
                · intro e he
                  simp only [bindTree, hd] at he
                  obtain rfl : BindErr.invalidBindTarget = e := by injection he
                  simp only [replace_placeholder, replaceStep, hg, hd]
                · intro t' hok
                  simp only [bindTree, hd] at hok
                  exact Except.noConfusion hok
          | SimpleProjection input columns =>
            simp only [IR.inputsOf] at hl
            obtain ⟨t1, h1, rfl⟩ := toTreeListWith_one_inv _ _ _ hl
            simp only [rebuildIR] at ht'
            subst ht'
            obtain ⟨err1, ok1⟩ :=
              ihN tmpl input t1 h1 data_node data_arena new
            constructor
            · intro e he
              simp only [bindTree] at he
              cases hb1 : bindTree (data_arena.get? data_node) t1 with
              | error e1 =>
                simp only [hb1] at he
                obtain rfl : e1 = e := by injection he
                simp only [replace_placeholder, replaceStep, hg, err1 e1 hb1]
              | ok u1 =>
                simp only [hb1] at he
                exact Except.noConfusion he
            · intro t' hok
              simp only [bindTree] at hok
              cases hb1 : bindTree (data_arena.get? data_node) t1 with
              | error e1 =>
                simp only [hb1] at hok
                exact Except.noConfusion hok
              | ok u1 =>
                simp only [hb1] at hok
                obtain rfl : IRTree.SimpleProjection u1 columns = t' := by injection hok
                obtain ⟨e1x, k1, hc1, hk1, hcl1, htt1⟩ := ok1 u1 hb1
                simp only [replace_placeholder, replaceStep, hg, hc1]
                refine replace_emit fuel' new e1x (.SimpleProjection k1 columns) [u1] _ hcl1
                  ?_ ?_ rfl
                · simp only [IR.inputsOf, List.mem_singleton]
                  rintro m rfl
                  omega
                · simp only [IR.inputsOf]
                  have h4 := toTree_mono fuel' (new.items ++ e1x)
                    [IR.SimpleProjection k1 columns] k1 _ htt1
                  rw [List.append_assoc] at h4
                  exact toTreeListWith_one _ _ _ h4
          | Select input expr schema options =>
            simp only [IR.inputsOf] at hl
            obtain ⟨t1, h1, rfl⟩ := toTreeListWith_one_inv _ _ _ hl
            simp only [rebuildIR] at ht'
            subst ht'
            obtain ⟨err1, ok1⟩ :=
              ihN tmpl input t1 h1 data_node data_arena new
            constructor
            · intro e he
              simp only [bindTree] at he
              cases hb1 : bindTree (data_arena.get? data_node) t1 with
              | error e1 =>
                simp only [hb1] at he
                obtain rfl : e1 = e := by injection he
                simp only [replace_placeholder, replaceStep, hg, err1 e1 hb1]
              | ok u1 =>
                simp only [hb1] at he
                exact Except.noConfusion he
            · intro t' hok
              simp only [bindTree] at hok
              cases hb1 : bindTree (data_arena.get? data_node) t1 with
              | error e1 =>
                simp only [hb1] at hok
                exact Except.noConfusion hok
              | ok u1 =>
                simp only [hb1] at hok
                obtain rfl : IRTree.Select u1 expr schema options = t' := by injection hok
                obtain ⟨e1x, k1, hc1, hk1, hcl1, htt1⟩ := ok1 u1 hb1
                simp only [replace_placeholder, replaceStep, hg, hc1]
                refine replace_emit fuel' new e1x (.Select k1 expr schema options) [u1] _ hcl1
                  ?_ ?_ rfl
                · simp only [IR.inputsOf, List.mem_singleton]
                  rintro m rfl
                  omega
                · simp only [IR.inputsOf]
                  have h4 := toTree_mono fuel' (new.items ++ e1x)
                    [IR.Select k1 expr schema options] k1 _ htt1
                  rw [List.append_assoc] at h4
                  exact toTreeListWith_one _ _ _ h4
          | «Sort» input by_column slice sort_options =>
            simp only [IR.inputsOf] at hl
            obtain ⟨t1, h1, rfl⟩ := toTreeListWith_one_inv _ _ _ hl
            simp only [rebuildIR] at ht'
            subst ht'
            obtain ⟨err1, ok1⟩ :=
              ihN tmpl input t1 h1 data_node data_arena new
            constructor
            · intro e he
              simp only [bindTree] at he
              cases hb1 : bindTree (data_arena.get? data_node) t1 with
              | error e1 =>
                simp only [hb1] at he
                obtain rfl : e1 = e := by injection he
                simp only [replace_placeholder, replaceStep, hg, err1 e1 hb1]
              | ok u1 =>
                simp only [hb1] at he
                exact Except.noConfusion he
            · intro t' hok
              simp only [bindTree] at hok
              cases hb1 : bindTree (data_arena.get? data_node) t1 with
              | error e1 =>
                simp only [hb1] at hok
                exact Except.noConfusion hok
              | ok u1 =>
                simp only [hb1] at hok
                obtain rfl : IRTree.Sort u1 by_column slice sort_options = t' := by injection hok
                obtain ⟨e1x, k1, hc1, hk1, hcl1, htt1⟩ := ok1 u1 hb1
                simp only [replace_placeholder, replaceStep, hg, hc1]
                refine replace_emit fuel' new e1x (.Sort k1 by_column slice sort_options) [u1] _ hcl1
                  ?_ ?_ rfl
                · simp only [IR.inputsOf, List.mem_singleton]
                  rintro m rfl
                  omega
                · simp only [IR.inputsOf]
                  have h4 := toTree_mono fuel' (new.items ++ e1x)
                    [IR.Sort k1 by_column slice sort_options] k1 _ htt1
                  rw [List.append_assoc] at h4
                  exact toTreeListWith_one _ _ _ h4
          | Cache input id =>
            simp only [IR.inputsOf] at hl
            obtain ⟨t1, h1, rfl⟩ := toTreeListWith_one_inv _ _ _ hl
            simp only [rebuildIR] at ht'
            subst ht'
            obtain ⟨err1, ok1⟩ :=
              ihN tmpl input t1 h1 data_node data_arena new
            constructor
            · intro e he
              simp only [bindTree] at he
              cases hb1 : bindTree (data_arena.get? data_node) t1 with
              | error e1 =>
                simp only [hb1] at he
                obtain rfl : e1 = e := by injection he
                simp only [replace_placeholder, replaceStep, hg, err1 e1 hb1]
              | ok u1 =>
                simp only [hb1] at he
                exact Except.noConfusion he
            · intro t' hok
              simp only [bindTree] at hok
              cases hb1 : bindTree (data_arena.get? data_node) t1 with
              | error e1 =>
                simp only [hb1] at hok
                exact Except.noConfusion hok
              | ok u1 =>
                simp only [hb1] at hok
                obtain rfl : IRTree.Cache u1 id = t' := by injection hok
                obtain ⟨e1x, k1, hc1, hk1, hcl1, htt1⟩ := ok1 u1 hb1
                simp only [replace_placeholder, replaceStep, hg, hc1]
                refine replace_emit fuel' new e1x (.Cache k1 id) [u1] _ hcl1
                  ?_ ?_ rfl
                · simp only [IR.inputsOf, List.mem_singleton]
                  rintro m rfl
                  omega
                · simp only [IR.inputsOf]
                  have h4 := toTree_mono fuel' (new.items ++ e1x)
                    [IR.Cache k1 id] k1 _ htt1
                  rw [List.append_assoc] at h4
                  exact toTreeListWith_one _ _ _ h4
          | GroupBy input keys aggs schema maintain_order options apply =>
            simp only [IR.inputsOf] at hl
            obtain ⟨t1, h1, rfl⟩ := toTreeListWith_one_inv _ _ _ hl
            simp only [rebuildIR] at ht'
            subst ht'
            obtain ⟨err1, ok1⟩ :=
              ihN tmpl input t1 h1 data_node data_arena new
            constructor
            · intro e he
              simp only [bindTree] at he
              cases hb1 : bindTree (data_arena.get? data_node) t1 with
              | error e1 =>
                simp only [hb1] at he
                obtain rfl : e1 = e := by injection he
                simp only [replace_placeholder, replaceStep, hg, err1 e1 hb1]
              | ok u1 =>
                simp only [hb1] at he
                exact Except.noConfusion he
            · intro t' hok
              simp only [bindTree] at hok
              cases hb1 : bindTree (data_arena.get? data_node) t1 with
              | error e1 =>
                simp only [hb1] at hok
                exact Except.noConfusion hok
              | ok u1 =>
                simp only [hb1] at hok
                obtain rfl : IRTree.GroupBy u1 keys aggs schema maintain_order options apply = t' := by injection hok
                obtain ⟨e1x, k1, hc1, hk1, hcl1, htt1⟩ := ok1 u1 hb1
                simp only [replace_placeholder, replaceStep, hg, hc1]
                refine replace_emit fuel' new e1x (.GroupBy k1 keys aggs schema maintain_order options apply) [u1] _ hcl1
                  ?_ ?_ rfl
                · simp only [IR.inputsOf, List.mem_singleton]
                  rintro m rfl
                  omega
                · simp only [IR.inputsOf]
                  have h4 := toTree_mono fuel' (new.items ++ e1x)
                    [IR.GroupBy k1 keys aggs schema maintain_order options apply] k1 _ htt1
                  rw [List.append_assoc] at h4
                  exact toTreeListWith_one _ _ _ h4
          | Join input_left input_right schema left_on right_on options =>
            simp only [IR.inputsOf] at hl
            obtain ⟨t1, t2, h1, h2, rfl⟩ := toTreeListWith_two_inv _ _ _ _ hl
            simp only [rebuildIR] at ht'
            subst ht'
            obtain ⟨err1, ok1⟩ :=
              ihN tmpl input_left t1 h1 data_node data_arena new
            constructor
            · intro e he
              simp only [bindTree] at he
              cases hb1 : bindTree (data_arena.get? data_node) t1 with
              | error e1 =>
                simp only [hb1] at he
                obtain rfl : e1 = e := by injection he
                simp only [replace_placeholder, replaceStep, hg, err1 e1 hb1]
              | ok u1 =>
                simp only [hb1] at he
                cases hb2 : bindTree (data_arena.get? data_node) t2 with
                | error e2 =>
                  simp only [hb2] at he
                  obtain rfl : e2 = e := by injection he
                  obtain ⟨e1x, k1, hc1, hk1, hcl1, htt1⟩ := ok1 u1 hb1
                  obtain ⟨err2, ok2⟩ := ihN tmpl input_right t2 h2 data_node
                    data_arena ⟨new.items ++ e1x⟩
                  simp only [replace_placeholder, replaceStep, hg, hc1,
                    err2 e2 hb2]
                | ok u2 =>
                  simp only [hb2] at he
                  exact Except.noConfusion he
            · intro t' hok
              simp only [bindTree] at hok
              cases hb1 : bindTree (data_arena.get? data_node) t1 with
              | error e1 =>
                simp only [hb1] at hok
                exact Except.noConfusion hok
              | ok u1 =>
                simp only [hb1] at hok
                cases hb2 : bindTree (data_arena.get? data_node) t2 with
                | error e2 =>
                  simp only [hb2] at hok
                  exact Except.noConfusion hok
                | ok u2 =>
                  simp only [hb2] at hok
                  obtain rfl : IRTree.Join u1 u2 schema left_on right_on options = t' := by injection hok
                  obtain ⟨e1x, k1, hc1, hk1, hcl1, htt1⟩ := ok1 u1 hb1
                  obtain ⟨err2, ok2⟩ := ihN tmpl input_right t2 h2 data_node
                    data_arena ⟨new.items ++ e1x⟩
                  obtain ⟨e2x, k2, hc2, hk2, hcl2, htt2⟩ := ok2 u2 hb2
                  simp only [List.append_assoc, List.length_append]
                    at hc2 hk2 hcl2 htt2
                  simp only [replace_placeholder, replaceStep, hg, hc1, hc2]
                  refine replace_emit fuel' new (e1x ++ e2x)
                    (.Join k1 k2 schema left_on right_on options) [u1, u2] _ ?_ ?_ ?_ rfl
                  · intro hc
                    have h3 := hcl2 (hcl1 hc)
                    simpa [List.append_assoc] using h3
                  · simp only [IR.inputsOf, List.mem_cons, List.mem_singleton,
                      List.length_append]
                    rintro m (rfl | rfl | hf)
                    · omega
                    · omega
                    · simp at hf
                  · simp only [IR.inputsOf]
                    refine toTreeListWith_two _ _ _ _ _ ?_ ?_
                    · have h4 := toTree_mono fuel' (new.items ++ e1x)
                        (e2x ++ [IR.Join k1 k2 schema left_on right_on options]) k1 _ htt1
                      simpa [List.append_assoc] using h4
                    · have h4 := toTree_mono fuel' (new.items ++ (e1x ++ e2x))
                        [IR.Join k1 k2 schema left_on right_on options] k2 _ htt2
                      simpa [List.append_assoc] using h4
          | HStack input exprs schema options =>
            simp only [IR.inputsOf] at hl
            obtain ⟨t1, h1, rfl⟩ := toTreeListWith_one_inv _ _ _ hl
            simp only [rebuildIR] at ht'
            subst ht'
            obtain ⟨err1, ok1⟩ :=
              ihN tmpl input t1 h1 data_node data_arena new
            constructor
            · intro e he
              simp only [bindTree] at he
              cases hb1 : bindTree (data_arena.get? data_node) t1 with
              | error e1 =>
                simp only [hb1] at he
                obtain rfl : e1 = e := by injection he
                simp only [replace_placeholder, replaceStep, hg, err1 e1 hb1]
              | ok u1 =>
                simp only [hb1] at he
                exact Except.noConfusion he
            · intro t' hok
              simp only [bindTree] at hok
              cases hb1 : bindTree (data_arena.get? data_node) t1 with
              | error e1 =>
                simp only [hb1] at hok
                exact Except.noConfusion hok
              | ok u1 =>
                simp only [hb1] at hok
                obtain rfl : IRTree.HStack u1 exprs schema options = t' := by injection hok
                obtain ⟨e1x, k1, hc1, hk1, hcl1, htt1⟩ := ok1 u1 hb1
                simp only [replace_placeholder, replaceStep, hg, hc1]
                refine replace_emit fuel' new e1x (.HStack k1 exprs schema options) [u1] _ hcl1
                  ?_ ?_ rfl
                · simp only [IR.inputsOf, List.mem_singleton]
                  rintro m rfl
                  omega
                · simp only [IR.inputsOf]
                  have h4 := toTree_mono fuel' (new.items ++ e1x)
                    [IR.HStack k1 exprs schema options] k1 _ htt1
                  rw [List.append_assoc] at h4
                  exact toTreeListWith_one _ _ _ h4
          | Distinct input options =>
            simp only [IR.inputsOf] at hl
            obtain ⟨t1, h1, rfl⟩ := toTreeListWith_one_inv _ _ _ hl
            simp only [rebuildIR] at ht'
            subst ht'
            obtain ⟨err1, ok1⟩ :=
              ihN tmpl input t1 h1 data_node data_arena new
            constructor
            · intro e he
              simp only [bindTree] at he
              cases hb1 : bindTree (data_arena.get? data_node) t1 with
              | error e1 =>
                simp only [hb1] at he
                obtain rfl : e1 = e := by injection he
                simp only [replace_placeholder, replaceStep, hg, err1 e1 hb1]
              | ok u1 =>
                simp only [hb1] at he
                exact Except.noConfusion he
            · intro t' hok
              simp only [bindTree] at hok
              cases hb1 : bindTree (data_arena.get? data_node) t1 with
              | error e1 =>
                simp only [hb1] at hok
                exact Except.noConfusion hok
              | ok u1 =>
                simp only [hb1] at hok
                obtain rfl : IRTree.Distinct u1 options = t' := by injection hok
                obtain ⟨e1x, k1, hc1, hk1, hcl1, htt1⟩ := ok1 u1 hb1
                simp only [replace_placeholder, replaceStep, hg, hc1]
                refine replace_emit fuel' new e1x (.Distinct k1 options) [u1] _ hcl1
                  ?_ ?_ rfl
                · simp only [IR.inputsOf, List.mem_singleton]
                  rintro m rfl
                  omega
                · simp only [IR.inputsOf]
                  have h4 := toTree_mono fuel' (new.items ++ e1x)
                    [IR.Distinct k1 options] k1 _ htt1
                  rw [List.append_assoc] at h4
                  exact toTreeListWith_one _ _ _ h4
          | MapFunction input function =>
            simp only [IR.inputsOf] at hl
            obtain ⟨t1, h1, rfl⟩ := toTreeListWith_one_inv _ _ _ hl
            simp only [rebuildIR] at ht'
            subst ht'
            obtain ⟨err1, ok1⟩ :=
              ihN tmpl input t1 h1 data_node data_arena new
            constructor
            · intro e he
              simp only [bindTree] at he
              cases hb1 : bindTree (data_arena.get? data_node) t1 with
              | error e1 =>
                simp only [hb1] at he
                obtain rfl : e1 = e := by injection he
                simp only [replace_placeholder, replaceStep, hg, err1 e1 hb1]
              | ok u1 =>
                simp only [hb1] at he
                exact Except.noConfusion he
            · intro t' hok
              simp only [bindTree] at hok
              cases hb1 : bindTree (data_arena.get? data_node) t1 with
              | error e1 =>
                simp only [hb1] at hok
                exact Except.noConfusion hok
              | ok u1 =>
                simp only [hb1] at hok
                obtain rfl : IRTree.MapFunction u1 function = t' := by injection hok
                obtain ⟨e1x, k1, hc1, hk1, hcl1, htt1⟩ := ok1 u1 hb1
                simp only [replace_placeholder, replaceStep, hg, hc1]
                refine replace_emit fuel' new e1x (.MapFunction k1 function) [u1] _ hcl1
                  ?_ ?_ rfl
                · simp only [IR.inputsOf, List.mem_singleton]
                  rintro m rfl
                  omega
                · simp only [IR.inputsOf]
                  have h4 := toTree_mono fuel' (new.items ++ e1x)
                    [IR.MapFunction k1 function] k1 _ htt1
                  rw [List.append_assoc] at h4
                  exact toTreeListWith_one _ _ _ h4
          | Union inputs options =>
            simp only [IR.inputsOf] at hl
            simp only [rebuildIR] at ht'
            subst ht'
            obtain ⟨errL, okL⟩ :=
              ihL tmpl inputs ts hl data_node data_arena new
            constructor
            · intro e he
              simp only [bindTree] at he
              cases hbl : bindTreeList (data_arena.get? data_node) ts with
              | error e1 =>
                simp only [hbl] at he
                obtain rfl : e1 = e := by injection he
                simp only [replace_placeholder, replaceStep, hg, errL e1 hbl]
              | ok us =>
                simp only [hbl] at he
                exact Except.noConfusion he
            · intro t' hok
              simp only [bindTree] at hok
              cases hbl : bindTreeList (data_arena.get? data_node) ts with
              | error e1 =>
                simp only [hbl] at hok
                exact Except.noConfusion hok
              | ok us =>
                simp only [hbl] at hok
                obtain rfl : IRTree.Union us options = t' := by injection hok
                obtain ⟨e1x, ks, hc1, hks, hcl1, htt1⟩ := okL us hbl
                simp only [replace_placeholder, replaceStep, hg, hc1]
                refine replace_emit fuel' new e1x (.Union ks options) us _ hcl1
                  ?_ ?_ rfl
                · simpa only [IR.inputsOf] using hks
                · simp only [IR.inputsOf]
                  simp only [toTreeList] at htt1
                  refine toTreeListWith_mono _ _ ?_ _ _ htt1
                  intro m u hu
                  have h4 := toTree_mono fuel' (new.items ++ e1x)
                    [IR.Union ks options] m u hu
                  simpa [List.append_assoc] using h4
          | HConcat inputs schema options =>
            simp only [IR.inputsOf] at hl
            simp only [rebuildIR] at ht'
            subst ht'
            obtain ⟨errL, okL⟩ :=
              ihL tmpl inputs ts hl data_node data_arena new
            constructor
            · intro e he
              simp only [bindTree] at he
              cases hbl : bindTreeList (data_arena.get? data_node) ts with
              | error e1 =>
                simp only [hbl] at he
                obtain rfl : e1 = e := by injection he
                simp only [replace_placeholder, replaceStep, hg, errL e1 hbl]
              | ok us =>
                simp only [hbl] at he
                exact Except.noConfusion he
            · intro t' hok
              simp only [bindTree] at hok
              cases hbl : bindTreeList (data_arena.get? data_node) ts with
              | error e1 =>
                simp only [hbl] at hok
                exact Except.noConfusion hok
              | ok us =>
                simp only [hbl] at hok
                obtain rfl : IRTree.HConcat us schema options = t' := by injection hok
                obtain ⟨e1x, ks, hc1, hks, hcl1, htt1⟩ := okL us hbl
                simp only [replace_placeholder, replaceStep, hg, hc1]
                refine replace_emit fuel' new e1x (.HConcat ks schema options) us _ hcl1
                  ?_ ?_ rfl
                · simpa only [IR.inputsOf] using hks
                · simp only [IR.inputsOf]
                  simp only [toTreeList] at htt1
                  refine toTreeListWith_mono _ _ ?_ _ _ htt1
                  intro m u hu
                  have h4 := toTree_mono fuel' (new.items ++ e1x)
                    [IR.HConcat ks schema options] m u hu
                  simpa [List.append_assoc] using h4
          | ExtContext input contexts schema =>
            simp only [IR.inputsOf] at hl
            obtain ⟨t1, us, h1, hus, rfl⟩ := toTreeListWith_cons_inv _ _ _ _ hl
            simp only [rebuildIR] at ht'
            subst ht'
            obtain ⟨err1, ok1⟩ :=
              ihN tmpl input t1 h1 data_node data_arena new
            constructor
            · intro e he
              simp only [bindTree] at he
              cases hb1 : bindTree (data_arena.get? data_node) t1 with
              | error e1 =>
                simp only [hb1] at he
                obtain rfl : e1 = e := by injection he
                simp only [replace_placeholder, replaceStep, hg, err1 e1 hb1]
              | ok u1 =>
                simp only [hb1] at he
                cases hbl : bindTreeList (data_arena.get? data_node) us with
                | error e2 =>
                  simp only [hbl] at he
                  obtain rfl : e2 = e := by injection he
                  obtain ⟨e1x, k1, hc1, hk1, hcl1, htt1⟩ := ok1 u1 hb1
                  obtain ⟨err2, ok2⟩ := ihL tmpl contexts us hus data_node
                    data_arena ⟨new.items ++ e1x⟩
                  simp only [replace_placeholder, replaceStep, hg, hc1,
                    err2 e2 hbl]
                | ok us2 =>
                  simp only [hbl] at he
                  exact Except.noConfusion he
            · intro t' hok
              simp only [bindTree] at hok
              cases hb1 : bindTree (data_arena.get? data_node) t1 with
              | error e1 =>
                simp only [hb1] at hok
                exact Except.noConfusion hok
              | ok u1 =>
                simp only [hb1] at hok
                cases hbl : bindTreeList (data_arena.get? data_node) us with
                | error e2 =>
                  simp only [hbl] at hok
                  exact Except.noConfusion hok
                | ok us2 =>
                  simp only [hbl] at hok
                  obtain rfl : IRTree.ExtContext u1 us2 schema = t' := by
                    injection hok
                  obtain ⟨e1x, k1, hc1, hk1, hcl1, htt1⟩ := ok1 u1 hb1
                  obtain ⟨err2, ok2⟩ := ihL tmpl contexts us hus data_node
                    data_arena ⟨new.items ++ e1x⟩
                  obtain ⟨e2x, ks, hc2, hks, hcl2, htt2⟩ := ok2 us2 hbl
                  simp only [List.append_assoc, List.length_append, toTreeList]
                    at hc2 hks hcl2 htt2
                  simp only [replace_placeholder, replaceStep, hg, hc1, hc2]
                  refine replace_emit fuel' new (e1x ++ e2x)
                    (.ExtContext k1 ks schema) (u1 :: us2) _ ?_ ?_ ?_ rfl
                  · intro hc
                    have h3 := hcl2 (hcl1 hc)
                    simpa [List.append_assoc] using h3
                  · simp only [IR.inputsOf, List.mem_cons, List.length_append]
                    rintro m (rfl | hm)
                    · omega
                    · have h5 := hks m hm
                      omega
                  · simp only [IR.inputsOf]
                    refine toTreeListWith_cons _ _ _ _ _ ?_ ?_
                    · have h4 := toTree_mono fuel' (new.items ++ e1x)
                        (e2x ++ [IR.ExtContext k1 ks schema]) k1 _ htt1
                      simpa [List.append_assoc] using h4
                    · refine toTreeListWith_mono _ _ ?_ _ _ htt2
                      intro m u hu
                      have h5 := toTree_mono fuel' (new.items ++ (e1x ++ e2x))
                        [IR.ExtContext k1 ks schema] m u hu
                      simpa [List.append_assoc] using h5
          | Sink input payload =>
            simp only [IR.inputsOf] at hl
            obtain ⟨t1, h1, rfl⟩ := toTreeListWith_one_inv _ _ _ hl
            simp only [rebuildIR] at ht'
            subst ht'
            obtain ⟨err1, ok1⟩ :=
              ihN tmpl input t1 h1 data_node data_arena new
            constructor
            · intro e he
              simp only [bindTree] at he
              cases hb1 : bindTree (data_arena.get? data_node) t1 with
              | error e1 =>
                simp only [hb1] at he
                obtain rfl : e1 = e := by injection he
                simp only [replace_placeholder, replaceStep, hg, err1 e1 hb1]
              | ok u1 =>
                simp only [hb1] at he
                exact Except.noConfusion he
            · intro t' hok
              simp only [bindTree] at hok
              cases hb1 : bindTree (data_arena.get? data_node) t1 with
              | error e1 =>
                simp only [hb1] at hok
                exact Except.noConfusion hok
              | ok u1 =>
                simp only [hb1] at hok
                obtain rfl : IRTree.Sink u1 payload = t' := by injection hok
                obtain ⟨e1x, k1, hc1, hk1, hcl1, htt1⟩ := ok1 u1 hb1
                simp only [replace_placeholder, replaceStep, hg, hc1]
                refine replace_emit fuel' new e1x (.Sink k1 payload) [u1] _ hcl1
                  ?_ ?_ rfl
                · simp only [IR.inputsOf, List.mem_singleton]
                  rintro m rfl
                  omega
                · simp only [IR.inputsOf]
                  have h4 := toTree_mono fuel' (new.items ++ e1x)
                    [IR.Sink k1 payload] k1 _ htt1
                  rw [List.append_assoc] at h4
                  exact toTreeListWith_one _ _ _ h4
          | SinkMultiple inputs =>
            simp only [IR.inputsOf] at hl
            simp only [rebuildIR] at ht'
            subst ht'
            obtain ⟨errL, okL⟩ :=
              ihL tmpl inputs ts hl data_node data_arena new
            constructor
            · intro e he
              simp only [bindTree] at he
              cases hbl : bindTreeList (data_arena.get? data_node) ts with
              | error e1 =>
                simp only [hbl] at he
                obtain rfl : e1 = e := by injection he
                simp only [replace_placeholder, replaceStep, hg, errL e1 hbl]
              | ok us =>
                simp only [hbl] at he
                exact Except.noConfusion he
            · intro t' hok
              simp only [bindTree] at hok
              cases hbl : bindTreeList (data_arena.get? data_node) ts with
              | error e1 =>
                simp only [hbl] at hok
                exact Except.noConfusion hok
              | ok us =>
                simp only [hbl] at hok
                obtain rfl : IRTree.SinkMultiple us = t' := by injection hok
                obtain ⟨e1x, ks, hc1, hks, hcl1, htt1⟩ := okL us hbl
                simp only [replace_placeholder, replaceStep, hg, hc1]
                refine replace_emit fuel' new e1x (.SinkMultiple ks) us _ hcl1
                  ?_ ?_ rfl
                · simpa only [IR.inputsOf] using hks
                · simp only [IR.inputsOf]
                  simp only [toTreeList] at htt1
                  refine toTreeListWith_mono _ _ ?_ _ _ htt1
                  intro m u hu
                  have h4 := toTree_mono fuel' (new.items ++ e1x)
                    [IR.SinkMultiple ks] m u hu
                  simpa [List.append_assoc] using h4
          | MergeSorted input_left input_right key =>
            simp only [IR.inputsOf] at hl
            obtain ⟨t1, t2, h1, h2, rfl⟩ := toTreeListWith_two_inv _ _ _ _ hl
            simp only [rebuildIR] at ht'
            subst ht'
            obtain ⟨err1, ok1⟩ :=
              ihN tmpl input_left t1 h1 data_node data_arena new
            constructor
            · intro e he
              simp only [bindTree] at he
              cases hb1 : bindTree (data_arena.get? data_node) t1 with
              | error e1 =>
                simp only [hb1] at he
                obtain rfl : e1 = e := by injection he
                simp only [replace_placeholder, replaceStep, hg, err1 e1 hb1]
              | ok u1 =>
                simp only [hb1] at he
                cases hb2 : bindTree (data_arena.get? data_node) t2 with
                | error e2 =>
                  simp only [hb2] at he
                  obtain rfl : e2 = e := by injection he
                  obtain ⟨e1x, k1, hc1, hk1, hcl1, htt1⟩ := ok1 u1 hb1
                  obtain ⟨err2, ok2⟩ := ihN tmpl input_right t2 h2 data_node
                    data_arena ⟨new.items ++ e1x⟩
                  simp only [replace_placeholder, replaceStep, hg, hc1,
                    err2 e2 hb2]
                | ok u2 =>
                  simp only [hb2] at he
                  exact Except.noConfusion he
            · intro t' hok
              simp only [bindTree] at hok
              cases hb1 : bindTree (data_arena.get? data_node) t1 with
              | error e1 =>
                simp only [hb1] at hok
                exact Except.noConfusion hok
              | ok u1 =>
                simp only [hb1] at hok
                cases hb2 : bindTree (data_arena.get? data_node) t2 with
                | error e2 =>
                  simp only [hb2] at hok
                  exact Except.noConfusion hok
                | ok u2 =>
                  simp only [hb2] at hok
                  obtain rfl : IRTree.MergeSorted u1 u2 key = t' := by injection hok
                  obtain ⟨e1x, k1, hc1, hk1, hcl1, htt1⟩ := ok1 u1 hb1
                  obtain ⟨err2, ok2⟩ := ihN tmpl input_right t2 h2 data_node
                    data_arena ⟨new.items ++ e1x⟩
                  obtain ⟨e2x, k2, hc2, hk2, hcl2, htt2⟩ := ok2 u2 hb2
                  simp only [List.append_assoc, List.length_append]
                    at hc2 hk2 hcl2 htt2
                  simp only [replace_placeholder, replaceStep, hg, hc1, hc2]
                  refine replace_emit fuel' new (e1x ++ e2x)
                    (.MergeSorted k1 k2 key) [u1, u2] _ ?_ ?_ ?_ rfl
                  · intro hc
                    have h3 := hcl2 (hcl1 hc)
                    simpa [List.append_assoc] using h3
                  · simp only [IR.inputsOf, List.mem_cons, List.mem_singleton,
                      List.length_append]
                    rintro m (rfl | rfl | hf)
                    · omega
                    · omega
                    · simp at hf
                  · simp only [IR.inputsOf]
                    refine toTreeListWith_two _ _ _ _ _ ?_ ?_
                    · have h4 := toTree_mono fuel' (new.items ++ e1x)
                        (e2x ++ [IR.MergeSorted k1 k2 key]) k1 _ htt1
                      simpa [List.append_assoc] using h4
                    · have h4 := toTree_mono fuel' (new.items ++ (e1x ++ e2x))
                        [IR.MergeSorted k1 k2 key] k2 _ htt2
                      simpa [List.append_assoc] using h4
          | Invalid =>
            simp only [IR.inputsOf] at hl
            obtain rfl : ts = [] := by
              simpa [toTreeListWith] using hl.symm
            simp only [rebuildIR] at ht'
            subst ht'
            constructor
            · intro e he
              simp only [bindTree] at he
              exact Except.noConfusion he
            · intro t' hok
              simp only [bindTree] at hok
              obtain rfl : IRTree.Invalid = t' := by injection hok
              simp only [replace_placeholder, replaceStep, hg]
              exact replace_emit_leaf fuel' new (IR.Invalid) _ rfl rfl
    have hlist : RepListStmt (fuel' + 1) := by
      intro tmpl ns
      induction ns with
      | nil =>
        intro ts h data_node data_arena new
        obtain rfl : ts = [] := by
          simpa [toTreeList, toTreeListWith] using h.symm
        constructor
        · intro e he
          simp only [bindTreeList] at he
          exact Except.noConfusion he
        · intro ts' hok
          simp only [bindTreeList] at hok
          obtain rfl : ([] : List IRTree) = ts' := by injection hok
          refine ⟨[], [], ?_, ?_, ?_, ?_⟩
          · simp [replace_list]
          · intro kk hkk
            simp at hkk
          · intro hc
            simpa using hc
          · simp [toTreeList, toTreeListWith]
      | cons head rest ihrest =>
        intro ts h data_node data_arena new
        simp only [toTreeList] at h
        obtain ⟨u, us, hu, hus, rfl⟩ := toTreeListWith_cons_inv _ _ _ _ h
        obtain ⟨err1, ok1⟩ := hnode tmpl head u hu data_node data_arena new
        constructor
        · intro e he
          simp only [bindTreeList] at he
          cases hb1 : bindTree (data_arena.get? data_node) u with
          | error e1 =>
            simp only [hb1] at he
            obtain rfl : e1 = e := by injection he
            simp only [replace_list, err1 e1 hb1]
          | ok u1 =>
            simp only [hb1] at he
            cases hbl : bindTreeList (data_arena.get? data_node) us with
            | error e2 =>
              simp only [hbl] at he
              obtain rfl : e2 = e := by injection he
              obtain ⟨e1x, k1, hc1, hk1, hcl1, htt1⟩ := ok1 u1 hb1
              obtain ⟨err2, ok2⟩ :=
                ihrest us hus data_node data_arena ⟨new.items ++ e1x⟩
              simp only [replace_list, hc1, err2 e2 hbl]
            | ok us2 =>
              simp only [hbl] at he
              exact Except.noConfusion he
        · intro ts' hok
          simp only [bindTreeList] at hok
          cases hb1 : bindTree (data_arena.get? data_node) u with
          | error e1 =>
            simp only [hb1] at hok
            exact Except.noConfusion hok
          | ok u1 =>
            simp only [hb1] at hok
            cases hbl : bindTreeList (data_arena.get? data_node) us with
            | error e2 =>
              simp only [hbl] at hok
              exact Except.noConfusion hok
            | ok us2 =>
              simp only [hbl] at hok
              obtain rfl : u1 :: us2 = ts' := by injection hok
              obtain ⟨e1x, k1, hc1, hk1, hcl1, htt1⟩ := ok1 u1 hb1
              obtain ⟨err2, ok2⟩ :=
                ihrest us hus data_node data_arena ⟨new.items ++ e1x⟩
              obtain ⟨e2x, ks2, hc2, hks2, hcl2, htt2⟩ := ok2 us2 hbl
              simp only [List.append_assoc, List.length_append, toTreeList]
                at hc2 hks2 hcl2 htt2
              refine ⟨e1x ++ e2x, k1 :: ks2, ?_, ?_, ?_, ?_⟩
              · simp only [replace_list, hc1, hc2]
              · intro kk hkk
                simp only [List.mem_cons] at hkk
                simp only [List.length_append] at hks2 ⊢
                rcases hkk with rfl | hm
                · omega
                · have h5 := hks2 kk hm
                  omega
              · intro hc
                have h3 := hcl2 (hcl1 hc)
                simpa [List.append_assoc] using h3
              · simp only [toTreeList]
                have hA1 : toTree (fuel' + 1) ⟨new.items ++ (e1x ++ e2x)⟩ k1 =
                    some u1 := by
                  have h4 := toTree_mono (fuel' + 1) (new.items ++ e1x) e2x k1 _ htt1
                  rwa [List.append_assoc] at h4
                exact toTreeListWith_cons _ _ _ _ _ hA1 htt2
    exact ⟨hnode, hlist⟩

mutual

/-- A tree without placeholders binds successfully to anything, unchanged:
the supplied data is never inspected. -/
theorem bindTree_ok_of_no_ph (o : Option IR) (t : IRTree)
    (h : anyLeaf isPHLeaf t = false) : bindTree o t = .ok t := by
  cases t with
  | PlaceholderScan schema output_schema =>
    simp [anyLeaf, isPHLeaf] at h
  | PythonScan options =>
    simp [bindTree]
  | Scan sources file_info hive_parts predicate predicate_file_skip_applied output_schema scan_type unified_scan_args =>
    simp [bindTree]
  | DataFrameScan df schema output_schema =>
    simp [bindTree]
  | Invalid  =>
    simp [bindTree]
  | Slice input offset len =>
    simp only [anyLeaf] at h
    simp [bindTree, bindTree_ok_of_no_ph o input h]
  | Filter input predicate =>
    simp only [anyLeaf] at h
    simp [bindTree, bindTree_ok_of_no_ph o input h]
  | SimpleProjection input columns =>
    simp only [anyLeaf] at h
    simp [bindTree, bindTree_ok_of_no_ph o input h]
  | Select input expr schema options =>
    simp only [anyLeaf] at h
    simp [bindTree, bindTree_ok_of_no_ph o input h]
  | «Sort» input by_column slice sort_options =>
    simp only [anyLeaf] at h
    simp [bindTree, bindTree_ok_of_no_ph o input h]
  | Cache input id =>
    simp only [anyLeaf] at h
    simp [bindTree, bindTree_ok_of_no_ph o input h]
  | GroupBy input keys aggs schema maintain_order options apply =>
    simp only [anyLeaf] at h
    simp [bindTree, bindTree_ok_of_no_ph o input h]
  | HStack input exprs schema options =>
    simp only [anyLeaf] at h
    simp [bindTree, bindTree_ok_of_no_ph o input h]
  | Distinct input options =>
    simp only [anyLeaf] at h
    simp [bindTree, bindTree_ok_of_no_ph o input h]
  | MapFunction input function =>
    simp only [anyLeaf] at h
    simp [bindTree, bindTree_ok_of_no_ph o input h]
  | Sink input payload =>
    simp only [anyLeaf] at h
    simp [bindTree, bindTree_ok_of_no_ph o input h]
  | Join input_left input_right schema left_on right_on options =>
    simp only [anyLeaf, Bool.or_eq_false_iff] at h
    simp [bindTree, bindTree_ok_of_no_ph o input_left h.1,
      bindTree_ok_of_no_ph o input_right h.2]
  | MergeSorted input_left input_right key =>
    simp only [anyLeaf, Bool.or_eq_false_iff] at h
    simp [bindTree, bindTree_ok_of_no_ph o input_left h.1,
      bindTree_ok_of_no_ph o input_right h.2]
  | Union inputs options =>
    simp only [anyLeaf] at h
    simp [bindTree, bindTreeList_ok_of_no_ph o inputs h]
  | HConcat inputs schema options =>
    simp only [anyLeaf] at h
    simp [bindTree, bindTreeList_ok_of_no_ph o inputs h]
  | SinkMultiple inputs  =>
    simp only [anyLeaf] at h
    simp [bindTree, bindTreeList_ok_of_no_ph o inputs h]
  | ExtContext input contexts schema =>
    simp only [anyLeaf, Bool.or_eq_false_iff] at h
    simp [bindTree, bindTree_ok_of_no_ph o input h.1,
      bindTreeList_ok_of_no_ph o contexts h.2]

/-- List version of `bindTree_ok_of_no_ph`. -/
theorem bindTreeList_ok_of_no_ph (o : Option IR) (ts : List IRTree)
    (h : anyLeafList isPHLeaf ts = false) : bindTreeList o ts = .ok ts := by
  cases ts with
  | nil => simp [bindTreeList]
  | cons t rest =>
    simp only [anyLeafList, Bool.or_eq_false_iff] at h
    simp [bindTreeList, bindTree_ok_of_no_ph o t h.1,
      bindTreeList_ok_of_no_ph o rest h.2]

end
mutual

/-- When every placeholder column count equals the data column count,
binding replaces exactly the placeholder leaves by the data node. -/
theorem bindTree_subst (df : DataFrame) (ds : Schema) (oos : Option Schema)
    (t : IRTree) (h : allLeaf (phCountOkLeaf ds.length) t = true) :
    bindTree (some (.DataFrameScan df ds oos)) t =
      .ok (substPH df ds oos t) := by
  cases t with
  | PlaceholderScan schema output_schema =>
    simp only [allLeaf, phCountOkLeaf, decide_eq_true_eq] at h
    simp only [bindTree, substPH]
    rw [if_neg (fun hx => hx h)]
  | PythonScan options =>
    simp [bindTree, substPH]
  | Scan sources file_info hive_parts predicate predicate_file_skip_applied output_schema scan_type unified_scan_args =>
    simp [bindTree, substPH]
  | DataFrameScan df schema output_schema =>
    simp [bindTree, substPH]
  | Invalid  =>
    simp [bindTree, substPH]
  | Slice input offset len =>
    simp only [allLeaf] at h
    simp [bindTree, substPH, bindTree_subst df ds oos input h]
  | Filter input predicate =>
    simp only [allLeaf] at h
    simp [bindTree, substPH, bindTree_subst df ds oos input h]
  | SimpleProjection input columns =>
    simp only [allLeaf] at h
    simp [bindTree, substPH, bindTree_subst df ds oos input h]
  | Select input expr schema options =>
    simp only [allLeaf] at h
    simp [bindTree, substPH, bindTree_subst df ds oos input h]
  | «Sort» input by_column slice sort_options =>
    simp only [allLeaf] at h
    simp [bindTree, substPH, bindTree_subst df ds oos input h]
  | Cache input id =>
    simp only [allLeaf] at h
    simp [bindTree, substPH, bindTree_subst df ds oos input h]
  | GroupBy input keys aggs schema maintain_order options apply =>
    simp only [allLeaf] at h
    simp [bindTree, substPH, bindTree_subst df ds oos input h]
  | HStack input exprs schema options =>
    simp only [allLeaf] at h
    simp [bindTree, substPH, bindTree_subst df ds oos input h]
  | Distinct input options =>
    simp only [allLeaf] at h
    simp [bindTree, substPH, bindTree_subst df ds oos input h]
  | MapFunction input function =>
    simp only [allLeaf] at h
    simp [bindTree, substPH, bindTree_subst df ds oos input h]
  | Sink input payload =>
    simp only [allLeaf] at h
    simp [bindTree, substPH, bindTree_subst df ds oos input h]
  | Join input_left input_right schema left_on right_on options =>
    simp only [allLeaf, Bool.and_eq_true] at h
    simp [bindTree, substPH, bindTree_subst df ds oos input_left h.1,
      bindTree_subst df ds oos input_right h.2]
  | MergeSorted input_left input_right key =>
    simp only [allLeaf, Bool.and_eq_true] at h
    simp [bindTree, substPH, bindTree_subst df ds oos input_left h.1,
      bindTree_subst df ds oos input_right h.2]
  | Union inputs options =>
    simp only [allLeaf] at h
    simp [bindTree, substPH, bindTreeList_subst df ds oos inputs h]
  | HConcat inputs schema options =>
    simp only [allLeaf] at h
    simp [bindTree, substPH, bindTreeList_subst df ds oos inputs h]
  | SinkMultiple inputs  =>
    simp only [allLeaf] at h
    simp [bindTree, substPH, bindTreeList_subst df ds oos inputs h]
  | ExtContext input contexts schema =>
    simp only [allLeaf, Bool.and_eq_true] at h
    simp [bindTree, substPH, bindTree_subst df ds oos input h.1,
      bindTreeList_subst df ds oos contexts h.2]

/-- List version of `bindTree_subst`. -/
theorem bindTreeList_subst (df : DataFrame) (ds : Schema)
    (oos : Option Schema) (ts : List IRTree)
    (h : allLeafList (phCountOkLeaf ds.length) ts = true) :
    bindTreeList (some (.DataFrameScan df ds oos)) ts =
      .ok (substPHList df ds oos ts) := by
  cases ts with
  | nil => simp [bindTreeList, substPHList]
  | cons t rest =>
    simp only [allLeafList, Bool.and_eq_true] at h
    simp [bindTreeList, substPHList, bindTree_subst df ds oos t h.1,
      bindTreeList_subst df ds oos rest h.2]

end
mutual

/-- If the depth-first search finds no mismatching placeholder, every
placeholder column count equals `c`. -/
theorem fm_none_countsOk (c : Nat) (t : IRTree)
    (h : firstLeaf (mismatchLeaf c) t = none) :
    allLeaf (phCountOkLeaf c) t = true := by
  cases t with
  | PlaceholderScan schema output_schema =>
    simp only [firstLeaf, mismatchLeaf] at h
    by_cases hne : schema.length = c
    · simp [allLeaf, phCountOkLeaf, hne]
    · rw [if_pos hne] at h
      exact Option.noConfusion h
  | PythonScan options =>
    simp [allLeaf, phCountOkLeaf]
  | Scan sources file_info hive_parts predicate predicate_file_skip_applied output_schema scan_type unified_scan_args =>
    simp [allLeaf, phCountOkLeaf]
  | DataFrameScan df schema output_schema =>
    simp [allLeaf, phCountOkLeaf]
  | Invalid  =>
    simp [allLeaf, phCountOkLeaf]
  | Slice input offset len =>
    simp only [firstLeaf] at h
    simp [allLeaf, fm_none_countsOk c input h]
  | Filter input predicate =>
    simp only [firstLeaf] at h
    simp [allLeaf, fm_none_countsOk c input h]
  | SimpleProjection input columns =>
    simp only [firstLeaf] at h
    simp [allLeaf, fm_none_countsOk c input h]
  | Select input expr schema options =>
    simp only [firstLeaf] at h
    simp [allLeaf, fm_none_countsOk c input h]
  | «Sort» input by_column slice sort_options =>
    simp only [firstLeaf] at h
    simp [allLeaf, fm_none_countsOk c input h]
  | Cache input id =>
    simp only [firstLeaf] at h
    simp [allLeaf, fm_none_countsOk c input h]
  | GroupBy input keys aggs schema maintain_order options apply =>
    simp only [firstLeaf] at h
    simp [allLeaf, fm_none_countsOk c input h]
  | HStack input exprs schema options =>
    simp only [firstLeaf] at h
    simp [allLeaf, fm_none_countsOk c input h]
  | Distinct input options =>
    simp only [firstLeaf] at h
    simp [allLeaf, fm_none_countsOk c input h]
  | MapFunction input function =>
    simp only [firstLeaf] at h
    simp [allLeaf, fm_none_countsOk c input h]
  | Sink input payload =>
    simp only [firstLeaf] at h
    simp [allLeaf, fm_none_countsOk c input h]
  | Join input_left input_right schema left_on right_on options =>
    simp only [firstLeaf] at h
    cases hf1 : firstLeaf (mismatchLeaf c) input_left with
    | some m1 =>
      simp only [hf1] at h
      exact Option.noConfusion h
    | none =>
      simp only [hf1] at h
      simp [allLeaf, fm_none_countsOk c input_left hf1,
        fm_none_countsOk c input_right h]
  | MergeSorted input_left input_right key =>
    simp only [firstLeaf] at h
    cases hf1 : firstLeaf (mismatchLeaf c) input_left with
    | some m1 =>
      simp only [hf1] at h
      exact Option.noConfusion h
    | none =>
      simp only [hf1] at h
      simp [allLeaf, fm_none_countsOk c input_left hf1,
        fm_none_countsOk c input_right h]
  | Union inputs options =>
    simp only [firstLeaf] at h
    simp [allLeaf, fmList_none_countsOk c inputs h]
  | HConcat inputs schema options =>
    simp only [firstLeaf] at h
    simp [allLeaf, fmList_none_countsOk c inputs h]
  | SinkMultiple inputs  =>
    simp only [firstLeaf] at h
    simp [allLeaf, fmList_none_countsOk c inputs h]
  | ExtContext input contexts schema =>
    simp only [firstLeaf] at h
    cases hf1 : firstLeaf (mismatchLeaf c) input with
    | some m1 =>
      simp only [hf1] at h
      exact Option.noConfusion h
    | none =>
      simp only [hf1] at h
      simp [allLeaf, fm_none_countsOk c input hf1,
        fmList_none_countsOk c contexts h]

/-- List version of `fm_none_countsOk`. -/
theorem fmList_none_countsOk (c : Nat) (ts : List IRTree)
    (h : firstLeafList (mismatchLeaf c) ts = none) :
    allLeafList (phCountOkLeaf c) ts = true := by
  cases ts with
  | nil => simp [allLeafList]
  | cons t rest =>
    simp only [firstLeafList] at h
    cases hf1 : firstLeaf (mismatchLeaf c) t with
    | some m1 =>
      simp only [hf1] at h
      exact Option.noConfusion h
    | none =>
      simp only [hf1] at h
      simp [allLeafList, fm_none_countsOk c t hf1,
        fmList_none_countsOk c rest h]

end
mutual

/-- When the depth-first search finds a mismatching placeholder, binding
fails with exactly that schema-mismatch error. -/
theorem bindTree_mismatch (df : DataFrame) (ds : Schema)
    (oos : Option Schema) (t : IRTree) (nn : Nat)
    (h : firstLeaf (mismatchLeaf ds.length) t = some nn) :
    bindTree (some (.DataFrameScan df ds oos)) t =
      .error (.schemaMismatch nn ds.length) := by
  cases t with
  | PlaceholderScan schema output_schema =>
    simp only [firstLeaf, mismatchLeaf] at h
    by_cases hne : schema.length = ds.length
    · rw [if_neg (fun hx => hx hne)] at h
      exact Option.noConfusion h
    · rw [if_pos hne] at h
      obtain rfl : schema.length = nn := by injection h
      simp only [bindTree]
      rw [if_pos hne]
  | PythonScan options =>
    simp [firstLeaf, mismatchLeaf] at h
  | Scan sources file_info hive_parts predicate predicate_file_skip_applied output_schema scan_type unified_scan_args =>
    simp [firstLeaf, mismatchLeaf] at h
  | DataFrameScan df schema output_schema =>
    simp [firstLeaf, mismatchLeaf] at h
  | Invalid  =>
    simp [firstLeaf, mismatchLeaf] at h
  | Slice input offset len =>
    simp only [firstLeaf] at h
    simp [bindTree, bindTree_mismatch df ds oos input nn h]
  | Filter input predicate =>
    simp only [firstLeaf] at h
    simp [bindTree, bindTree_mismatch df ds oos input nn h]
  | SimpleProjection input columns =>
    simp only [firstLeaf] at h
    simp [bindTree, bindTree_mismatch df ds oos input nn h]
  | Select input expr schema options =>
    simp only [firstLeaf] at h
    simp [bindTree, bindTree_mismatch df ds oos input nn h]
  | «Sort» input by_column slice sort_options =>
    simp only [firstLeaf] at h
    simp [bindTree, bindTree_mismatch df ds oos input nn h]
  | Cache input id =>
    simp only [firstLeaf] at h
    simp [bindTree, bindTree_mismatch df ds oos input nn h]
  | GroupBy input keys aggs schema maintain_order options apply =>
    simp only [firstLeaf] at h
    simp [bindTree, bindTree_mismatch df ds oos input nn h]
  | HStack input exprs schema options =>
    simp only [firstLeaf] at h
    simp [bindTree, bindTree_mismatch df ds oos input nn h]
  | Distinct input options =>
    simp only [firstLeaf] at h
    simp [bindTree, bindTree_mismatch df ds oos input nn h]
  | MapFunction input function =>
    simp only [firstLeaf] at h
    simp [bindTree, bindTree_mismatch df ds oos input nn h]
  | Sink input payload =>
    simp only [firstLeaf] at h
    simp [bindTree, bindTree_mismatch df ds oos input nn h]
  | Join input_left input_right schema left_on right_on options =>
    simp only [firstLeaf] at h
    cases hf1 : firstLeaf (mismatchLeaf ds.length) input_left with
    | some m1 =>
      simp only [hf1] at h
      obtain rfl : m1 = nn := by injection h
      simp [bindTree, bindTree_mismatch df ds oos input_left _ hf1]
    | none =>
      simp only [hf1] at h
      have hok := bindTree_subst df ds oos input_left
        (fm_none_countsOk ds.length input_left hf1)
      simp [bindTree, hok, bindTree_mismatch df ds oos input_right nn h]
  | MergeSorted input_left input_right key =>
    simp only [firstLeaf] at h
    cases hf1 : firstLeaf (mismatchLeaf ds.length) input_left with
    | some m1 =>
      simp only [hf1] at h
      obtain rfl : m1 = nn := by injection h
      simp [bindTree, bindTree_mismatch df ds oos input_left _ hf1]
    | none =>
      simp only [hf1] at h
      have hok := bindTree_subst df ds oos input_left
        (fm_none_countsOk ds.length input_left hf1)
      simp [bindTree, hok, bindTree_mismatch df ds oos input_right nn h]
  | Union inputs options =>
    simp only [firstLeaf] at h
    simp [bindTree, bindTreeList_mismatch df ds oos inputs nn h]
  | HConcat inputs schema options =>
    simp only [firstLeaf] at h
    simp [bindTree, bindTreeList_mismatch df ds oos inputs nn h]
  | SinkMultiple inputs  =>
    simp only [firstLeaf] at h
    simp [bindTree, bindTreeList_mismatch df ds oos inputs nn h]
  | ExtContext input contexts schema =>
    simp only [firstLeaf] at h
    cases hf1 : firstLeaf (mismatchLeaf ds.length) input with
    | some m1 =>
      simp only [hf1] at h
      obtain rfl : m1 = nn := by injection h
      simp [bindTree, bindTree_mismatch df ds oos input _ hf1]
    | none =>
      simp only [hf1] at h
      have hok := bindTree_subst df ds oos input
        (fm_none_countsOk ds.length input hf1)
      simp [bindTree, hok, bindTreeList_mismatch df ds oos contexts nn h]

/-- List version of `bindTree_mismatch`. -/
theorem bindTreeList_mismatch (df : DataFrame) (ds : Schema)
    (oos : Option Schema) (ts : List IRTree) (nn : Nat)
    (h : firstLeafList (mismatchLeaf ds.length) ts = some nn) :
    bindTreeList (some (.DataFrameScan df ds oos)) ts =
      .error (.schemaMismatch nn ds.length) := by
  cases ts with
  | nil => simp [firstLeafList] at h
  | cons t rest =>
    simp only [firstLeafList] at h
    cases hf1 : firstLeaf (mismatchLeaf ds.length) t with
    | some m1 =>
      simp only [hf1] at h
      obtain rfl : m1 = nn := by injection h
      simp [bindTreeList, bindTree_mismatch df ds oos t _ hf1]
    | none =>
      simp only [hf1] at h
      have hok := bindTree_subst df ds oos t
        (fm_none_countsOk ds.length t hf1)
      simp [bindTreeList, hok, bindTreeList_mismatch df ds oos rest nn h]

end
mutual

/-- The value reported by `firstLeaf (mismatchLeaf c)` is the column count
of an actual placeholder of the tree, and differs from `c`. -/
theorem fm_some_mem (c : Nat) (t : IRTree) (nn : Nat)
    (h : firstLeaf (mismatchLeaf c) t = some nn) :
    anyLeaf (isPHCountLeaf nn) t = true ∧ nn ≠ c := by
  cases t with
  | PlaceholderScan schema output_schema =>
    simp only [firstLeaf, mismatchLeaf] at h
    by_cases hne : schema.length = c
    · rw [if_neg (fun hx => hx hne)] at h
      exact Option.noConfusion h
    · rw [if_pos hne] at h
      obtain rfl : schema.length = nn := by injection h
      exact ⟨by simp [anyLeaf, isPHCountLeaf], hne⟩
  | PythonScan options =>
    simp [firstLeaf, mismatchLeaf] at h
  | Scan sources file_info hive_parts predicate predicate_file_skip_applied output_schema scan_type unified_scan_args =>
    simp [firstLeaf, mismatchLeaf] at h
  | DataFrameScan df schema output_schema =>
    simp [firstLeaf, mismatchLeaf] at h
  | Invalid  =>
    simp [firstLeaf, mismatchLeaf] at h
  | Slice input offset len =>
    simp only [firstLeaf] at h
    have h5 := fm_some_mem c input nn h
    exact ⟨by simp [anyLeaf, h5.1], h5.2⟩
  | Filter input predicate =>
    simp only [firstLeaf] at h
    have h5 := fm_some_mem c input nn h
    exact ⟨by simp [anyLeaf, h5.1], h5.2⟩
  | SimpleProjection input columns =>
    simp only [firstLeaf] at h
    have h5 := fm_some_mem c input nn h
    exact ⟨by simp [anyLeaf, h5.1], h5.2⟩
  | Select input expr schema options =>
    simp only [firstLeaf] at h
    have h5 := fm_some_mem c input nn h
    exact ⟨by simp [anyLeaf, h5.1], h5.2⟩
  | «Sort» input by_column slice sort_options =>
    simp only [firstLeaf] at h
    have h5 := fm_some_mem c input nn h
    exact ⟨by simp [anyLeaf, h5.1], h5.2⟩
  | Cache input id =>
    simp only [firstLeaf] at h
    have h5 := fm_some_mem c input nn h
    exact ⟨by simp [anyLeaf, h5.1], h5.2⟩
  | GroupBy input keys aggs schema maintain_order options apply =>
    simp only [firstLeaf] at h
    have h5 := fm_some_mem c input nn h
    exact ⟨by simp [anyLeaf, h5.1], h5.2⟩
  | HStack input exprs schema options =>
    simp only [firstLeaf] at h
    have h5 := fm_some_mem c input nn h
    exact ⟨by simp [anyLeaf, h5.1], h5.2⟩
  | Distinct input options =>
    simp only [firstLeaf] at h
    have h5 := fm_some_mem c input nn h
    exact ⟨by simp [anyLeaf, h5.1], h5.2⟩
  | MapFunction input function =>
    simp only [firstLeaf] at h
    have h5 := fm_some_mem c input nn h
    exact ⟨by simp [anyLeaf, h5.1], h5.2⟩
  | Sink input payload =>
    simp only [firstLeaf] at h
    have h5 := fm_some_mem c input nn h
    exact ⟨by simp [anyLeaf, h5.1], h5.2⟩
  | Join input_left input_right schema left_on right_on options =>
    simp only [firstLeaf] at h
    cases hf1 : firstLeaf (mismatchLeaf c) input_left with
    | some m1 =>
      simp only [hf1] at h
      obtain rfl : m1 = nn := by injection h
      have h5 := fm_some_mem c input_left _ hf1
      exact ⟨by simp [anyLeaf, h5.1], h5.2⟩
    | none =>
      simp only [hf1] at h
      have h5 := fm_some_mem c input_right nn h
      exact ⟨by simp [anyLeaf, h5.1], h5.2⟩
  | MergeSorted input_left input_right key =>
    simp only [firstLeaf] at h
    cases hf1 : firstLeaf (mismatchLeaf c) input_left with
    | some m1 =>
      simp only [hf1] at h
      obtain rfl : m1 = nn := by injection h
      have h5 := fm_some_mem c input_left _ hf1
      exact ⟨by simp [anyLeaf, h5.1], h5.2⟩
    | none =>
      simp only [hf1] at h
      have h5 := fm_some_mem c input_right nn h
      exact ⟨by simp [anyLeaf, h5.1], h5.2⟩
  | Union inputs options =>
    simp only [firstLeaf] at h
    have h5 := fmList_some_mem c inputs nn h
    exact ⟨by simp [anyLeaf, h5.1], h5.2⟩
  | HConcat inputs schema options =>
    simp only [firstLeaf] at h
    have h5 := fmList_some_mem c inputs nn h
    exact ⟨by simp [anyLeaf, h5.1], h5.2⟩
  | SinkMultiple inputs  =>
    simp only [firstLeaf] at h
    have h5 := fmList_some_mem c inputs nn h
    exact ⟨by simp [anyLeaf, h5.1], h5.2⟩
  | ExtContext input contexts schema =>
    simp only [firstLeaf] at h
    cases hf1 : firstLeaf (mismatchLeaf c) input with
    | some m1 =>
      simp only [hf1] at h
      obtain rfl : m1 = nn := by injection h
      have h5 := fm_some_mem c input _ hf1
      exact ⟨by simp [anyLeaf, h5.1], h5.2⟩
    | none =>
      simp only [hf1] at h
      have h5 := fmList_some_mem c contexts nn h
      exact ⟨by simp [anyLeaf, h5.1], h5.2⟩

/-- List version of `fm_some_mem`. -/
theorem fmList_some_mem (c : Nat) (ts : List IRTree) (nn : Nat)
    (h : firstLeafList (mismatchLeaf c) ts = some nn) :
    anyLeafList (isPHCountLeaf nn) ts = true ∧ nn ≠ c := by
  cases ts with
  | nil => simp [firstLeafList] at h
  | cons t rest =>
    simp only [firstLeafList] at h
    cases hf1 : firstLeaf (mismatchLeaf c) t with
    | some m1 =>
      simp only [hf1] at h
      obtain rfl : m1 = nn := by injection h
      have h5 := fm_some_mem c t _ hf1
      exact ⟨by simp [anyLeafList, h5.1], h5.2⟩
    | none =>
      simp only [hf1] at h
      have h5 := fmList_some_mem c rest nn h
      exact ⟨by simp [anyLeafList, h5.1], h5.2⟩

end
mutual

/-- If every placeholder count equals `c` and some placeholder has count
`N`, then `N = c`. -/
theorem countsOk_hasPHCount (c N : Nat) (t : IRTree)
    (hall : allLeaf (phCountOkLeaf c) t = true)
    (hmem : anyLeaf (isPHCountLeaf N) t = true) : N = c := by
  cases t with
  | PlaceholderScan schema output_schema =>
    simp only [allLeaf, phCountOkLeaf, decide_eq_true_eq] at hall
    simp only [anyLeaf, isPHCountLeaf, decide_eq_true_eq] at hmem
    omega
  | PythonScan options =>
    simp [anyLeaf, isPHCountLeaf] at hmem
  | Scan sources file_info hive_parts predicate predicate_file_skip_applied output_schema scan_type unified_scan_args =>
    simp [anyLeaf, isPHCountLeaf] at hmem
  | DataFrameScan df schema output_schema =>
    simp [anyLeaf, isPHCountLeaf] at hmem
  | Invalid  =>
    simp [anyLeaf, isPHCountLeaf] at hmem
  | Slice input offset len =>
    simp only [allLeaf] at hall
    simp only [anyLeaf] at hmem
    exact countsOk_hasPHCount c N input hall hmem
  | Filter input predicate =>
    simp only [allLeaf] at hall
    simp only [anyLeaf] at hmem
    exact countsOk_hasPHCount c N input hall hmem
  | SimpleProjection input columns =>
    simp only [allLeaf] at hall
    simp only [anyLeaf] at hmem
    exact countsOk_hasPHCount c N input hall hmem
  | Select input expr schema options =>
    simp only [allLeaf] at hall
    simp only [anyLeaf] at hmem
    exact countsOk_hasPHCount c N input hall hmem
  | «Sort» input by_column slice sort_options =>
    simp only [allLeaf] at hall
    simp only [anyLeaf] at hmem
    exact countsOk_hasPHCount c N input hall hmem
  | Cache input id =>
    simp only [allLeaf] at hall
    simp only [anyLeaf] at hmem
    exact countsOk_hasPHCount c N input hall hmem
  | GroupBy input keys aggs schema maintain_order options apply =>
    simp only [allLeaf] at hall
    simp only [anyLeaf] at hmem
    exact countsOk_hasPHCount c N input hall hmem
  | HStack input exprs schema options =>
    simp only [allLeaf] at hall
    simp only [anyLeaf] at hmem
    exact countsOk_hasPHCount c N input hall hmem
  | Distinct input options =>
    simp only [allLeaf] at hall
    simp only [anyLeaf] at hmem
    exact countsOk_hasPHCount c N input hall hmem
  | MapFunction input function =>
    simp only [allLeaf] at hall
    simp only [anyLeaf] at hmem
    exact countsOk_hasPHCount c N input hall hmem
  | Sink input payload =>
    simp only [allLeaf] at hall
    simp only [anyLeaf] at hmem
    exact countsOk_hasPHCount c N input hall hmem
  | Join input_left input_right schema left_on right_on options =>
    simp only [allLeaf, Bool.and_eq_true] at hall
    simp only [anyLeaf, Bool.or_eq_true] at hmem
    rcases hmem with hm | hm
    · exact countsOk_hasPHCount c N input_left hall.1 hm
    · exact countsOk_hasPHCount c N input_right hall.2 hm
  | MergeSorted input_left input_right key =>
    simp only [allLeaf, Bool.and_eq_true] at hall
    simp only [anyLeaf, Bool.or_eq_true] at hmem
    rcases hmem with hm | hm
    · exact countsOk_hasPHCount c N input_left hall.1 hm
    · exact countsOk_hasPHCount c N input_right hall.2 hm
  | Union inputs options =>
    simp only [allLeaf] at hall
    simp only [anyLeaf] at hmem
    exact countsOkList_hasPHCount c N inputs hall hmem
  | HConcat inputs schema options =>
    simp only [allLeaf] at hall
    simp only [anyLeaf] at hmem
    exact countsOkList_hasPHCount c N inputs hall hmem
  | SinkMultiple inputs  =>
    simp only [allLeaf] at hall
    simp only [anyLeaf] at hmem
    exact countsOkList_hasPHCount c N inputs hall hmem
  | ExtContext input contexts schema =>
    simp only [allLeaf, Bool.and_eq_true] at hall
    simp only [anyLeaf, Bool.or_eq_true] at hmem
    rcases hmem with hm | hm
    · exact countsOk_hasPHCount c N input hall.1 hm
    · exact countsOkList_hasPHCount c N contexts hall.2 hm

/-- List version of `countsOk_hasPHCount`. -/
theorem countsOkList_hasPHCount (c N : Nat) (ts : List IRTree)
    (hall : allLeafList (phCountOkLeaf c) ts = true)
    (hmem : anyLeafList (isPHCountLeaf N) ts = true) : N = c := by
  cases ts with
  | nil => simp [anyLeafList] at hmem
  | cons t rest =>
    simp only [allLeafList, Bool.and_eq_true] at hall
    simp only [anyLeafList, Bool.or_eq_true] at hmem
    rcases hmem with hm | hm
    · exact countsOk_hasPHCount c N t hall.1 hm
    · exact countsOkList_hasPHCount c N rest hall.2 hm

end
mutual

/-- A `DataFrameScan` leaf with schema `S` becomes, under the template
transform, a `PlaceholderScan` leaf with schema `S`. -/
theorem hasDFS_template (S : Schema) (t : IRTree)
    (h : anyLeaf (isDFSchemaLeaf S) t = true) :
    anyLeaf (isPHSchemaLeaf S) (templateTree t) = true := by
  cases t with
  | DataFrameScan df schema output_schema =>
    simp only [anyLeaf, isDFSchemaLeaf, decide_eq_true_eq] at h
    simp [templateTree, anyLeaf, isPHSchemaLeaf, h]
  | PythonScan options =>
    simp [anyLeaf, isDFSchemaLeaf] at h
  | Scan sources file_info hive_parts predicate predicate_file_skip_applied output_schema scan_type unified_scan_args =>
    simp [anyLeaf, isDFSchemaLeaf] at h
  | PlaceholderScan schema output_schema =>
    simp [anyLeaf, isDFSchemaLeaf] at h
  | Invalid  =>
    simp [anyLeaf, isDFSchemaLeaf] at h
  | Slice input offset len =>
    simp only [anyLeaf] at h
    simp [templateTree, anyLeaf, hasDFS_template S input h]
  | Filter input predicate =>
    simp only [anyLeaf] at h
    simp [templateTree, anyLeaf, hasDFS_template S input h]
  | SimpleProjection input columns =>
    simp only [anyLeaf] at h
    simp [templateTree, anyLeaf, hasDFS_template S input h]
  | Select input expr schema options =>
    simp only [anyLeaf] at h
    simp [templateTree, anyLeaf, hasDFS_template S input h]
  | «Sort» input by_column slice sort_options =>
    simp only [anyLeaf] at h
    simp [templateTree, anyLeaf, hasDFS_template S input h]
  | Cache input id =>
    simp only [anyLeaf] at h
    simp [templateTree, anyLeaf, hasDFS_template S input h]
  | GroupBy input keys aggs schema maintain_order options apply =>
    simp only [anyLeaf] at h
    simp [templateTree, anyLeaf, hasDFS_template S input h]
  | HStack input exprs schema options =>
    simp only [anyLeaf] at h
    simp [templateTree, anyLeaf, hasDFS_template S input h]
  | Distinct input options =>
    simp only [anyLeaf] at h
    simp [templateTree, anyLeaf, hasDFS_template S input h]
  | MapFunction input function =>
    simp only [anyLeaf] at h
    simp [templateTree, anyLeaf, hasDFS_template S input h]
  | Sink input payload =>
    simp only [anyLeaf] at h
    simp [templateTree, anyLeaf, hasDFS_template S input h]
  | Join input_left input_right schema left_on right_on options =>
    simp only [anyLeaf, Bool.or_eq_true] at h
    simp only [templateTree, anyLeaf, Bool.or_eq_true]
    rcases h with hm | hm
    · exact Or.inl (hasDFS_template S input_left hm)
    · exact Or.inr (hasDFS_template S input_right hm)
  | MergeSorted input_left input_right key =>
    simp only [anyLeaf, Bool.or_eq_true] at h
    simp only [templateTree, anyLeaf, Bool.or_eq_true]
    rcases h with hm | hm
    · exact Or.inl (hasDFS_template S input_left hm)
    · exact Or.inr (hasDFS_template S input_right hm)
  | Union inputs options =>
    simp only [anyLeaf] at h
    simp [templateTree, anyLeaf, hasDFSList_template S inputs h]
  | HConcat inputs schema options =>
    simp only [anyLeaf] at h
    simp [templateTree, anyLeaf, hasDFSList_template S inputs h]
  | SinkMultiple inputs  =>
    simp only [anyLeaf] at h
    simp [templateTree, anyLeaf, hasDFSList_template S inputs h]
  | ExtContext input contexts schema =>
    simp only [anyLeaf, Bool.or_eq_true] at h
    simp only [templateTree, anyLeaf, Bool.or_eq_true]
    rcases h with hm | hm
    · exact Or.inl (hasDFS_template S input hm)
    · exact Or.inr (hasDFSList_template S contexts hm)

/-- List version of `hasDFS_template`. -/
theorem hasDFSList_template (S : Schema) (ts : List IRTree)
    (h : anyLeafList (isDFSchemaLeaf S) ts = true) :
    anyLeafList (isPHSchemaLeaf S) (templateTreeList ts) = true := by
  cases ts with
  | nil => simp [anyLeafList] at h
  | cons t rest =>
    simp only [anyLeafList, Bool.or_eq_true] at h
    simp only [templateTreeList, anyLeafList, Bool.or_eq_true]
    rcases h with hm | hm
    · exact Or.inl (hasDFS_template S t hm)
    · exact Or.inr (hasDFSList_template S rest hm)

end
mutual

/-- If every data or placeholder leaf has `c` columns, then in the template
every placeholder has `c` columns. -/
theorem leafCountsOk_template (c : Nat) (t : IRTree)
    (h : allLeaf (leafCountOkLeaf c) t = true) :
    allLeaf (phCountOkLeaf c) (templateTree t) = true := by
  cases t with
  | DataFrameScan df schema output_schema =>
    simp only [allLeaf, leafCountOkLeaf, decide_eq_true_eq] at h
    simp [templateTree, allLeaf, phCountOkLeaf, h]
  | PlaceholderScan schema output_schema =>
    simp only [allLeaf, leafCountOkLeaf, decide_eq_true_eq] at h
    simp [templateTree, allLeaf, phCountOkLeaf, h]
  | PythonScan options =>
    simp [templateTree, allLeaf, phCountOkLeaf]
  | Scan sources file_info hive_parts predicate predicate_file_skip_applied output_schema scan_type unified_scan_args =>
    simp [templateTree, allLeaf, phCountOkLeaf]
  | Invalid  =>
    simp [templateTree, allLeaf, phCountOkLeaf]
  | Slice input offset len =>
    simp only [allLeaf] at h
    simp [templateTree, allLeaf, leafCountsOk_template c input h]
  | Filter input predicate =>
    simp only [allLeaf] at h
    simp [templateTree, allLeaf, leafCountsOk_template c input h]
  | SimpleProjection input columns =>
    simp only [allLeaf] at h
    simp [templateTree, allLeaf, leafCountsOk_template c input h]
  | Select input expr schema options =>
    simp only [allLeaf] at h
    simp [templateTree, allLeaf, leafCountsOk_template c input h]
  | «Sort» input by_column slice sort_options =>
    simp only [allLeaf] at h
    simp [templateTree, allLeaf, leafCountsOk_template c input h]
  | Cache input id =>
    simp only [allLeaf] at h
    simp [templateTree, allLeaf, leafCountsOk_template c input h]
  | GroupBy input keys aggs schema maintain_order options apply =>
    simp only [allLeaf] at h
    simp [templateTree, allLeaf, leafCountsOk_template c input h]
  | HStack input exprs schema options =>
    simp only [allLeaf] at h
    simp [templateTree, allLeaf, leafCountsOk_template c input h]
  | Distinct input options =>
    simp only [allLeaf] at h
    simp [templateTree, allLeaf, leafCountsOk_template c input h]
  | MapFunction input function =>
    simp only [allLeaf] at h
    simp [templateTree, allLeaf, leafCountsOk_template c input h]
  | Sink input payload =>
    simp only [allLeaf] at h
    simp [templateTree, allLeaf, leafCountsOk_template c input h]
  | Join input_left input_right schema left_on right_on options =>
    simp only [allLeaf, Bool.and_eq_true] at h
    simp [templateTree, allLeaf, leafCountsOk_template c input_left h.1,
      leafCountsOk_template c input_right h.2]
  | MergeSorted input_left input_right key =>
    simp only [allLeaf, Bool.and_eq_true] at h
    simp [templateTree, allLeaf, leafCountsOk_template c input_left h.1,
      leafCountsOk_template c input_right h.2]
  | Union inputs options =>
    simp only [allLeaf] at h
    simp [templateTree, allLeaf, leafCountsOkList_template c inputs h]
  | HConcat inputs schema options =>
    simp only [allLeaf] at h
    simp [templateTree, allLeaf, leafCountsOkList_template c inputs h]
  | SinkMultiple inputs  =>
    simp only [allLeaf] at h
    simp [templateTree, allLeaf, leafCountsOkList_template c inputs h]
  | ExtContext input contexts schema =>
    simp only [allLeaf, Bool.and_eq_true] at h
    simp [templateTree, allLeaf, leafCountsOk_template c input h.1,
      leafCountsOkList_template c contexts h.2]

/-- List version of `leafCountsOk_template`. -/
theorem leafCountsOkList_template (c : Nat) (ts : List IRTree)
    (h : allLeafList (leafCountOkLeaf c) ts = true) :
    allLeafList (phCountOkLeaf c) (templateTreeList ts) = true := by
  cases ts with
  | nil => simp [templateTreeList, allLeafList]
  | cons t rest =>
    simp only [allLeafList, Bool.and_eq_true] at h
    simp [templateTreeList, allLeafList, leafCountsOk_template c t h.1,
      leafCountsOkList_template c rest h.2]

end
/-- The pointwise template transform of a list is a `List.map`. -/
theorem templateTreeList_eq_map (ts : List IRTree) :
    templateTreeList ts = ts.map templateTree := by
  induction ts with
  | nil => simp [templateTreeList]
  | cons t rest ih => simp [templateTreeList, ih]

/-- The template transform preserves the constructor and maps the child
list pointwise, for every node that has children. -/
theorem templateTree_shape (t : IRTree) (h : t.children ≠ []) :
    (templateTree t).tag = t.tag ∧
      (templateTree t).children = t.children.map templateTree := by
  cases t with
  | PythonScan options =>
    exact absurd rfl h
  | Scan sources file_info hive_parts predicate predicate_file_skip_applied output_schema scan_type unified_scan_args =>
    exact absurd rfl h
  | DataFrameScan df schema output_schema =>
    exact absurd rfl h
  | PlaceholderScan schema output_schema =>
    exact absurd rfl h
  | Invalid  =>
    exact absurd rfl h
  | Slice input offset len =>
    simp [templateTree, IRTree.children, IRTree.tag]
  | Filter input predicate =>
    simp [templateTree, IRTree.children, IRTree.tag]
  | SimpleProjection input columns =>
    simp [templateTree, IRTree.children, IRTree.tag]
  | Select input expr schema options =>
    simp [templateTree, IRTree.children, IRTree.tag]
  | «Sort» input by_column slice sort_options =>
    simp [templateTree, IRTree.children, IRTree.tag]
  | Cache input id =>
    simp [templateTree, IRTree.children, IRTree.tag]
  | GroupBy input keys aggs schema maintain_order options apply =>
    simp [templateTree, IRTree.children, IRTree.tag]
  | HStack input exprs schema options =>
    simp [templateTree, IRTree.children, IRTree.tag]
  | Distinct input options =>
    simp [templateTree, IRTree.children, IRTree.tag]
  | MapFunction input function =>
    simp [templateTree, IRTree.children, IRTree.tag]
  | Sink input payload =>
    simp [templateTree, IRTree.children, IRTree.tag]
  | Join input_left input_right schema left_on right_on options =>
    simp [templateTree, IRTree.children, IRTree.tag]
  | MergeSorted input_left input_right key =>
    simp [templateTree, IRTree.children, IRTree.tag]
  | Union inputs options =>
    simp [templateTree, IRTree.children, IRTree.tag, templateTreeList_eq_map]
  | HConcat inputs schema options =>
    simp [templateTree, IRTree.children, IRTree.tag, templateTreeList_eq_map]
  | SinkMultiple inputs  =>
    simp [templateTree, IRTree.children, IRTree.tag, templateTreeList_eq_map]
  | ExtContext input contexts schema =>
    simp [templateTree, IRTree.children, IRTree.tag, templateTreeList_eq_map]

/-- A successful list bind preserves length and binds elementwise. -/
theorem bindTreeList_ok_get (o : Option IR) (l : List IRTree)
    (us : List IRTree) (h : bindTreeList o l = .ok us) :
    us.length = l.length ∧
      ∀ (i : Nat) (c : IRTree), l[i]? = some c →
        ∃ c', us[i]? = some c' ∧ bindTree o c = .ok c' := by
  induction l generalizing us with
  | nil =>
    simp only [bindTreeList] at h
    obtain rfl : ([] : List IRTree) = us := by injection h
    refine ⟨rfl, ?_⟩
    intro i c hc
    simp at hc
  | cons t rest ih =>
    simp only [bindTreeList] at h
    cases hb : bindTree o t with
    | error e =>
      simp only [hb] at h
      exact Except.noConfusion h
    | ok u1 =>
      simp only [hb] at h
      cases hbl : bindTreeList o rest with
      | error e =>
        simp only [hbl] at h
        exact Except.noConfusion h
      | ok us2 =>
        simp only [hbl] at h
        obtain rfl : u1 :: us2 = us := by injection h
        obtain ⟨hlen, hget⟩ := ih us2 hbl
        refine ⟨by simp [hlen], ?_⟩
        intro i c hc
        cases i with
        | zero =>
          simp only [List.getElem?_cons_zero, Option.some.injEq] at hc
          subst hc
          exact ⟨u1, by simp, hb⟩
        | succ j =>
          simp only [List.getElem?_cons_succ] at hc
          obtain ⟨c', hc', hbc⟩ := hget j c hc
          exact ⟨c', by simpa using hc', hbc⟩

/-- A successful bind preserves the constructor, the child arity, and binds
the children elementwise in order, for every node that has children. -/
theorem bindTree_children (o : Option IR) (t t' : IRTree)
    (hok : bindTree o t = .ok t') (h : t.children ≠ []) :
    t'.tag = t.tag ∧ t'.children.length = t.children.length ∧
      ∀ (i : Nat) (c : IRTree), t.children[i]? = some c →
        ∃ c', t'.children[i]? = some c' ∧ bindTree o c = .ok c' := by
  cases t with
  | PythonScan options =>
    exact absurd rfl h
  | Scan sources file_info hive_parts predicate predicate_file_skip_applied output_schema scan_type unified_scan_args =>
    exact absurd rfl h
  | DataFrameScan df schema output_schema =>
    exact absurd rfl h
  | PlaceholderScan schema output_schema =>
    exact absurd rfl h
  | Invalid  =>
    exact absurd rfl h
  | Slice input offset len =>
    simp only [bindTree] at hok
    cases hb : bindTree o input with
    | error e =>
      simp only [hb] at hok
      exact Except.noConfusion hok
    | ok u1 =>
      simp only [hb] at hok
      obtain rfl : IRTree.Slice u1 offset len = t' := by injection hok
      refine ⟨rfl, rfl, ?_⟩
      intro i c hc
      cases i with
      | zero =>
        simp only [IRTree.children, List.getElem?_cons_zero,
          Option.some.injEq] at hc
        subst hc
        exact ⟨u1, by simp [IRTree.children], hb⟩
      | succ j =>
        simp [IRTree.children] at hc
  | Filter input predicate =>
    simp only [bindTree] at hok
    cases hb : bindTree o input with
    | error e =>
      simp only [hb] at hok
      exact Except.noConfusion hok
    | ok u1 =>
      simp only [hb] at hok
      obtain rfl : IRTree.Filter u1 predicate = t' := by injection hok
      refine ⟨rfl, rfl, ?_⟩
      intro i c hc
      cases i with
      | zero =>
        simp only [IRTree.children, List.getElem?_cons_zero,
          Option.some.injEq] at hc
        subst hc
        exact ⟨u1, by simp [IRTree.children], hb⟩
      | succ j =>
        simp [IRTree.children] at hc
  | SimpleProjection input columns =>
    simp only [bindTree] at hok
    cases hb : bindTree o input with
    | error e =>
      simp only [hb] at hok
      exact Except.noConfusion hok
    | ok u1 =>
      simp only [hb] at hok
      obtain rfl : IRTree.SimpleProjection u1 columns = t' := by injection hok
      refine ⟨rfl, rfl, ?_⟩
      intro i c hc
      cases i with
      | zero =>
        simp only [IRTree.children, List.getElem?_cons_zero,
          Option.some.injEq] at hc
        subst hc
        exact ⟨u1, by simp [IRTree.children], hb⟩
      | succ j =>
        simp [IRTree.children] at hc
  | Select input expr schema options =>
    simp only [bindTree] at hok
    cases hb : bindTree o input with
    | error e =>
      simp only [hb] at hok
      exact Except.noConfusion hok
    | ok u1 =>
      simp only [hb] at hok
      obtain rfl : IRTree.Select u1 expr schema options = t' := by injection hok
      refine ⟨rfl, rfl, ?_⟩
      intro i c hc
      cases i with
      | zero =>
        simp only [IRTree.children, List.getElem?_cons_zero,
          Option.some.injEq] at hc
        subst hc
        exact ⟨u1, by simp [IRTree.children], hb⟩
      | succ j =>
        simp [IRTree.children] at hc
  | «Sort» input by_column slice sort_options =>
    simp only [bindTree] at hok
    cases hb : bindTree o input with
    | error e =>
      simp only [hb] at hok
      exact Except.noConfusion hok
    | ok u1 =>
      simp only [hb] at hok
      obtain rfl : IRTree.Sort u1 by_column slice sort_options = t' := by injection hok
      refine ⟨rfl, rfl, ?_⟩
      intro i c hc
      cases i with
      | zero =>
        simp only [IRTree.children, List.getElem?_cons_zero,
          Option.some.injEq] at hc
        subst hc
        exact ⟨u1, by simp [IRTree.children], hb⟩
      | succ j =>
        simp [IRTree.children] at hc
  | Cache input id =>
    simp only [bindTree] at hok
    cases hb : bindTree o input with
    | error e =>
      simp only [hb] at hok
      exact Except.noConfusion hok
    | ok u1 =>
      simp only [hb] at hok
      obtain rfl : IRTree.Cache u1 id = t' := by injection hok
      refine ⟨rfl, rfl, ?_⟩
      intro i c hc
      cases i with
      | zero =>
        simp only [IRTree.children, List.getElem?_cons_zero,
          Option.some.injEq] at hc
        subst hc
        exact ⟨u1, by simp [IRTree.children], hb⟩
      | succ j =>
        simp [IRTree.children] at hc
  | GroupBy input keys aggs schema maintain_order options apply =>
    simp only [bindTree] at hok
    cases hb : bindTree o input with
    | error e =>
      simp only [hb] at hok
      exact Except.noConfusion hok
    | ok u1 =>
      simp only [hb] at hok
      obtain rfl : IRTree.GroupBy u1 keys aggs schema maintain_order options apply = t' := by injection hok
      refine ⟨rfl, rfl, ?_⟩
      intro i c hc
      cases i with
      | zero =>
        simp only [IRTree.children, List.getElem?_cons_zero,
          Option.some.injEq] at hc
        subst hc
        exact ⟨u1, by simp [IRTree.children], hb⟩
      | succ j =>
        simp [IRTree.children] at hc
  | HStack input exprs schema options =>
    simp only [bindTree] at hok
    cases hb : bindTree o input with
    | error e =>
      simp only [hb] at hok
      exact Except.noConfusion hok
    | ok u1 =>
      simp only [hb] at hok
      obtain rfl : IRTree.HStack u1 exprs schema options = t' := by injection hok
      refine ⟨rfl, rfl, ?_⟩
      intro i c hc
      cases i with
      | zero =>
        simp only [IRTree.children, List.getElem?_cons_zero,
          Option.some.injEq] at hc
        subst hc
        exact ⟨u1, by simp [IRTree.children], hb⟩
      | succ j =>
        simp [IRTree.children] at hc
  | Distinct input options =>
    simp only [bindTree] at hok
    cases hb : bindTree o input with
    | error e =>
      simp only [hb] at hok
      exact Except.noConfusion hok
    | ok u1 =>
      simp only [hb] at hok
      obtain rfl : IRTree.Distinct u1 options = t' := by injection hok
      refine ⟨rfl, rfl, ?_⟩
      intro i c hc
      cases i with
      | zero =>
        simp only [IRTree.children, List.getElem?_cons_zero,
          Option.some.injEq] at hc
        subst hc
        exact ⟨u1, by simp [IRTree.children], hb⟩
      | succ j =>
        simp [IRTree.children] at hc
  | MapFunction input function =>
    simp only [bindTree] at hok
    cases hb : bindTree o input with
    | error e =>
      simp only [hb] at hok
      exact Except.noConfusion hok
    | ok u1 =>
      simp only [hb] at hok
      obtain rfl : IRTree.MapFunction u1 function = t' := by injection hok
      refine ⟨rfl, rfl, ?_⟩
      intro i c hc
      cases i with
      | zero =>
        simp only [IRTree.children, List.getElem?_cons_zero,
          Option.some.injEq] at hc
        subst hc
        exact ⟨u1, by simp [IRTree.children], hb⟩
      | succ j =>
        simp [IRTree.children] at hc
  | Sink input payload =>
    simp only [bindTree] at hok
    cases hb : bindTree o input with
    | error e =>
      simp only [hb] at hok
      exact Except.noConfusion hok
    | ok u1 =>
      simp only [hb] at hok
      obtain rfl : IRTree.Sink u1 payload = t' := by injection hok
      refine ⟨rfl, rfl, ?_⟩
      intro i c hc
      cases i with
      | zero =>
        simp only [IRTree.children, List.getElem?_cons_zero,
          Option.some.injEq] at hc
        subst hc
        exact ⟨u1, by simp [IRTree.children], hb⟩
      | succ j =>
        simp [IRTree.children] at hc
  | Join input_left input_right schema left_on right_on options =>
    simp only [bindTree] at hok
    cases hb1 : bindTree o input_left with
    | error e =>
      simp only [hb1] at hok
      exact Except.noConfusion hok
    | ok u1 =>
      simp only [hb1] at hok
      cases hb2 : bindTree o input_right with
      | error e =>
        simp only [hb2] at hok
        exact Except.noConfusion hok
      | ok u2 =>
        simp only [hb2] at hok
        obtain rfl : IRTree.Join u1 u2 schema left_on right_on options = t' := by injection hok
        refine ⟨rfl, rfl, ?_⟩
        intro i c hc
        cases i with
        | zero =>
          simp only [IRTree.children, List.getElem?_cons_zero,
            Option.some.injEq] at hc
          subst hc
          exact ⟨u1, by simp [IRTree.children], hb1⟩
        | succ j =>
          cases j with
          | zero =>
            simp only [IRTree.children, List.getElem?_cons_succ,
              List.getElem?_cons_zero, Option.some.injEq] at hc
            subst hc
            exact ⟨u2, by simp [IRTree.children], hb2⟩
          | succ j2 =>
            simp [IRTree.children] at hc
  | MergeSorted input_left input_right key =>
    simp only [bindTree] at hok
    cases hb1 : bindTree o input_left with
    | error e =>
      simp only [hb1] at hok
      exact Except.noConfusion hok
    | ok u1 =>
      simp only [hb1] at hok
      cases hb2 : bindTree o input_right with
      | error e =>
        simp only [hb2] at hok
        exact Except.noConfusion hok
      | ok u2 =>
        simp only [hb2] at hok
        obtain rfl : IRTree.MergeSorted u1 u2 key = t' := by injection hok
        refine ⟨rfl, rfl, ?_⟩
        intro i c hc
        cases i with
        | zero =>
          simp only [IRTree.children, List.getElem?_cons_zero,
            Option.some.injEq] at hc
          subst hc
          exact ⟨u1, by simp [IRTree.children], hb1⟩
        | succ j =>
          cases j with
          | zero =>
            simp only [IRTree.children, List.getElem?_cons_succ,
              List.getElem?_cons_zero, Option.some.injEq] at hc
            subst hc
            exact ⟨u2, by simp [IRTree.children], hb2⟩
          | succ j2 =>
            simp [IRTree.children] at hc
  | Union inputs options =>
    simp only [bindTree] at hok
    cases hbl : bindTreeList o inputs with
    | error e =>
      simp only [hbl] at hok
      exact Except.noConfusion hok
    | ok us =>
      simp only [hbl] at hok
      obtain rfl : IRTree.Union us options = t' := by injection hok
      obtain ⟨hlen, hget⟩ := bindTreeList_ok_get o inputs us hbl
      exact ⟨rfl, by simpa [IRTree.children] using hlen,
        by simpa [IRTree.children] using hget⟩
  | HConcat inputs schema options =>
    simp only [bindTree] at hok
    cases hbl : bindTreeList o inputs with
    | error e =>
      simp only [hbl] at hok
      exact Except.noConfusion hok
    | ok us =>
      simp only [hbl] at hok
      obtain rfl : IRTree.HConcat us schema options = t' := by injection hok
      obtain ⟨hlen, hget⟩ := bindTreeList_ok_get o inputs us hbl
      exact ⟨rfl, by simpa [IRTree.children] using hlen,
        by simpa [IRTree.children] using hget⟩
  | SinkMultiple inputs  =>
    simp only [bindTree] at hok
    cases hbl : bindTreeList o inputs with
    | error e =>
      simp only [hbl] at hok
      exact Except.noConfusion hok
    | ok us =>
      simp only [hbl] at hok
      obtain rfl : IRTree.SinkMultiple us  = t' := by injection hok
      obtain ⟨hlen, hget⟩ := bindTreeList_ok_get o inputs us hbl
      exact ⟨rfl, by simpa [IRTree.children] using hlen,
        by simpa [IRTree.children] using hget⟩
  | ExtContext input contexts schema =>
    simp only [bindTree] at hok
    cases hb1 : bindTree o input with
    | error e =>
      simp only [hb1] at hok
      exact Except.noConfusion hok
    | ok u1 =>
      simp only [hb1] at hok
      cases hbl : bindTreeList o contexts with
      | error e =>
        simp only [hbl] at hok
        exact Except.noConfusion hok
      | ok us =>
        simp only [hbl] at hok
        obtain rfl : IRTree.ExtContext u1 us schema = t' := by injection hok
        obtain ⟨hlen, hget⟩ := bindTreeList_ok_get o contexts us hbl
        refine ⟨rfl, by simp [IRTree.children, hlen], ?_⟩
        intro i c hc
        cases i with
        | zero =>
          simp only [IRTree.children, List.getElem?_cons_zero,
            Option.some.injEq] at hc
          subst hc
          exact ⟨u1, by simp [IRTree.children], hb1⟩
        | succ j =>
          simp only [IRTree.children, List.getElem?_cons_succ] at hc
          obtain ⟨c', hc', hbc⟩ := hget j c hc
          exact ⟨c', by simpa [IRTree.children] using hc', hbc⟩

mutual

/-- A tree with at least one placeholder rejects any supplied data node that
is not a `DataFrameScan`, with the invalid-bind-target error. -/
theorem bindTree_invalid (dir : IR)
    (hnot : ∀ df ds oos, dir ≠ .DataFrameScan df ds oos) (t : IRTree)
    (h : anyLeaf isPHLeaf t = true) :
    bindTree (some dir) t = .error .invalidBindTarget := by
  cases t with
  | PlaceholderScan schema output_schema =>
    cases dir with
    | PythonScan d_options =>
      simp [bindTree]
    | Slice d_input d_offset d_len =>
      simp [bindTree]
    | Filter d_input d_predicate =>
      simp [bindTree]
    | Scan d_sources d_file_info d_hive_parts d_predicate d_predicate_file_skip_applied d_output_schema d_scan_type d_unified_scan_args =>
      simp [bindTree]
    | DataFrameScan d_df d_schema d_oos =>
      exact absurd rfl (hnot d_df d_schema d_oos)
    | PlaceholderScan d_schema d_output_schema =>
      simp [bindTree]
    | SimpleProjection d_input d_columns =>
      simp [bindTree]
    | Select d_input d_expr d_schema d_options =>
      simp [bindTree]
    | «Sort» d_input d_by_column d_slice d_sort_options =>
      simp [bindTree]
    | Cache d_input d_id =>
      simp [bindTree]
    | GroupBy d_input d_keys d_aggs d_schema d_maintain_order d_options d_apply =>
      simp [bindTree]
    | Join d_input_left d_input_right d_schema d_left_on d_right_on d_options =>
      simp [bindTree]
    | HStack d_input d_exprs d_schema d_options =>
      simp [bindTree]
    | Distinct d_input d_options =>
      simp [bindTree]
    | MapFunction d_input d_function =>
      simp [bindTree]
    | Union d_inputs d_options =>
      simp [bindTree]
    | HConcat d_inputs d_schema d_options =>
      simp [bindTree]
    | ExtContext d_input d_contexts d_schema =>
      simp [bindTree]
    | Sink d_input d_payload =>
      simp [bindTree]
    | SinkMultiple d_inputs =>
      simp [bindTree]
    | MergeSorted d_input_left d_input_right d_key =>
      simp [bindTree]
    | Invalid =>
      simp [bindTree]
  | PythonScan options =>
    simp [anyLeaf, isPHLeaf] at h
  | Scan sources file_info hive_parts predicate predicate_file_skip_applied output_schema scan_type unified_scan_args =>
    simp [anyLeaf, isPHLeaf] at h
  | DataFrameScan df schema output_schema =>
    simp [anyLeaf, isPHLeaf] at h
  | Invalid  =>
    simp [anyLeaf, isPHLeaf] at h
  | Slice input offset len =>
    simp only [anyLeaf] at h
    simp [bindTree, bindTree_invalid dir hnot input h]
  | Filter input predicate =>
    simp only [anyLeaf] at h
    simp [bindTree, bindTree_invalid dir hnot input h]
  | SimpleProjection input columns =>
    simp only [anyLeaf] at h
    simp [bindTree, bindTree_invalid dir hnot input h]
  | Select input expr schema options =>
    simp only [anyLeaf] at h
    simp [bindTree, bindTree_invalid dir hnot input h]
  | «Sort» input by_column slice sort_options =>
    simp only [anyLeaf] at h
    simp [bindTree, bindTree_invalid dir hnot input h]
  | Cache input id =>
    simp only [anyLeaf] at h
    simp [bindTree, bindTree_invalid dir hnot input h]
  | GroupBy input keys aggs schema maintain_order options apply =>
    simp only [anyLeaf] at h
    simp [bindTree, bindTree_invalid dir hnot input h]
  | HStack input exprs schema options =>
    simp only [anyLeaf] at h
    simp [bindTree, bindTree_invalid dir hnot input h]
  | Distinct input options =>
    simp only [anyLeaf] at h
    simp [bindTree, bindTree_invalid dir hnot input h]
  | MapFunction input function =>
    simp only [anyLeaf] at h
    simp [bindTree, bindTree_invalid dir hnot input h]
  | Sink input payload =>
    simp only [anyLeaf] at h
    simp [bindTree, bindTree_invalid dir hnot input h]
  | Join input_left input_right schema left_on right_on options =>
    simp only [anyLeaf, Bool.or_eq_true] at h
    by_cases hal : anyLeaf isPHLeaf input_left = true
    · simp [bindTree, bindTree_invalid dir hnot input_left hal]
    · have hal' : anyLeaf isPHLeaf input_left = false := by
        simpa using hal
      have hok := bindTree_ok_of_no_ph (some dir) input_left hal'
      have hr : anyLeaf isPHLeaf input_right = true := by
        rcases h with hm | hm
        · exact absurd hm hal
        · exact hm
      simp [bindTree, hok, bindTree_invalid dir hnot input_right hr]
  | MergeSorted input_left input_right key =>
    simp only [anyLeaf, Bool.or_eq_true] at h
    by_cases hal : anyLeaf isPHLeaf input_left = true
    · simp [bindTree, bindTree_invalid dir hnot input_left hal]
    · have hal' : anyLeaf isPHLeaf input_left = false := by
        simpa using hal
      have hok := bindTree_ok_of_no_ph (some dir) input_left hal'
      have hr : anyLeaf isPHLeaf input_right = true := by
        rcases h with hm | hm
        · exact absurd hm hal
        · exact hm
      simp [bindTree, hok, bindTree_invalid dir hnot input_right hr]
  | Union inputs options =>
    simp only [anyLeaf] at h
    simp [bindTree, bindTreeList_invalid dir hnot inputs h]
  | HConcat inputs schema options =>
    simp only [anyLeaf] at h
    simp [bindTree, bindTreeList_invalid dir hnot inputs h]
  | SinkMultiple inputs  =>
    simp only [anyLeaf] at h
    simp [bindTree, bindTreeList_invalid dir hnot inputs h]
  | ExtContext input contexts schema =>
    simp only [anyLeaf, Bool.or_eq_true] at h
    by_cases hal : anyLeaf isPHLeaf input = true
    · simp [bindTree, bindTree_invalid dir hnot input hal]
    · have hal' : anyLeaf isPHLeaf input = false := by
        simpa using hal
      have hok := bindTree_ok_of_no_ph (some dir) input hal'
      have hr : anyLeafList isPHLeaf contexts = true := by
        rcases h with hm | hm
        · exact absurd hm hal
        · exact hm
      simp [bindTree, hok, bindTreeList_invalid dir hnot contexts hr]

/-- List version of `bindTree_invalid`. -/
theorem bindTreeList_invalid (dir : IR)
    (hnot : ∀ df ds oos, dir ≠ .DataFrameScan df ds oos) (ts : List IRTree)
    (h : anyLeafList isPHLeaf ts = true) :
    bindTreeList (some dir) ts = .error .invalidBindTarget := by
  cases ts with
  | nil => simp [anyLeafList] at h
  | cons t rest =>
    simp only [anyLeafList, Bool.or_eq_true] at h
    by_cases hal : anyLeaf isPHLeaf t = true
    · simp [bindTreeList, bindTree_invalid dir hnot t hal]
    · have hal' : anyLeaf isPHLeaf t = false := by
        simpa using hal
      have hok := bindTree_ok_of_no_ph (some dir) t hal'
      have hr : anyLeafList isPHLeaf rest = true := by
        rcases h with hm | hm
        · exact absurd hm hal
        · exact hm
      simp [bindTreeList, hok, bindTreeList_invalid dir hnot rest hr]

end

theorem Arena.get?_lt_length {T : Type} (a : Arena T) (i : Nat) (x : T)
    (h : a.get? i = some x) : i < a.items.length := by
  by_contra hc
  simp only [Arena.get?] at h
  rw [List.getElem?_eq_none (Nat.le_of_not_lt hc)] at h
  exact Option.noConfusion h

theorem to_template_toTree (fuel : Nat) (p : IRPlan) (t : IRTree)
    (h : toTree fuel p.lp_arena p.lp_top = some t) :
    ∃ T, p.to_template fuel = some T ∧
      toTree fuel T.lp_arena T.lp_top = some (templateTree t) ∧
      T.expr_arena = p.expr_arena := by
  obtain ⟨ext, k, hc, hk, hcl, htt⟩ :=
    (convert_sound fuel).1 p.lp_arena p.lp_top t Arena.empty h
  refine ⟨⟨k, ⟨Arena.empty.items ++ ext⟩, p.expr_arena⟩, ?_, ?_, rfl⟩
  · simp [IRPlan.to_template, hc]
  · exact htt

theorem bind_data_toTree (fuel : Nat) (p : IRPlan) (t : IRTree)
    (dn : Nat) (da : Arena IR)
    (h : toTree fuel p.lp_arena p.lp_top = some t) :
    (∀ e, bindTree (da.get? dn) t = .error e →
      p.bind_data fuel dn da = .error e) ∧
    (∀ t', bindTree (da.get? dn) t = .ok t' →
      ∃ B, p.bind_data fuel dn da = .ok B ∧
        toTree fuel B.lp_arena B.lp_top = some t' ∧
        B.expr_arena = p.expr_arena) := by
  obtain ⟨herr, hok⟩ :=
    (replace_sound fuel).1 p.lp_arena p.lp_top t h dn da Arena.empty
  constructor
  · intro e he
    simp [IRPlan.bind_data, herr e he]
  · intro t' ht'
    obtain ⟨ext, k, hc, hk, hcl, htt⟩ := hok t' ht'
    refine ⟨⟨k, ⟨Arena.empty.items ++ ext⟩, p.expr_arena⟩, ?_, ?_, rfl⟩
    · simp [IRPlan.bind_data, hc]
    · exact htt

/-- C2: for every plan, `to_template` produces a new plan of identical
shape in which every `DataFrameScan` leaf is replaced by a
`PlaceholderScan` carrying the same schema and output schema, every node
with inputs is re-emitted as the same variant with recursively transformed
input handles and all other payload fields cloned unchanged, and the
transform has no error path: on any plan that unfolds to a tree `t` (the
well-formedness also required by the Rust original, whose only failure
modes are a dangling handle panic or stack exhaustion, both modelled by
the fuel), it succeeds and the result unfolds to `templateTree t`, the
transform written from the specification text, while the expression arena
is cloned unchanged. -/
theorem to_template_spec (fuel : Nat) (p : IRPlan) (t : IRTree)
    (h : toTree fuel p.lp_arena p.lp_top = some t) :
    ∃ T, p.to_template fuel = some T ∧
      toTree fuel T.lp_arena T.lp_top = some (templateTree t) ∧
      T.expr_arena = p.expr_arena :=
  to_template_toTree fuel p t h

/-- C2 witness: the `Select` over `Filter` over `DataFrameScan` example
plan. -/
theorem to_template_spec_witness :
    toTree 3 exPlan.lp_arena exPlan.lp_top = some exTree ∧
    (∃ T, exPlan.to_template 3 = some T ∧
      toTree 3 T.lp_arena T.lp_top = some (templateTree exTree) ∧
      T.expr_arena = exPlan.expr_arena) :=
  ⟨rfl, to_template_spec 3 exPlan exTree rfl⟩

/-- C1 counterexample: the claim fails as stated.  `exPlanMixed` contains
a `DataFrameScan` leaf with the one-column schema `schemaA`, and `dfA2`
has exactly that schema, yet `bind_to_df (to_template exPlanMixed) dfA2`
does not succeed: the plan also contains a two-column `DataFrameScan`,
whose placeholder rejects the one-column dataframe. -/
theorem round_trip_mixed_schema_cex :
    toTree 3 exPlanMixed.lp_arena exPlanMixed.lp_top = some exTreeMixed ∧
    hasDFSchema schemaA exTreeMixed = true ∧
    dfA2.schema = schemaA ∧
    ∃ T, exPlanMixed.to_template 3 = some T ∧
      T.bind_to_df 3 dfA2 = .error (.schemaMismatch 2 1) := by
  refine ⟨rfl, ?_, rfl,
    ⟨2,
      ⟨[.PlaceholderScan schemaA none, .PlaceholderScan schemaAB none,
        .Union [0, 1] 0]⟩,
      ⟨[]⟩⟩, rfl, rfl⟩
  simp [hasDFSchema, anyLeaf, anyLeafList, isDFSchemaLeaf, exTreeMixed]

/-- C1 amended: for every plan `P` containing at least one `DataFrameScan`
leaf with schema `S`, `to_template P` yields a plan in which that leaf is
a `PlaceholderScan` with schema `S`; and for every dataframe `df` with
`df.schema = S`, provided additionally that every `DataFrameScan` and
`PlaceholderScan` leaf of `P` has exactly `S.length` columns (the
counterexample shows binding fails otherwise),
`bind_to_df (to_template P) df` succeeds and yields a plan structurally
isomorphic to `P` in which every such leaf is replaced by a
`DataFrameScan` of `df`. -/
theorem round_trip_amended (fuel : Nat) (p : IRPlan) (t : IRTree)
    (S : Schema) (df : DataFrame)
    (h : toTree fuel p.lp_arena p.lp_top = some t)
    (hdf : hasDFSchema S t = true)
    (hS : df.schema = S)
    (hcount : leafCountsOk S.length t = true) :
    ∃ T, p.to_template fuel = some T ∧
      toTree fuel T.lp_arena T.lp_top = some (templateTree t) ∧
      hasPHSchema S (templateTree t) = true ∧
      ∃ B, T.bind_to_df fuel df = .ok B ∧
        toTree fuel B.lp_arena B.lp_top =
          some (substPH df df.schema none (templateTree t)) := by
  obtain ⟨T, hT, hTt, hTe⟩ := to_template_toTree fuel p t h
  refine ⟨T, hT, hTt, ?_, ?_⟩
  · simpa [hasPHSchema] using
      hasDFS_template S t (by simpa [hasDFSchema] using hdf)
  · have hcount2 : allLeaf (phCountOkLeaf df.schema.length)
        (templateTree t) = true := by
      rw [hS]
      exact leafCountsOk_template S.length t
        (by simpa [leafCountsOk] using hcount)
    have hbind := bindTree_subst df df.schema none (templateTree t) hcount2
    obtain ⟨B, hB, hBt, hBe⟩ :=
      (bind_data_toTree fuel T (templateTree t) 0
        ⟨[.DataFrameScan df df.schema none]⟩ hTt).2 _ hbind
    exact ⟨B, hB, hBt⟩

/-- C1 amended witness: the `Select` over `Filter` over `DataFrameScan`
scenario with schema `{a: Int, b: Str}`, bound to a fresh dataframe with
the same schema. -/
theorem round_trip_amended_witness :
    toTree 3 exPlan.lp_arena exPlan.lp_top = some exTree ∧
    hasDFSchema schemaAB exTree = true ∧
    dfAB2.schema = schemaAB ∧
    leafCountsOk schemaAB.length exTree = true ∧
    (∃ T, exPlan.to_template 3 = some T ∧
      toTree 3 T.lp_arena T.lp_top = some (templateTree exTree) ∧
      hasPHSchema schemaAB (templateTree exTree) = true ∧
      ∃ B, T.bind_to_df 3 dfAB2 = .ok B ∧
        toTree 3 B.lp_arena B.lp_top =
          some (substPH dfAB2 dfAB2.schema none (templateTree exTree))) :=
  ⟨rfl,
   by simp [hasDFSchema, anyLeaf, isDFSchemaLeaf, exTree],
   rfl,
   by simp [leafCountsOk, allLeaf, leafCountOkLeaf, exTree, dfAB, schemaAB],
   round_trip_amended 3 exPlan exTree schemaAB dfAB2 rfl
     (by simp [hasDFSchema, anyLeaf, isDFSchemaLeaf, exTree])
     rfl
     (by simp [leafCountsOk, allLeaf, leafCountOkLeaf, exTree, dfAB, schemaAB])⟩
/-- C3: binding a template that contains a `PlaceholderScan` with `N`
columns to a `DataFrameScan` data node with `M ≠ N` columns fails with a
`SchemaMismatch` error reporting both counts — the first mismatching
placeholder count found in traversal order together with the data count —
and, the result being an error of the `Result`-typed bind, no new plan is
returned (the fresh destination arena is discarded, so the bind is
atomic). -/
theorem bind_schema_mismatch_fails (fuel : Nat) (p : IRPlan) (t : IRTree)
    (dn : Nat) (da : Arena IR) (df : DataFrame) (ds : Schema)
    (oos : Option Schema) (N : Nat)
    (h : toTree fuel p.lp_arena p.lp_top = some t)
    (hd : da.get? dn = some (.DataFrameScan df ds oos))
    (hN : hasPHCount N t = true)
    (hne : N ≠ ds.length) :
    ∃ nn, hasPHCount nn t = true ∧ nn ≠ ds.length ∧
      p.bind_data fuel dn da = .error (.schemaMismatch nn ds.length) := by
  cases hfm : firstLeaf (mismatchLeaf ds.length) t with
  | none =>
    exfalso
    have hall := fm_none_countsOk ds.length t hfm
    exact hne (countsOk_hasPHCount ds.length N t hall
      (by simpa [hasPHCount] using hN))
  | some nn =>
    have hmem := fm_some_mem ds.length t nn hfm
    have herr := bindTree_mismatch df ds oos t nn hfm
    have hfail := (bind_data_toTree fuel p t dn da h).1
      (.schemaMismatch nn ds.length) (by rw [hd]; exact herr)
    exact ⟨nn, by simpa [hasPHCount] using hmem.1, hmem.2, hfail⟩

/-- C3 witness: the two-placeholder template (one-column placeholders)
bound against a three-column dataframe scan. -/
theorem bind_schema_mismatch_fails_witness :
    toTree 3 exPlanTwoPH.lp_arena exPlanTwoPH.lp_top = some exTreeTwoPH ∧
    (Arena.mk [IR.DataFrameScan dfC3 dfC3.schema none]).get? 0 =
      some (.DataFrameScan dfC3 dfC3.schema none) ∧
    hasPHCount 1 exTreeTwoPH = true ∧
    (1 : Nat) ≠ dfC3.schema.length ∧
    (∃ nn, hasPHCount nn exTreeTwoPH = true ∧ nn ≠ dfC3.schema.length ∧
      exPlanTwoPH.bind_data 3 0 ⟨[IR.DataFrameScan dfC3 dfC3.schema none]⟩ =
        .error (.schemaMismatch nn dfC3.schema.length)) :=
  ⟨rfl, rfl,
   by simp [hasPHCount, anyLeaf, anyLeafList, isPHCountLeaf, exTreeTwoPH,
     schemaA],
   by simp [dfC3],
   bind_schema_mismatch_fails 3 exPlanTwoPH exTreeTwoPH 0
     ⟨[IR.DataFrameScan dfC3 dfC3.schema none]⟩ dfC3 dfC3.schema none 1 rfl rfl
     (by simp [hasPHCount, anyLeaf, anyLeafList, isPHCountLeaf, exTreeTwoPH,
        schemaA])
     (by simp [dfC3])⟩

/-- C4: when the supplied data node is a `DataFrameScan` whose column count
matches every placeholder, `bind_data` succeeds and replaces every
`PlaceholderScan` site of the template — including several distinct sites,
each receiving its own clone appended to the fresh destination arena —
with the single supplied data node, leaving everything else unchanged
(`substPH`), and cloning the expression arena. -/
theorem bind_substitutes_all_placeholders (fuel : Nat) (p : IRPlan)
    (t : IRTree) (dn : Nat) (da : Arena IR) (df : DataFrame) (ds : Schema)
    (oos : Option Schema)
    (h : toTree fuel p.lp_arena p.lp_top = some t)
    (hd : da.get? dn = some (.DataFrameScan df ds oos))
    (hcnt : phCountsOk ds.length t = true) :
    ∃ B, p.bind_data fuel dn da = .ok B ∧
      toTree fuel B.lp_arena B.lp_top = some (substPH df ds oos t) ∧
      B.expr_arena = p.expr_arena := by
  have hbind := bindTree_subst df ds oos t
    (by simpa [phCountsOk] using hcnt)
  exact (bind_data_toTree fuel p t dn da h).2 _ (by rw [hd]; exact hbind)

/-- C4 witness: a `Union` template referencing placeholders at two distinct
sites, bound once; both branches receive the same supplied data. -/
theorem bind_substitutes_all_placeholders_witness :
    toTree 3 exPlanTwoPH.lp_arena exPlanTwoPH.lp_top = some exTreeTwoPH ∧
    exDataArenaA.get? 0 = some (.DataFrameScan dfA2 schemaA none) ∧
    phCountsOk schemaA.length exTreeTwoPH = true ∧
    (∃ B, exPlanTwoPH.bind_data 3 0 exDataArenaA = .ok B ∧
      toTree 3 B.lp_arena B.lp_top =
        some (substPH dfA2 schemaA none exTreeTwoPH) ∧
      B.expr_arena = exPlanTwoPH.expr_arena) :=
  ⟨rfl, rfl,
   by simp [phCountsOk, allLeaf, allLeafList, phCountOkLeaf, exTreeTwoPH,
     schemaA],
   bind_substitutes_all_placeholders 3 exPlanTwoPH exTreeTwoPH 0
     exDataArenaA dfA2 schemaA none rfl rfl
     (by simp [phCountsOk, allLeaf, allLeafList, phCountOkLeaf, exTreeTwoPH,
        schemaA])⟩

/-- C5 counterexample: the claim fails as stated.  The supplied data node
is a `PlaceholderScan` (not a concrete-data leaf), yet `bind_data`
succeeds, because the template contains no placeholder and the supplied
node is never inspected. -/
theorem invalid_bind_target_cex :
    exBadDataArena.get? 0 = some (.PlaceholderScan schemaA none) ∧
    hasPH (.DataFrameScan dfAB schemaAB none) = false ∧
    toTree 1 exPlanNoPH.lp_arena exPlanNoPH.lp_top =
      some (.DataFrameScan dfAB schemaAB none) ∧
    exPlanNoPH.bind_data 1 0 exBadDataArena =
      .ok ⟨0, ⟨[.DataFrameScan dfAB schemaAB none]⟩, ⟨[]⟩⟩ := by
  refine ⟨rfl, ?_, rfl, rfl⟩
  simp [hasPH, anyLeaf, isPHLeaf]

/-- C5 amended: whenever the node supplied to `bind_data` exists and is
not a `DataFrameScan` (e.g. another `PlaceholderScan` or a non-leaf node),
and the template contains at least one reachable `PlaceholderScan` (the
counterexample shows the data is never inspected otherwise), the bind
fails atomically with the invalid-bind-target error. -/
theorem invalid_bind_target_amended (fuel : Nat) (p : IRPlan) (t : IRTree)
    (dn : Nat) (da : Arena IR) (dir : IR)
    (h : toTree fuel p.lp_arena p.lp_top = some t)
    (hd : da.get? dn = some dir)
    (hnot : ∀ df ds oos, dir ≠ .DataFrameScan df ds oos)
    (hph : hasPH t = true) :
    p.bind_data fuel dn da = .error .invalidBindTarget := by
  have herr := bindTree_invalid dir hnot t (by simpa [hasPH] using hph)
  exact (bind_data_toTree fuel p t dn da h).1 .invalidBindTarget
    (by rw [hd]; exact herr)

/-- C5 amended witness: a template with two placeholders bound to a
placeholder data node. -/
theorem invalid_bind_target_amended_witness :
    toTree 3 exPlanTwoPH.lp_arena exPlanTwoPH.lp_top = some exTreeTwoPH ∧
    exBadDataArena.get? 0 = some (.PlaceholderScan schemaA none) ∧
    (∀ df ds oos,
      (IR.PlaceholderScan schemaA none) ≠ .DataFrameScan df ds oos) ∧
    hasPH exTreeTwoPH = true ∧
    exPlanTwoPH.bind_data 3 0 exBadDataArena = .error .invalidBindTarget :=
  ⟨rfl, rfl, fun df ds oos hx => IR.noConfusion hx,
   by simp [hasPH, anyLeaf, anyLeafList, isPHLeaf, exTreeTwoPH],
   invalid_bind_target_amended 3 exPlanTwoPH exTreeTwoPH 0 exBadDataArena
     (.PlaceholderScan schemaA none) rfl rfl
     (fun df ds oos hx => IR.noConfusion hx)
     (by simp [hasPH, anyLeaf, anyLeafList, isPHLeaf, exTreeTwoPH])⟩

/-- C6: a template plan without any `PlaceholderScan` binds successfully
against every supplied data node and data arena — even a dangling handle
into an empty arena, since the supplied node is never dereferenced, so
neither the `DataFrameScan`-shape check nor the column-count check runs —
and the result is a structural copy of the template with the expression
arena cloned. -/
theorem bind_no_placeholder_succeeds (fuel : Nat) (p : IRPlan) (t : IRTree)
    (h : toTree fuel p.lp_arena p.lp_top = some t)
    (hnoph : hasPH t = false) :
    ∀ (dn : Nat) (da : Arena IR),
      ∃ B, p.bind_data fuel dn da = .ok B ∧
        toTree fuel B.lp_arena B.lp_top = some t ∧
        B.expr_arena = p.expr_arena := by
  intro dn da
  have hok := bindTree_ok_of_no_ph (da.get? dn) t
    (by simpa [hasPH] using hnoph)
  exact (bind_data_toTree fuel p t dn da h).2 t hok

/-- C6 witness: the placeholder-free plan bound against a dangling data
handle into the empty arena. -/
theorem bind_no_placeholder_succeeds_witness :
    toTree 1 exPlanNoPH.lp_arena exPlanNoPH.lp_top =
      some (.DataFrameScan dfAB schemaAB none) ∧
    hasPH (.DataFrameScan dfAB schemaAB none) = false ∧
    (∃ B, exPlanNoPH.bind_data 1 5 Arena.empty = .ok B ∧
      toTree 1 B.lp_arena B.lp_top =
        some (.DataFrameScan dfAB schemaAB none) ∧
      B.expr_arena = exPlanNoPH.expr_arena) :=
  ⟨rfl, by simp [hasPH, anyLeaf, isPHLeaf],
   bind_no_placeholder_succeeds 1 exPlanNoPH
     (.DataFrameScan dfAB schemaAB none) rfl
     (by simp [hasPH, anyLeaf, isPHLeaf]) 5 Arena.empty⟩
/-- C7: for every node with inputs, both transforms preserve input arity
and ordering exactly.  The template transform re-emits the same variant
with the children mapped pointwise in order, and a successful bind
re-emits the same variant with the same number of children where the
`i`-th output child is the bind of the `i`-th input child; in particular a
`Join` with inputs `(L, R)` yields a `Join` with inputs `(L', R')` in the
same order, never swapped. -/
theorem topology_preservation (fuel : Nat) (p : IRPlan) (t : IRTree)
    (h : toTree fuel p.lp_arena p.lp_top = some t)
    (hne : t.children ≠ []) :
    (∃ T, p.to_template fuel = some T ∧
      ∃ t2, toTree fuel T.lp_arena T.lp_top = some t2 ∧
        t2.tag = t.tag ∧ t2.children = t.children.map templateTree) ∧
    (∀ (dn : Nat) (da : Arena IR) (B : IRPlan),
      p.bind_data fuel dn da = .ok B →
      ∃ t3, toTree fuel B.lp_arena B.lp_top = some t3 ∧
        t3.tag = t.tag ∧ t3.children.length = t.children.length ∧
        ∀ (i : Nat) (c : IRTree), t.children[i]? = some c →
          ∃ c', t3.children[i]? = some c' ∧
            bindTree (da.get? dn) c = .ok c') := by
  constructor
  · obtain ⟨T, hT, hTt, _⟩ := to_template_toTree fuel p t h
    obtain ⟨htag, hch⟩ := templateTree_shape t hne
    exact ⟨T, hT, templateTree t, hTt, htag, hch⟩
  · intro dn da B hB
    cases hb : bindTree (da.get? dn) t with
    | error e =>
      have hfail := (bind_data_toTree fuel p t dn da h).1 e hb
      rw [hfail] at hB
      exact Except.noConfusion hB
    | ok t3 =>
      obtain ⟨B2, hB2, hB2t, _⟩ := (bind_data_toTree fuel p t dn da h).2 t3 hb
      rw [hB2] at hB
      obtain rfl : B2 = B := by injection hB
      obtain ⟨htag, hlen, hget⟩ := bindTree_children (da.get? dn) t t3 hb hne
      exact ⟨t3, hB2t, htag, hlen, hget⟩

/-- C7 witness: the `Select` over `Filter` over `DataFrameScan` plan,
templated and bound. -/
theorem topology_preservation_witness :
    toTree 3 exPlan.lp_arena exPlan.lp_top = some exTree ∧
    exTree.children ≠ [] ∧
    ((∃ T, exPlan.to_template 3 = some T ∧
      ∃ t2, toTree 3 T.lp_arena T.lp_top = some t2 ∧
        t2.tag = exTree.tag ∧
        t2.children = exTree.children.map templateTree) ∧
    (∀ (dn : Nat) (da : Arena IR) (B : IRPlan),
      exPlan.bind_data 3 dn da = .ok B →
      ∃ t3, toTree 3 B.lp_arena B.lp_top = some t3 ∧
        t3.tag = exTree.tag ∧
        t3.children.length = exTree.children.length ∧
        ∀ (i : Nat) (c : IRTree), exTree.children[i]? = some c →
          ∃ c', t3.children[i]? = some c' ∧
            bindTree (da.get? dn) c = .ok c')) :=
  ⟨rfl, by simp [exTree, IRTree.children],
   topology_preservation 3 exPlan exTree rfl
     (by simp [exTree, IRTree.children])⟩

/-- C8: in both transforms every child node is allocated into the fresh
destination arena strictly before its parent: in the append-only arena of
a resulting plan, every entry's recorded input handles are strictly
smaller than the entry's own index (`ClosedArena`), hence each input
handle already named a valid entry the instant it was recorded, the root
is the last entry allocated, and every recorded handle is a valid index of
the destination arena, so every node reachable from the new root stays in
the new arena. -/
theorem allocation_order_invariant (fuel : Nat) (p : IRPlan) (t : IRTree)
    (h : toTree fuel p.lp_arena p.lp_top = some t) :
    (∀ T, p.to_template fuel = some T →
      ClosedArena T.lp_arena ∧ T.lp_top + 1 = T.lp_arena.items.length ∧
      ∀ (i m : Nat) (ir : IR), T.lp_arena.get? i = some ir →
        m ∈ ir.inputsOf → m < i ∧ m < T.lp_arena.items.length) ∧
    (∀ (dn : Nat) (da : Arena IR) (B : IRPlan),
      p.bind_data fuel dn da = .ok B →
      ClosedArena B.lp_arena ∧ B.lp_top + 1 = B.lp_arena.items.length ∧
      ∀ (i m : Nat) (ir : IR), B.lp_arena.get? i = some ir →
        m ∈ ir.inputsOf → m < i ∧ m < B.lp_arena.items.length) := by
  constructor
  · intro T hT
    obtain ⟨ext, k, hc, hk, hcl, htt⟩ :=
      (convert_sound fuel).1 p.lp_arena p.lp_top t Arena.empty h
    simp only [IRPlan.to_template, hc] at hT
    obtain rfl : (⟨k, ⟨Arena.empty.items ++ ext⟩, p.expr_arena⟩ : IRPlan)
        = T := by injection hT
    have hclosed := hcl ClosedArena.empty
    refine ⟨hclosed, by simpa using hk, ?_⟩
    intro i m ir hi hm
    have h1 := hclosed i ir hi m hm
    have h2 := Arena.get?_lt_length _ i ir hi
    exact ⟨h1, Nat.lt_trans h1 h2⟩
  · intro dn da B hB
    cases hb : bindTree (da.get? dn) t with
    | error e =>
      have hfail := (replace_sound fuel).1 p.lp_arena p.lp_top t h dn da
        Arena.empty
      have h2 := hfail.1 e hb
      simp only [IRPlan.bind_data, h2] at hB
      exact Except.noConfusion hB
    | ok t' =>
      obtain ⟨ext, k, hc, hk, hcl, htt⟩ :=
        ((replace_sound fuel).1 p.lp_arena p.lp_top t h dn da
          Arena.empty).2 t' hb
      simp only [IRPlan.bind_data, hc] at hB
      obtain rfl : (⟨k, ⟨Arena.empty.items ++ ext⟩, p.expr_arena⟩ : IRPlan)
          = B := by injection hB
      have hclosed := hcl ClosedArena.empty
      refine ⟨hclosed, by simpa using hk, ?_⟩
      intro i m ir hi hm
      have h1 := hclosed i ir hi m hm
      have h2 := Arena.get?_lt_length _ i ir hi
      exact ⟨h1, Nat.lt_trans h1 h2⟩

/-- C8 witness: the example plan, templated and bound. -/
theorem allocation_order_invariant_witness :
    toTree 3 exPlan.lp_arena exPlan.lp_top = some exTree ∧
    ((∀ T, exPlan.to_template 3 = some T →
      ClosedArena T.lp_arena ∧ T.lp_top + 1 = T.lp_arena.items.length ∧
      ∀ (i m : Nat) (ir : IR), T.lp_arena.get? i = some ir →
        m ∈ ir.inputsOf → m < i ∧ m < T.lp_arena.items.length) ∧
    (∀ (dn : Nat) (da : Arena IR) (B : IRPlan),
      exPlan.bind_data 3 dn da = .ok B →
      ClosedArena B.lp_arena ∧ B.lp_top + 1 = B.lp_arena.items.length ∧
      ∀ (i m : Nat) (ir : IR), B.lp_arena.get? i = some ir →
        m ∈ ir.inputsOf → m < i ∧ m < B.lp_arena.items.length)) :=
  ⟨rfl, allocation_order_invariant 3 exPlan exTree rfl⟩

/-- C9: both transforms read the source plan and build the result in a
fresh destination arena; in this embedding they are pure functions of the
source plan, which therefore remains unchanged — after a failed
`bind_data` call the same untouched template still unfolds to the same
tree and can be rebound: a retry of the very same plan value with
corrected data (a `DataFrameScan` matching every placeholder's column
count) succeeds. -/
theorem transforms_read_only_retry (fuel : Nat) (p : IRPlan) (t : IRTree)
    (dn : Nat) (da : Arena IR) (e : BindErr) (dn' : Nat) (da' : Arena IR)
    (df : DataFrame) (ds : Schema) (oos : Option Schema)
    (h : toTree fuel p.lp_arena p.lp_top = some t)
    (_hfail : p.bind_data fuel dn da = .error e)
    (hd' : da'.get? dn' = some (.DataFrameScan df ds oos))
    (hcnt : phCountsOk ds.length t = true) :
    toTree fuel p.lp_arena p.lp_top = some t ∧
    ∃ B, p.bind_data fuel dn' da' = .ok B ∧
      toTree fuel B.lp_arena B.lp_top = some (substPH df ds oos t) := by
  have hbind := bindTree_subst df ds oos t
    (by simpa [phCountsOk] using hcnt)
  obtain ⟨B, hB, hBt, _⟩ := (bind_data_toTree fuel p t dn' da' h).2 _
    (by rw [hd']; exact hbind)
  exact ⟨h, B, hB, hBt⟩

/-- C9 witness: the two-placeholder template fails against three-column
data and then binds successfully, unchanged, against one-column data. -/
theorem transforms_read_only_retry_witness :
    toTree 3 exPlanTwoPH.lp_arena exPlanTwoPH.lp_top = some exTreeTwoPH ∧
    exPlanTwoPH.bind_data 3 0 ⟨[IR.DataFrameScan dfC3 dfC3.schema none]⟩ =
      .error (.schemaMismatch 1 3) ∧
    exDataArenaA.get? 0 = some (.DataFrameScan dfA2 schemaA none) ∧
    phCountsOk schemaA.length exTreeTwoPH = true ∧
    (toTree 3 exPlanTwoPH.lp_arena exPlanTwoPH.lp_top = some exTreeTwoPH ∧
    ∃ B, exPlanTwoPH.bind_data 3 0 exDataArenaA = .ok B ∧
      toTree 3 B.lp_arena B.lp_top =
        some (substPH dfA2 schemaA none exTreeTwoPH)) :=
  ⟨rfl, rfl, rfl,
   by simp [phCountsOk, allLeaf, allLeafList, phCountOkLeaf, exTreeTwoPH,
     schemaA],
   transforms_read_only_retry 3 exPlanTwoPH exTreeTwoPH 0
     ⟨[IR.DataFrameScan dfC3 dfC3.schema none]⟩ (.schemaMismatch 1 3) 0
     exDataArenaA dfA2 schemaA none rfl rfl rfl
     (by simp [phCountsOk, allLeaf, allLeafList, phCountOkLeaf, exTreeTwoPH,
        schemaA])⟩

/-- C10: `bind_to_df` wraps the supplied dataframe as a `DataFrameScan`
with `output_schema = none` and binding clones that node verbatim at each
placeholder site, so in the bound plan every placeholder site carries
`output_schema = none` — the template placeholder's recorded
`output_schema` is discarded, even when it is `some`: the result unfolds
to `substPH df df.schema none t`, which writes `none` at every bound
leaf regardless of the placeholder's recorded output schema. -/
theorem bind_to_df_output_schema_none (fuel : Nat) (p : IRPlan)
    (t : IRTree) (df : DataFrame)
    (h : toTree fuel p.lp_arena p.lp_top = some t)
    (hcnt : phCountsOk df.schema.length t = true) :
    ∃ B, p.bind_to_df fuel df = .ok B ∧
      toTree fuel B.lp_arena B.lp_top =
        some (substPH df df.schema none t) := by
  have hbind := bindTree_subst df df.schema none t
    (by simpa [phCountsOk] using hcnt)
  obtain ⟨B, hB, hBt, _⟩ := (bind_data_toTree fuel p t 0
    ⟨[.DataFrameScan df df.schema none]⟩ h).2 _ hbind
  exact ⟨B, hB, hBt⟩

/-- C10 witness: the two-placeholder template whose second placeholder
records `some` output schema; after `bind_to_df` both bound leaves carry
`output_schema = none`. -/
theorem bind_to_df_output_schema_none_witness :
    toTree 3 exPlanTwoPH.lp_arena exPlanTwoPH.lp_top = some exTreeTwoPH ∧
    phCountsOk dfA2.schema.length exTreeTwoPH = true ∧
    exTreeTwoPH =
      .Union [.PlaceholderScan schemaA none,
        .PlaceholderScan schemaA (some schemaA)] 0 ∧
    (∃ B, exPlanTwoPH.bind_to_df 3 dfA2 = .ok B ∧
      toTree 3 B.lp_arena B.lp_top =
        some (substPH dfA2 dfA2.schema none exTreeTwoPH)) :=
  ⟨rfl,
   by simp [phCountsOk, allLeaf, allLeafList, phCountOkLeaf, exTreeTwoPH,
     schemaA, dfA2],
   rfl,
   bind_to_df_output_schema_none 3 exPlanTwoPH exTreeTwoPH dfA2 rfl
     (by simp [phCountsOk, allLeaf, allLeafList, phCountOkLeaf, exTreeTwoPH,
        schemaA, dfA2])⟩

end Polars
